import Mathlib

/-!
# cpu-scheduler: a shallow embedding of `mlfq.cpp` and `scheduler.cpp`

Both programs read a job list, then run one loop whose body is executed once per
tick: admission of the jobs arriving at this tick, expiry of the running job's
quantum, selection of the next job, emission of one trace record, and the
`all_done` test.

Modelling conventions.

* C++ `int` is modelled by `Int`.  Signed overflow is undefined behaviour in C++, so
  the model describes the executions in which no counter leaves the `int` range.
  Where a statement is about what happens beyond that range, `Mlfq32` is the loop of
  `mlfq.cpp` with a 32-bit `int` that wraps around.
* `std::deque<int>` is a `List Int` (front = head), `std::vector<Customer>` a
  `List Customer`; `customers[id]` is `customerAt`, and a write to a field of
  `customers[id]` is `List.set` at `id.toNat`.
* `std::sort` is a parameter `sort` of the model.  The C++ standard only promises
  that the result is a permutation of the input which is ordered for the
  comparator; the order of elements with equal keys is unspecified.  `StdSort`
  states exactly this promise, and `insertion_sort` is a concrete (stable)
  instance used to evaluate the model.  Where a statement depends on the order of
  elements with equal keys, `Libstdcxx.sort` is the `std::sort` of libstdc++.
* The output file is the list of the records `(current_time, current_id)` written
  by `print_state` (`PRINT_LOG` is `0`, so nothing else is printed).
* The input file is the list of the records that `initialize_system` parses.
-/

namespace CpuScheduler

/-! ## Constants and data (shared by both programs) -/

def TIME_ALLOWANCE : Int := 8
def HIGH_PRIORITY : Int := 0
def LOW_PRIORITY : Int := 1

/-- One `Customer` object. -/
structure Customer where
  name : String
  priority : Int
  arrival_time : Int
  slots_remaining : Int
  playing_since : Int
deriving DecidableEq

/-- One `Event` object. -/
structure Event where
  event_time : Int
  customer_id : Int
deriving DecidableEq

/-- One line of the input file: `name priority arrival_time slots_requested`. -/
structure Job where
  name : String
  priority : Int
  arrival_time : Int
  slots_requested : Int
deriving DecidableEq

/-- The constructor `Customer(name, priority, arrival_time, slots_remaining)`. -/
def customer_from_file (j : Job) : Customer :=
  { name := j.name, priority := j.priority, arrival_time := j.arrival_time,
    slots_remaining := j.slots_requested, playing_since := -1 }

/-- The arrival events pushed by the reading loop, `customer_id` being the value of the
counter when the loop reaches the first of the given lines. -/
def arrival_events_from (customer_id : Int) : List Job → List Event
  | [] => []
  | j :: rest =>
    { event_time := j.arrival_time, customer_id := customer_id } ::
      arrival_events_from (customer_id + 1) rest

/-- The function `initialize_system`: one customer and one arrival event per line, in input
order, ids counted from 0.  Nothing is sorted. -/
def initialize_system (in_file : List Job) : List Event × List Customer :=
  (arrival_events_from 0 in_file, in_file.map customer_from_file)

/-- The value read at an index outside the vector (never reached from `main`). -/
def noCustomer : Customer :=
  { name := "", priority := 0, arrival_time := 0, slots_remaining := 0, playing_since := -1 }

/-- The element `customers[id]`. -/
def customerAt (customers : List Customer) (id : Int) : Customer :=
  customers.getD id.toNat noCustomer

/-- The comparator handed to `std::sort`:
`customers[a].slots_remaining < customers[b].slots_remaining`. -/
def by_slots_remaining (customers : List Customer) (a b : Int) : Bool :=
  decide ((customerAt customers a).slots_remaining < (customerAt customers b).slots_remaining)

/-- The admission loop `while (!arrival_events.empty() && current_time ==
arrival_events[0].event_time)`: returns the calendar and the arrival queue after it. -/
def admission_loop (current_time : Int) : List Event → List Int → List Event × List Int
  | [], arrival_queue => ([], arrival_queue)
  | e :: rest, arrival_queue =>
    if current_time = e.event_time then
      admission_loop current_time rest (arrival_queue ++ [e.customer_id])
    else (e :: rest, arrival_queue)

/-- What `print_state` appends to the output file. -/
def print_state (out_file : List (Int × Int)) (current_time current_id : Int) :
    List (Int × Int) :=
  out_file ++ [(current_time, current_id)]

/-- The contract of `std::sort` for a comparator `key a < key b`: the result is a
permutation of the input and no element is followed by one with a smaller key. -/
def StdSort (sort : (Int → Int → Bool) → List Int → List Int) : Prop :=
  ∀ (key : Int → Int) (l : List Int),
    (sort (fun a b => decide (key a < key b)) l).Perm l ∧
    (sort (fun a b => decide (key a < key b)) l).Pairwise (fun a b => key a ≤ key b)

/-- Insertion of `a` in front of the first element that is not smaller than `a`. -/
def insert_sorted (lt : Int → Int → Bool) (a : Int) : List Int → List Int
  | [] => [a]
  | b :: l => if lt b a then b :: insert_sorted lt a l else a :: b :: l

/-- A concrete sorting function meeting `StdSort` (insertion sort, stable). -/
def insertion_sort (lt : Int → Int → Bool) : List Int → List Int
  | [] => []
  | a :: l => insert_sorted lt a (insertion_sort lt l)

/-! ## `mlfq.cpp` -/

namespace Mlfq

def NUM_PRIORITIES : Nat := 2
def TIME_ALLOWANCES : List Int := [50, 50, 3, 4, 5, 6, 7, 8, 9, 10, 11, 12, 13, 14, 15, 16]

/-- The variables of `main` that live across the iterations of the tick loop. -/
structure State where
  arrival_events : List Event
  customers : List Customer
  arrival_queue : List Int
  queues : List (List Int)
  current_queue_index : Int
  current_id : Int
  time_out : Int
  all_done : Bool
  current_time : Int
  out_file : List (Int × Int)

/-- The state on entry to the tick loop. -/
def initial_state (in_file : List Job) : State :=
  { arrival_events := (initialize_system in_file).1
    customers := (initialize_system in_file).2
    arrival_queue := []
    queues := List.replicate NUM_PRIORITIES []
    current_queue_index := -1
    current_id := -1
    time_out := -1
    all_done := false
    current_time := 0
    out_file := [] }

/-- Lines 121-124: the admission loop. -/
def admission (s : State) : State :=
  { s with
    arrival_events := (admission_loop s.current_time s.arrival_events s.arrival_queue).1
    arrival_queue := (admission_loop s.current_time s.arrival_events s.arrival_queue).2 }

/-- The statement `queues[i].push_back(id)`. -/
def push_back (queues : List (List Int)) (i : Nat) (id : Int) : List (List Int) :=
  queues.set i (queues.getD i [] ++ [id])

/-- Lines 126-142: the expiry check. -/
def expiry (s : State) : State :=
  if 0 ≤ s.current_id ∧ s.current_time = s.time_out then
    let c := customerAt s.customers s.current_id
    let last_run := s.current_time - c.playing_since
    let c1 : Customer := { c with slots_remaining := c.slots_remaining - last_run }
    { s with
      customers := s.customers.set s.current_id.toNat c1
      queues :=
        if 0 < c1.slots_remaining then
          if c1.priority = HIGH_PRIORITY then push_back s.queues 0 s.current_id
          else if c1.priority = LOW_PRIORITY then push_back s.queues 0 s.current_id
          else s.queues
        else s.queues
      current_id := -1 }
  else s

/-- Lines 149-154: the index of the first non-empty leveled queue among
`queues[i], ..., queues[i + n - 1]`, or `-1`. -/
def scan_queues (queues : List (List Int)) : Nat → Nat → Int
  | 0, _ => -1
  | n + 1, i => if queues.getD i [] ≠ [] then (i : Int) else scan_queues queues n (i + 1)

/-- Lines 145-184: the selection of a new customer. -/
def selection (sort : (Int → Int → Bool) → List Int → List Int) (s : State) : State :=
  if s.current_id = -1 then
    let idx : Int := if s.arrival_queue = [] then scan_queues s.queues NUM_PRIORITIES 0 else -1
    let queues : List (List Int) :=
      if idx ≠ -1 then
        s.queues.set idx.toNat (sort (by_slots_remaining s.customers) (s.queues.getD idx.toNat []))
      else s.queues
    if idx = -1 ∧ s.arrival_queue ≠ [] then
      match s.arrival_queue with
      | [] => { s with current_queue_index := idx, queues := queues }
      | id :: rest =>
        { s with
          current_queue_index := idx
          queues := queues
          current_id := id
          arrival_queue := rest
          time_out := s.current_time + min TIME_ALLOWANCE (customerAt s.customers id).slots_remaining
          customers := s.customers.set id.toNat
            { customerAt s.customers id with playing_since := s.current_time } }
    else if 0 ≤ idx then
      match queues.getD idx.toNat [] with
      | [] => { s with current_queue_index := idx, queues := queues }
      | id :: rest =>
        { s with
          current_queue_index := idx
          queues := queues.set idx.toNat rest
          current_id := id
          time_out := s.current_time +
            min (TIME_ALLOWANCES.getD idx.toNat 0) (customerAt s.customers id).slots_remaining
          customers := s.customers.set id.toNat
            { customerAt s.customers id with playing_since := s.current_time } }
    else { s with current_queue_index := idx, queues := queues }
  else s

/-- Lines 192-198: `queues_is_empty`, for the queues `i, ..., i + n - 1`. -/
def queues_is_empty (queues : List (List Int)) : Nat → Nat → Bool
  | 0, _ => true
  | n + 1, i => if queues.getD i [] ≠ [] then false else queues_is_empty queues n (i + 1)

/-- One iteration of the tick loop, followed by `current_time++`. -/
def tick (sort : (Int → Int → Bool) → List Int → List Int) (s : State) : State :=
  let s1 := selection sort (expiry (admission s))
  { s1 with
    out_file := print_state s1.out_file s1.current_time s1.current_id
    all_done := s1.arrival_events.isEmpty && s1.arrival_queue.isEmpty &&
      queues_is_empty s1.queues NUM_PRIORITIES 0 && decide (s1.current_id = -1)
    current_time := s1.current_time + 1 }

/-- The state after `n` iterations of the loop body (whether or not `all_done` was set on
the way). -/
def run_ticks (sort : (Int → Int → Bool) → List Int → List Int) (s : State) : Nat → State
  | 0 => s
  | n + 1 => tick sort (run_ticks sort s n)

/-- The loop `for (current_time = 0; !all_done; current_time++)`, run for at most `fuel`
iterations: the state in which it stops, or `none` when `fuel` iterations do not reach
`all_done`. -/
def main_loop (sort : (Int → Int → Bool) → List Int → List Int) : Nat → State → Option State
  | 0, s => if s.all_done then some s else none
  | fuel + 1, s => if s.all_done then some s else main_loop sort fuel (tick sort s)

/-- The output file written by `main`, when the loop stops within `fuel` iterations. -/
def main (sort : (Int → Int → Bool) → List Int → List Int) (fuel : Nat) (in_file : List Job) :
    Option (List (Int × Int)) :=
  (main_loop sort fuel (initial_state in_file)).map (fun s => s.out_file)

end Mlfq

/-! ## `scheduler.cpp` -/

namespace Scheduler

/-- The queue that the pointer `current_queue` points to. -/
inductive QueueRef where
  | arrival_queue
  | high_priority_queue
  | low_priority_queue
deriving DecidableEq

/-- The variables of `main` that live across the iterations of the tick loop. -/
structure State where
  arrival_events : List Event
  customers : List Customer
  arrival_queue : List Int
  high_priority_queue : List Int
  low_priority_queue : List Int
  current_queue : QueueRef
  current_id : Int
  time_out : Int
  all_done : Bool
  current_time : Int
  out_file : List (Int × Int)

/-- The state on entry to the tick loop. -/
def initial_state (in_file : List Job) : State :=
  { arrival_events := (initialize_system in_file).1
    customers := (initialize_system in_file).2
    arrival_queue := []
    high_priority_queue := []
    low_priority_queue := []
    current_queue := QueueRef.arrival_queue
    current_id := -1
    time_out := -1
    all_done := false
    current_time := 0
    out_file := [] }

/-- The deque `*current_queue`. -/
def deref (s : State) (q : QueueRef) : List Int :=
  match q with
  | QueueRef.arrival_queue => s.arrival_queue
  | QueueRef.high_priority_queue => s.high_priority_queue
  | QueueRef.low_priority_queue => s.low_priority_queue

/-- An assignment to the deque `*q`. -/
def assign (s : State) (q : QueueRef) (l : List Int) : State :=
  match q with
  | QueueRef.arrival_queue => { s with arrival_queue := l }
  | QueueRef.high_priority_queue => { s with high_priority_queue := l }
  | QueueRef.low_priority_queue => { s with low_priority_queue := l }

/-- Lines 116-119: the admission loop. -/
def admission (s : State) : State :=
  { s with
    arrival_events := (admission_loop s.current_time s.arrival_events s.arrival_queue).1
    arrival_queue := (admission_loop s.current_time s.arrival_events s.arrival_queue).2 }

/-- Lines 120-135: the expiry check. -/
def expiry (s : State) : State :=
  if 0 ≤ s.current_id ∧ s.current_time = s.time_out then
    let c := customerAt s.customers s.current_id
    let last_run := s.current_time - c.playing_since
    let c1 : Customer := { c with slots_remaining := c.slots_remaining - last_run }
    let s1 : State := { s with customers := s.customers.set s.current_id.toNat c1 }
    let s2 : State :=
      if 0 < c1.slots_remaining then
        if c1.priority = HIGH_PRIORITY then
          { s1 with high_priority_queue := s1.high_priority_queue ++ [s.current_id] }
        else if c1.priority = LOW_PRIORITY then
          { s1 with low_priority_queue := s1.low_priority_queue ++ [s.current_id] }
        else s1
      else s1
    { s2 with current_id := -1 }
  else s

/-- Lines 139-150: the first three branches of the rotation of `current_queue`. -/
def rotate_first (s : State) : QueueRef :=
  match s.current_queue with
  | QueueRef.arrival_queue => QueueRef.high_priority_queue
  | QueueRef.high_priority_queue => QueueRef.arrival_queue
  | QueueRef.low_priority_queue =>
    if s.arrival_queue = [] then QueueRef.high_priority_queue else QueueRef.arrival_queue

/-- Lines 139-156: the queue `current_queue` points to after the rotation. -/
def rotate (s : State) : QueueRef :=
  let q := rotate_first s
  if s.arrival_queue = [] ∧ s.high_priority_queue = [] then
    if s.low_priority_queue = [] then QueueRef.arrival_queue else QueueRef.low_priority_queue
  else q

/-- Lines 138-163: what is done when `current_queue` is empty. -/
def rotation (sort : (Int → Int → Bool) → List Int → List Int) (s : State) : State :=
  if deref s s.current_queue = [] then
    let s1 : State := { s with current_queue := rotate s }
    if s1.current_queue ≠ QueueRef.arrival_queue then
      assign s1 s1.current_queue (sort (by_slots_remaining s1.customers) (deref s1 s1.current_queue))
    else s1
  else s

/-- Lines 165-180: the dispatch of the front of `current_queue`. -/
def dispatch (s : State) : State :=
  match deref s s.current_queue with
  | [] => s
  | id :: rest =>
    let s1 := assign s s.current_queue rest
    { s1 with
      current_id := id
      time_out :=
        if s.current_queue = QueueRef.arrival_queue then
          if TIME_ALLOWANCE > (customerAt s.customers id).slots_remaining then
            s.current_time + (customerAt s.customers id).slots_remaining
          else s.current_time + TIME_ALLOWANCE
        else s.current_time + (customerAt s.customers id).slots_remaining
      customers := s.customers.set id.toNat
        { customerAt s.customers id with playing_since := s.current_time } }

/-- Lines 136-181: the selection of a new customer. -/
def selection (sort : (Int → Int → Bool) → List Int → List Int) (s : State) : State :=
  if s.current_id = -1 then dispatch (rotation sort s) else s

/-- One iteration of the tick loop, followed by `current_time++`. -/
def tick (sort : (Int → Int → Bool) → List Int → List Int) (s : State) : State :=
  let s1 := selection sort (expiry (admission s))
  { s1 with
    out_file := print_state s1.out_file s1.current_time s1.current_id
    all_done := s1.arrival_events.isEmpty && s1.arrival_queue.isEmpty &&
      s1.high_priority_queue.isEmpty && s1.low_priority_queue.isEmpty &&
      decide (s1.current_id = -1)
    current_time := s1.current_time + 1 }

/-- The state after `n` iterations of the loop body. -/
def run_ticks (sort : (Int → Int → Bool) → List Int → List Int) (s : State) : Nat → State
  | 0 => s
  | n + 1 => tick sort (run_ticks sort s n)

/-- The loop `for (current_time = 0; !all_done; current_time++)`, run for at most `fuel`
iterations. -/
def main_loop (sort : (Int → Int → Bool) → List Int → List Int) : Nat → State → Option State
  | 0, s => if s.all_done then some s else none
  | fuel + 1, s => if s.all_done then some s else main_loop sort fuel (tick sort s)

/-- The output file written by `main`, when the loop stops within `fuel` iterations. -/
def main (sort : (Int → Int → Bool) → List Int → List Int) (fuel : Nat) (in_file : List Job) :
    Option (List (Int × Int)) :=
  (main_loop sort fuel (initial_state in_file)).map (fun s => s.out_file)

end Scheduler

end CpuScheduler

/-! ## `mlfq.cpp` with a 32-bit `int`

The loop of `mlfq.cpp` once more, with `int` read as a 32-bit two's complement integer: the
result of every `int` addition and subtraction wraps around.  (Signed overflow is undefined
in C++; wrap-around is what the usual compilers produce for this loop.)  The admission loop
and the state are those of `Mlfq`; as long as no result leaves the `int` range the two loops
do the same. -/

namespace CpuScheduler

/-- The largest value of an `int`. -/
def INT_MAX : Int := 2147483647

/-- The 32-bit two's complement `int` that the arithmetic result `x` wraps around to. -/
def wrap (x : Int) : Int := (x + 2147483648) % 4294967296 - 2147483648

namespace Mlfq32

/-- Lines 126-142: the expiry check. -/
def expiry (s : Mlfq.State) : Mlfq.State :=
  if 0 ≤ s.current_id ∧ s.current_time = s.time_out then
    let c := customerAt s.customers s.current_id
    let last_run := wrap (s.current_time - c.playing_since)
    let c1 : Customer := { c with slots_remaining := wrap (c.slots_remaining - last_run) }
    { s with
      customers := s.customers.set s.current_id.toNat c1
      queues :=
        if 0 < c1.slots_remaining then
          if c1.priority = HIGH_PRIORITY then Mlfq.push_back s.queues 0 s.current_id
          else if c1.priority = LOW_PRIORITY then Mlfq.push_back s.queues 0 s.current_id
          else s.queues
        else s.queues
      current_id := -1 }
  else s

/-- Lines 145-184: the selection of a new customer. -/
def selection (sort : (Int → Int → Bool) → List Int → List Int) (s : Mlfq.State) : Mlfq.State :=
  if s.current_id = -1 then
    let idx : Int :=
      if s.arrival_queue = [] then Mlfq.scan_queues s.queues Mlfq.NUM_PRIORITIES 0 else -1
    let queues : List (List Int) :=
      if idx ≠ -1 then
        s.queues.set idx.toNat (sort (by_slots_remaining s.customers) (s.queues.getD idx.toNat []))
      else s.queues
    if idx = -1 ∧ s.arrival_queue ≠ [] then
      match s.arrival_queue with
      | [] => { s with current_queue_index := idx, queues := queues }
      | id :: rest =>
        { s with
          current_queue_index := idx
          queues := queues
          current_id := id
          arrival_queue := rest
          time_out :=
            wrap (s.current_time + min TIME_ALLOWANCE (customerAt s.customers id).slots_remaining)
          customers := s.customers.set id.toNat
            { customerAt s.customers id with playing_since := s.current_time } }
    else if 0 ≤ idx then
      match queues.getD idx.toNat [] with
      | [] => { s with current_queue_index := idx, queues := queues }
      | id :: rest =>
        { s with
          current_queue_index := idx
          queues := queues.set idx.toNat rest
          current_id := id
          time_out := wrap (s.current_time +
            min (Mlfq.TIME_ALLOWANCES.getD idx.toNat 0) (customerAt s.customers id).slots_remaining)
          customers := s.customers.set id.toNat
            { customerAt s.customers id with playing_since := s.current_time } }
    else { s with current_queue_index := idx, queues := queues }
  else s

/-- One iteration of the tick loop, followed by `current_time++`. -/
def tick (sort : (Int → Int → Bool) → List Int → List Int) (s : Mlfq.State) : Mlfq.State :=
  let s1 := selection sort (expiry (Mlfq.admission s))
  { s1 with
    out_file := print_state s1.out_file s1.current_time s1.current_id
    all_done := s1.arrival_events.isEmpty && s1.arrival_queue.isEmpty &&
      Mlfq.queues_is_empty s1.queues Mlfq.NUM_PRIORITIES 0 && decide (s1.current_id = -1)
    current_time := wrap (s1.current_time + 1) }

/-- The state after `n` iterations of the loop body. -/
def run_ticks (sort : (Int → Int → Bool) → List Int → List Int) (s : Mlfq.State) :
    Nat → Mlfq.State
  | 0 => s
  | n + 1 => tick sort (run_ticks sort s n)

/-- The loop `for (current_time = 0; !all_done; current_time++)`, run for at most `fuel`
iterations. -/
def main_loop (sort : (Int → Int → Bool) → List Int → List Int) :
    Nat → Mlfq.State → Option Mlfq.State
  | 0, s => if s.all_done then some s else none
  | fuel + 1, s => if s.all_done then some s else main_loop sort fuel (tick sort s)

end Mlfq32

end CpuScheduler

/-! ## The `std::sort` of libstdc++

`mlfq.cpp` and `scheduler.cpp` call `std::sort`, which comes from the C++ library and not
from the repository.  Where a statement depends on more than the promise `StdSort` (on the
order in which `std::sort` leaves elements with equal keys), it is stated for the `std::sort`
of libstdc++, the library of GCC (`bits/stl_algo.h` and `bits/stl_heap.h`): an introsort
that partitions every range of more than 16 elements around a median of three, falls back to
a heap sort when the partitioning gets too deep, and finishes with an insertion sort.

The range is a `List Int` addressed by position, iterators are positions, and `comp` is the
comparator on the elements.  Every `while` loop takes a bound on the number of its
iterations.  A read of a position outside the list (undefined in C++) gives `0`. -/

namespace CpuScheduler
namespace Libstdcxx

/-- The constant `_S_threshold`. -/
def S_threshold : Nat := 16

/-- The loop behind `std::__lg`. -/
def lg_loop : Nat → Nat → Nat
  | 0, _ => 0
  | fuel + 1, n => if 2 ≤ n then lg_loop fuel (n / 2) + 1 else 0

/-- `std::__lg(n)`: the position of the highest bit of `n` that is set. -/
def lg (n : Nat) : Nat := lg_loop n n

/-- `std::iter_swap(a, b)`. -/
def iter_swap (v : List Int) (a b : Nat) : List Int :=
  (v.set a (v.getD b 0)).set b (v.getD a 0)

/-- `__move_median_to_first(result, a, b, c, comp)`. -/
def move_median_to_first (comp : Int → Int → Bool) (v : List Int) (result a b c : Nat) :
    List Int :=
  if comp (v.getD a 0) (v.getD b 0) then
    if comp (v.getD b 0) (v.getD c 0) then iter_swap v result b
    else if comp (v.getD a 0) (v.getD c 0) then iter_swap v result c
    else iter_swap v result a
  else if comp (v.getD a 0) (v.getD c 0) then iter_swap v result a
  else if comp (v.getD b 0) (v.getD c 0) then iter_swap v result c
  else iter_swap v result b

/-- The loop of `__unguarded_linear_insert`, with `val` taken out of position `last`:
`while (comp(val, next)) { *last = *next; last = next; --next; }  *last = val;`. -/
def unguarded_linear_insert_loop (comp : Int → Int → Bool) (val : Int) :
    Nat → List Int → Nat → List Int
  | 0, v, last => v.set last val
  | fuel + 1, v, last =>
    if comp val (v.getD (last - 1) 0) then
      unguarded_linear_insert_loop comp val fuel (v.set last (v.getD (last - 1) 0)) (last - 1)
    else v.set last val

/-- `__unguarded_linear_insert(last, comp)`. -/
def unguarded_linear_insert (comp : Int → Int → Bool) (v : List Int) (last : Nat) : List Int :=
  unguarded_linear_insert_loop comp (v.getD last 0) last v last

/-- The body of the `for` loop of `__insertion_sort`, at position `i`: when `*i` is smaller
than `*first` it is moved to the front (`move_backward(first, i, i + 1); *first = val`),
otherwise it is inserted by `__unguarded_linear_insert`. -/
def insertion_sort_step (comp : Int → Int → Bool) (v : List Int) (first i : Nat) : List Int :=
  if comp (v.getD i 0) (v.getD first 0) then
    v.take first ++ v.getD i 0 :: (v.drop first).take (i - first) ++ v.drop (i + 1)
  else unguarded_linear_insert comp v i

/-- The `for` loop of `__insertion_sort`, from position `i`, for `count` positions. -/
def insertion_sort_loop (comp : Int → Int → Bool) (first : Nat) : Nat → List Int → Nat → List Int
  | 0, v, _ => v
  | count + 1, v, i =>
    insertion_sort_loop comp first count (insertion_sort_step comp v first i) (i + 1)

/-- `__insertion_sort(first, last, comp)`. -/
def insertion_sort (comp : Int → Int → Bool) (v : List Int) (first last : Nat) : List Int :=
  if first = last then v
  else insertion_sort_loop comp first (last - (first + 1)) v (first + 1)

/-- The `for` loop of `__unguarded_insertion_sort`, from position `i`. -/
def unguarded_insertion_sort_loop (comp : Int → Int → Bool) : Nat → List Int → Nat → List Int
  | 0, v, _ => v
  | count + 1, v, i =>
    unguarded_insertion_sort_loop comp count (unguarded_linear_insert comp v i) (i + 1)

/-- `__unguarded_insertion_sort(first, last, comp)`. -/
def unguarded_insertion_sort (comp : Int → Int → Bool) (v : List Int) (first last : Nat) :
    List Int :=
  unguarded_insertion_sort_loop comp (last - first) v first

/-- `__final_insertion_sort(first, last, comp)`. -/
def final_insertion_sort (comp : Int → Int → Bool) (v : List Int) (first last : Nat) :
    List Int :=
  if last - first > S_threshold then
    unguarded_insertion_sort comp (insertion_sort comp v first (first + S_threshold))
      (first + S_threshold) last
  else insertion_sort comp v first last

/-- The loop `while (comp(first, pivot)) ++first;`. -/
def partition_up (comp : Int → Int → Bool) (v : List Int) (pivot : Nat) : Nat → Nat → Nat
  | 0, first => first
  | fuel + 1, first =>
    if comp (v.getD first 0) (v.getD pivot 0) then partition_up comp v pivot fuel (first + 1)
    else first

/-- The loop `while (comp(pivot, last)) --last;`. -/
def partition_down (comp : Int → Int → Bool) (v : List Int) (pivot : Nat) : Nat → Nat → Nat
  | 0, last => last
  | fuel + 1, last =>
    if comp (v.getD pivot 0) (v.getD last 0) then partition_down comp v pivot fuel (last - 1)
    else last

/-- `__unguarded_partition(first, last, pivot, comp)`: the range after the swaps, and the
position returned. -/
def unguarded_partition (comp : Int → Int → Bool) (pivot : Nat) :
    Nat → List Int → Nat → Nat → List Int × Nat
  | 0, v, first, _ => (v, first)
  | fuel + 1, v, first, last =>
    let first1 := partition_up comp v pivot v.length first
    let last1 := partition_down comp v pivot v.length (last - 1)
    if ¬ first1 < last1 then (v, first1)
    else unguarded_partition comp pivot fuel (iter_swap v first1 last1) (first1 + 1) last1

/-- `__unguarded_partition_pivot(first, last, comp)`. -/
def unguarded_partition_pivot (comp : Int → Int → Bool) (v : List Int) (first last : Nat) :
    List Int × Nat :=
  let mid := first + (last - first) / 2
  let v1 := move_median_to_first comp v first (first + 1) mid (last - 1)
  unguarded_partition comp first v1.length v1 (first + 1) last

/-- The loop of `__push_heap`, with `parent = (holeIndex - 1) / 2`. -/
def push_heap_loop (comp : Int → Int → Bool) (first topIndex : Nat) (value : Int) :
    Nat → List Int → Nat → List Int
  | 0, v, holeIndex => v.set (first + holeIndex) value
  | fuel + 1, v, holeIndex =>
    if holeIndex > topIndex ∧ comp (v.getD (first + (holeIndex - 1) / 2) 0) value = true then
      push_heap_loop comp first topIndex value fuel
        (v.set (first + holeIndex) (v.getD (first + (holeIndex - 1) / 2) 0)) ((holeIndex - 1) / 2)
    else v.set (first + holeIndex) value

/-- `__push_heap(first, holeIndex, topIndex, value, comp)`. -/
def push_heap (comp : Int → Int → Bool) (v : List Int) (first holeIndex topIndex : Nat)
    (value : Int) : List Int :=
  push_heap_loop comp first topIndex value v.length v holeIndex

/-- The first loop of `__adjust_heap`: the range, `holeIndex` and `secondChild` after it. -/
def adjust_heap_loop (comp : Int → Int → Bool) (first len : Nat) :
    Nat → List Int → Nat → Nat → List Int × Nat × Nat
  | 0, v, holeIndex, secondChild => (v, holeIndex, secondChild)
  | fuel + 1, v, holeIndex, secondChild =>
    if secondChild < (len - 1) / 2 then
      let child := 2 * (secondChild + 1)
      let child1 :=
        if comp (v.getD (first + child) 0) (v.getD (first + (child - 1)) 0) then child - 1
        else child
      adjust_heap_loop comp first len fuel (v.set (first + holeIndex) (v.getD (first + child1) 0))
        child1 child1
    else (v, holeIndex, secondChild)

/-- `__adjust_heap(first, holeIndex, len, value, comp)`. -/
def adjust_heap (comp : Int → Int → Bool) (v : List Int) (first holeIndex len : Nat)
    (value : Int) : List Int :=
  let r := adjust_heap_loop comp first len v.length v holeIndex holeIndex
  if len % 2 = 0 ∧ (r.2.2 : Int) = ((len : Int) - 2) / 2 then
    push_heap comp (r.1.set (first + r.2.1) (r.1.getD (first + (2 * (r.2.2 + 1) - 1)) 0)) first
      (2 * (r.2.2 + 1) - 1) holeIndex value
  else push_heap comp r.1 first r.2.1 holeIndex value

/-- `__pop_heap(first, last, result, comp)`. -/
def pop_heap (comp : Int → Int → Bool) (v : List Int) (first last result : Nat) : List Int :=
  adjust_heap comp (v.set result (v.getD first 0)) first 0 (last - first) (v.getD result 0)

/-- The loop of `__make_heap`, from `parent` down to 0. -/
def make_heap_loop (comp : Int → Int → Bool) (first len : Nat) : Nat → List Int → Nat → List Int
  | 0, v, _ => v
  | fuel + 1, v, parent =>
    if parent = 0 then adjust_heap comp v first parent len (v.getD (first + parent) 0)
    else make_heap_loop comp first len fuel
      (adjust_heap comp v first parent len (v.getD (first + parent) 0)) (parent - 1)

/-- `__make_heap(first, last, comp)`. -/
def make_heap (comp : Int → Int → Bool) (v : List Int) (first last : Nat) : List Int :=
  if last - first < 2 then v
  else make_heap_loop comp first (last - first) (last - first) v ((last - first - 2) / 2)

/-- The `for` loop of `__heap_select`, from position `i`. -/
def heap_select_loop (comp : Int → Int → Bool) (first middle : Nat) :
    Nat → List Int → Nat → List Int
  | 0, v, _ => v
  | count + 1, v, i =>
    heap_select_loop comp first middle count
      (if comp (v.getD i 0) (v.getD first 0) then pop_heap comp v first middle i else v) (i + 1)

/-- `__heap_select(first, middle, last, comp)`. -/
def heap_select (comp : Int → Int → Bool) (v : List Int) (first middle last : Nat) : List Int :=
  heap_select_loop comp first middle (last - middle) (make_heap comp v first middle) middle

/-- `__sort_heap(first, last, comp)`: `while (last - first > 1) { --last; pop_heap }`. -/
def sort_heap (comp : Int → Int → Bool) (first : Nat) : Nat → List Int → Nat → List Int
  | 0, v, _ => v
  | fuel + 1, v, last =>
    if last - first > 1 then
      sort_heap comp first fuel (pop_heap comp v first (last - 1) (last - 1)) (last - 1)
    else v

/-- `__partial_sort(first, middle, last, comp)`. -/
def partial_sort (comp : Int → Int → Bool) (v : List Int) (first middle last : Nat) : List Int :=
  sort_heap comp first v.length (heap_select comp v first middle last) middle

/-- `__introsort_loop(first, last, depth_limit, comp)`. -/
def introsort_loop (comp : Int → Int → Bool) : Nat → List Int → Nat → Nat → Nat → List Int
  | 0, v, _, _, _ => v
  | fuel + 1, v, first, last, depth_limit =>
    if last - first > S_threshold then
      if depth_limit = 0 then partial_sort comp v first last last
      else
        introsort_loop comp fuel
          (introsort_loop comp fuel (unguarded_partition_pivot comp v first last).1
            (unguarded_partition_pivot comp v first last).2 last (depth_limit - 1))
          first (unguarded_partition_pivot comp v first last).2 (depth_limit - 1)
    else v

/-- `std::sort(first, last, comp)` on the whole range `v`. -/
def sort (comp : Int → Int → Bool) (v : List Int) : List Int :=
  if v.length = 0 then v
  else
    final_insertion_sort comp
      (introsort_loop comp v.length v 0 v.length (lg v.length * 2)) 0 v.length

end Libstdcxx
end CpuScheduler

/-! ## Vocabulary of the statements

Input conditions, observations on the output file, and the invariants of the tick loop. -/

namespace CpuScheduler

/-- The customer ids `0, ..., n - 1`, in input order. -/
def ids (n : Nat) : List Int := (List.range n).map (fun i : Nat => (i : Int))

/-- The record of job `id` as read from the input file (ids count the lines from 0). -/
def job_of (in_file : List Job) (id : Int) : Customer :=
  customerAt (in_file.map customer_from_file) id

/-- The arrival ticks are non-decreasing in input order. -/
def ArrivalsSorted (in_file : List Job) : Prop :=
  in_file.Pairwise (fun a b => a.arrival_time ≤ b.arrival_time)

/-- No arrival tick is negative. -/
def ArrivalsNonneg (in_file : List Job) : Prop :=
  ∀ j ∈ in_file, 0 ≤ j.arrival_time

/-- Every job requests at least one slot. -/
def SlotsPositive (in_file : List Job) : Prop :=
  ∀ j ∈ in_file, 0 < j.slots_requested

/-- No job requests a negative number of slots. -/
def SlotsNonneg (in_file : List Job) : Prop :=
  ∀ j ∈ in_file, 0 ≤ j.slots_requested

/-- Every priority is `HIGH_PRIORITY` or `LOW_PRIORITY`. -/
def PrioritiesValid (in_file : List Job) : Prop :=
  ∀ j ∈ in_file, j.priority = HIGH_PRIORITY ∨ j.priority = LOW_PRIORITY

/-- The largest arrival tick of the input (0 for the empty input). -/
def max_arrival (in_file : List Job) : Int :=
  in_file.foldr (fun j a => max j.arrival_time a) 0

/-- The sum of all `slots_requested`. -/
def total_slots (in_file : List Job) : Int :=
  (in_file.map (fun j => j.slots_requested)).sum

/-- The running ids of the records of an output file, in order. -/
def names (out_file : List (Int × Int)) : List Int := out_file.map Prod.snd

/-- The number of records of an output file that name `id` as the running job. -/
def served (out_file : List (Int × Int)) (id : Int) : Nat := (names out_file).count id

/-- Every record names, before it, all smaller ids: whenever the record of tick `t` names the
job `id`, each job `i` with `0 ≤ i < id` is named by the record of an earlier tick. -/
def FifoTrace (out_file : List (Int × Int)) : Prop :=
  ∀ (t : Nat) (r : Int × Int), out_file[t]? = some r →
    ∀ i : Int, 0 ≤ i → i < r.2 → i ∈ names (out_file.take t)

/-- The input of scenario 2 of the specification: `A 0 0 20` and `B 0 1 3`. -/
def scenario_two : List Job :=
  [{ name := "A", priority := 0, arrival_time := 0, slots_requested := 20 },
   { name := "B", priority := 0, arrival_time := 1, slots_requested := 3 }]

/-- The records of `len` consecutive ticks from `start` on, all naming `id`. -/
def span (start : Int) (len : Nat) (id : Int) : List (Int × Int) :=
  (List.range len).map (fun i : Nat => (start + (i : Int), id))

/-- The input of scenario 1 of the specification: `A 0 0 5`. -/
def scenario_one : List Job :=
  [{ name := "A", priority := 0, arrival_time := 0, slots_requested := 5 }]

/-- The input on which the two programs are compared: `A 0 0 68` and `B 0 9 3`. -/
def two_variants_jobs : List Job :=
  [{ name := "A", priority := 0, arrival_time := 0, slots_requested := 68 },
   { name := "B", priority := 0, arrival_time := 9, slots_requested := 3 }]

/-- Two jobs that are demoted with 7 and 2 slots left: `A 0 0 15` and `B 0 0 10`. -/
def two_demoted_jobs : List Job :=
  [{ name := "A", priority := 0, arrival_time := 0, slots_requested := 15 },
   { name := "B", priority := 0, arrival_time := 0, slots_requested := 10 }]

/-- A job that waits since tick 0 and a job that arrives while the first one runs:
`A 0 0 20`, `B 0 0 3` and `C 0 1 3`. -/
def waiting_and_arriving_jobs : List Job :=
  [{ name := "A", priority := 0, arrival_time := 0, slots_requested := 20 },
   { name := "B", priority := 0, arrival_time := 0, slots_requested := 3 },
   { name := "C", priority := 0, arrival_time := 1, slots_requested := 3 }]

/-- Two jobs that arrive at the same tick: `A 0 0 20` and `B 1 0 3`. -/
def same_tick_jobs : List Job :=
  [{ name := "A", priority := 0, arrival_time := 0, slots_requested := 20 },
   { name := "B", priority := 1, arrival_time := 0, slots_requested := 3 }]

/-- A single job of priority 1 that needs more than one quantum: `A 1 0 20`. -/
def low_priority_job : List Job :=
  [{ name := "A", priority := 1, arrival_time := 0, slots_requested := 20 }]

/-- A job that requests no slot, followed by an ordinary job: `A 0 0 0` and `B 0 0 3`. -/
def zero_demand_jobs : List Job :=
  [{ name := "A", priority := 0, arrival_time := 0, slots_requested := 0 },
   { name := "B", priority := 0, arrival_time := 0, slots_requested := 3 }]

/-- A single job that requests no slot: `A 0 0 0`. -/
def zero_demand_job : List Job :=
  [{ name := "A", priority := 0, arrival_time := 0, slots_requested := 0 }]

/-- A job whose priority is neither 0 nor 1, followed by an ordinary job: `A 2 0 20` and
`B 0 1 3`. -/
def odd_priority_jobs : List Job :=
  [{ name := "A", priority := 2, arrival_time := 0, slots_requested := 20 },
   { name := "B", priority := 0, arrival_time := 1, slots_requested := 3 }]

/-- An input that is not listed by arrival tick: `A 0 5 5` and `B 0 2 3`. -/
def unsorted_jobs : List Job :=
  [{ name := "A", priority := 0, arrival_time := 5, slots_requested := 5 },
   { name := "B", priority := 0, arrival_time := 2, slots_requested := 3 }]

namespace Mlfq

/-- The ids not yet dispatched for the first time: the arrival queue followed by the
calendar. -/
def waiting (s : State) : List Int :=
  s.arrival_queue ++ s.arrival_events.map (fun e => e.customer_id)

/-- The calendar, the arrival queue, every leveled queue and the running slot are empty. -/
def AllEmpty (s : State) : Prop :=
  s.arrival_events = [] ∧ s.arrival_queue = [] ∧ (∀ q ∈ s.queues, q = []) ∧ s.current_id = -1

/-- The ids that the admission loop moves into the arrival queue at the tick that starts in
state `s`. -/
def admitted (s : State) : List Int :=
  (admission s).arrival_queue.drop s.arrival_queue.length

/-- The ids moved into the arrival queue at tick `t` of the run on `in_file`. -/
def admitted_at (sort : (Int → Int → Bool) → List Int → List Int) (in_file : List Job)
    (t : Nat) : List Int :=
  admitted (run_ticks sort (initial_state in_file) t)

/-- The number of jobs dispatched from the arrival queue so far. -/
def dispatched (in_file : List Job) (s : State) : Nat :=
  in_file.length - (waiting s).length

/-- The end of an iteration: the record is written, `all_done` is computed and the clock
advances. -/
def emit (s : State) : State :=
  { s with
    out_file := print_state s.out_file s.current_time s.current_id
    all_done := s.arrival_events.isEmpty && s.arrival_queue.isEmpty &&
      queues_is_empty s.queues NUM_PRIORITIES 0 && decide (s.current_id = -1)
    current_time := s.current_time + 1 }

/-- Structural invariant of the tick loop, for every input.  It holds at the head of the
loop, and still holds after the admission loop and after the expiry check. -/
structure Wf (in_file : List Job) (s : State) : Prop where
  customers_length : s.customers.length = in_file.length
  arrival_time_eq : ∀ id : Int,
    (customerAt s.customers id).arrival_time = (job_of in_file id).arrival_time
  priority_eq : ∀ id : Int,
    (customerAt s.customers id).priority = (job_of in_file id).priority
  waiting_eq : waiting s = (ids in_file.length).drop (dispatched in_file s)
  event_time_eq : ∀ e ∈ s.arrival_events,
    e.event_time = (job_of in_file e.customer_id).arrival_time
  queues_eq : ∃ q0, s.queues = [q0, []] ∧ ∀ id ∈ q0, 0 ≤ id ∧ id < dispatched in_file s
  current_lt : s.current_id = -1 ∨ (0 ≤ s.current_id ∧ s.current_id < dispatched in_file s)
  current_time_eq : s.current_time = s.out_file.length
  ticks_eq : s.out_file.map Prod.fst = ids s.out_file.length
  named : ∀ id : Int, 0 ≤ id → id < dispatched in_file s → id ∈ names s.out_file
  names_lt : ∀ id ∈ names s.out_file, id = -1 ∨ (0 ≤ id ∧ id < dispatched in_file s)

/-- Accounting invariant of the tick loop, for inputs whose `slots_requested` are positive.
`strict` is set between the expiry check and the emission of the record. -/
structure Acct (in_file : List Job) (strict : Bool) (s : State) : Prop where
  queues_nodup : ∀ q ∈ s.queues, q.Nodup
  current_not_queued : ∀ q ∈ s.queues, s.current_id ∉ q
  balance : ∀ id : Int, 0 ≤ id → id < in_file.length →
    (served s.out_file id : Int) + (customerAt s.customers id).slots_remaining =
      (job_of in_file id).slots_remaining +
        (if s.current_id = id then s.current_time - (customerAt s.customers id).playing_since
         else 0)
  queued_pos : ∀ q ∈ s.queues, ∀ id ∈ q, 0 < (customerAt s.customers id).slots_remaining
  running : 0 ≤ s.current_id →
    (customerAt s.customers s.current_id).playing_since + (if strict then 0 else 1) ≤
      s.current_time ∧
    s.current_time + (if strict then 1 else 0) ≤ s.time_out ∧
    s.time_out ≤ (customerAt s.customers s.current_id).playing_since +
      (customerAt s.customers s.current_id).slots_remaining
  finished : ∀ id : Int, 0 ≤ id → id < dispatched in_file s → (∀ q ∈ s.queues, id ∉ q) → id ≠ s.current_id →
    0 ≤ (customerAt s.customers id).slots_remaining ∧
    ((job_of in_file id).priority = HIGH_PRIORITY ∨ (job_of in_file id).priority = LOW_PRIORITY →
      (customerAt s.customers id).slots_remaining = 0)

/-- Calendar invariant of the tick loop, for inputs whose arrival ticks are non-decreasing
and non-negative; `A` bounds the arrival ticks.  `strict` is set after the admission loop. -/
structure Cal (A : Int) (strict : Bool) (s : State) : Prop where
  events_sorted : s.arrival_events.Pairwise (fun a b => a.event_time ≤ b.event_time)
  events_future : ∀ e ∈ s.arrival_events,
    s.current_time + (if strict then 1 else 0) ≤ e.event_time
  events_le : ∀ e ∈ s.arrival_events, e.event_time ≤ A

/-- The state of tick `n` of the run on `in_file` when the selection starts: the admission
loop and the expiry check of that tick are done. -/
def at_selection (sort : (Int → Int → Bool) → List Int → List Int) (in_file : List Job)
    (n : Nat) : State :=
  expiry (admission (run_ticks sort (initial_state in_file) n))

/-- The queue that the selection hands to `std::sort` in state `s` (`[]` when nothing is
sorted). -/
def sort_input (s : State) : List Int :=
  if s.current_id = -1 then
    if s.arrival_queue = [] then
      if scan_queues s.queues NUM_PRIORITIES 0 ≠ -1 then
        s.queues.getD (scan_queues s.queues NUM_PRIORITIES 0).toNat []
      else []
    else []
  else []

/-- In each of the next `n` ticks from `s`, `std::sort` is called on at most one element
(so that its result does not depend on the sorting function). -/
def short_sorts (s : State) : Nat → Bool
  | 0 => true
  | n + 1 =>
    decide ((sort_input (expiry (admission s))).length ≤ 1) &&
      short_sorts (tick insertion_sort s) n

/-- The job ids held by the arrival queue, by `queues[0]`, by `queues[1]` and by the running
slot (`-1` in the running slot is the idle mark, not a job). -/
def held (s : State) : List Int :=
  s.arrival_queue ++ s.queues.getD 0 [] ++ s.queues.getD 1 [] ++
    (if 0 ≤ s.current_id then [s.current_id] else [])

/-- Exclusion invariant of the tick loop, for every input: no id occurs twice in a leveled
queue, and the running job is in no leveled queue. -/
structure Excl (s : State) : Prop where
  queues_nodup : ∀ q ∈ s.queues, q.Nodup
  current_not_queued : ∀ q ∈ s.queues, s.current_id ∉ q

/-- Remaining-service invariant of the tick loop, for inputs without negative requests. -/
structure Rem (s : State) : Prop where
  rem_nonneg : ∀ id : Int, 0 ≤ (customerAt s.customers id).slots_remaining
  queued_pos : ∀ q ∈ s.queues, ∀ id ∈ q, 0 < (customerAt s.customers id).slots_remaining
  running : 0 ≤ s.current_id →
    (customerAt s.customers s.current_id).playing_since ≤ s.time_out ∧
    s.time_out ≤ (customerAt s.customers s.current_id).playing_since +
      (customerAt s.customers s.current_id).slots_remaining

/-- The state of the run on `A 0 0 0` while job 0 holds the running slot with `time_out = 0`
(the clock and the output file apart). -/
def Stalled (s : State) : Prop :=
  s.arrival_events = [] ∧
  s.customers =
    [{ name := "A", priority := 0, arrival_time := 0, slots_remaining := 0, playing_since := 0 }] ∧
  s.arrival_queue = [] ∧ s.queues = [[], []] ∧ s.current_id = 0 ∧ s.time_out = 0 ∧
  s.all_done = false

/-- Invariant of a job `j` that requests at most `TIME_ALLOWANCE` slots: it is in no leveled
queue; it has all its slots until its quantum expires, and none afterwards. -/
structure FirstQuantum (in_file : List Job) (j : Int) (s : State) : Prop where
  not_queued : ∀ q ∈ s.queues, j ∉ q
  fresh : (dispatched in_file s : Int) ≤ j →
    (customerAt s.customers j).slots_remaining = (job_of in_file j).slots_remaining
  running : s.current_id = j →
    (customerAt s.customers j).slots_remaining = (job_of in_file j).slots_remaining ∧
    s.time_out = (customerAt s.customers j).playing_since + (job_of in_file j).slots_remaining
  done : j < dispatched in_file s → s.current_id ≠ j →
    (customerAt s.customers j).slots_remaining = 0

/-- Invariant of a job `j` whose priority is neither 0 nor 1 and that requests more than
`TIME_ALLOWANCE` slots: it is in no leveled queue; it has all its slots until its first
quantum expires, and `TIME_ALLOWANCE` fewer afterwards. -/
structure Dropped (in_file : List Job) (j : Int) (s : State) : Prop where
  not_queued : ∀ q ∈ s.queues, j ∉ q
  fresh : (dispatched in_file s : Int) ≤ j →
    (customerAt s.customers j).slots_remaining = (job_of in_file j).slots_remaining
  running : s.current_id = j →
    (customerAt s.customers j).slots_remaining = (job_of in_file j).slots_remaining ∧
    s.time_out = (customerAt s.customers j).playing_since + TIME_ALLOWANCE
  done : j < dispatched in_file s → s.current_id ≠ j →
    (customerAt s.customers j).slots_remaining =
      (job_of in_file j).slots_remaining - TIME_ALLOWANCE

/-- No job is queued, running or recorded before its arrival tick. -/
structure Arrived (in_file : List Job) (s : State) : Prop where
  queue_arrived : ∀ id ∈ s.arrival_queue, (job_of in_file id).arrival_time ≤ s.current_time
  queues_arrived : ∀ q ∈ s.queues, ∀ id ∈ q, (job_of in_file id).arrival_time ≤ s.current_time
  current_arrived : 0 ≤ s.current_id → (job_of in_file s.current_id).arrival_time ≤ s.current_time
  trace_arrived : ∀ r ∈ s.out_file, 0 ≤ r.2 → (job_of in_file r.2).arrival_time ≤ r.1

end Mlfq

namespace Scheduler

/-- In `scheduler.cpp`, no id in the calendar or in a queue is negative. -/
structure NonnegIds (s : State) : Prop where
  events_nonneg : ∀ e ∈ s.arrival_events, 0 ≤ e.customer_id
  arrival_nonneg : ∀ id ∈ s.arrival_queue, 0 ≤ id
  high_nonneg : ∀ id ∈ s.high_priority_queue, 0 ≤ id
  low_nonneg : ∀ id ∈ s.low_priority_queue, 0 ≤ id

/-- The queue that the rotation hands to `std::sort` in state `s` (`[]` when nothing is
sorted). -/
def sort_input (s : State) : List Int :=
  if s.current_id = -1 then
    if deref s s.current_queue = [] then
      if rotate s ≠ QueueRef.arrival_queue then deref s (rotate s) else []
    else []
  else []

/-- In each of the next `n` ticks from `s`, `std::sort` is called on at most one element. -/
def short_sorts (s : State) : Nat → Bool
  | 0 => true
  | n + 1 =>
    decide ((sort_input (expiry (admission s))).length ≤ 1) &&
      short_sorts (tick insertion_sort s) n

end Scheduler

end CpuScheduler

/-! ## Basic facts -/

namespace CpuScheduler

theorem insert_sorted_perm (lt : Int → Int → Bool) (a : Int) (l : List Int) :
    (insert_sorted lt a l).Perm (a :: l) := by
  induction l with
  | nil => simp [insert_sorted]
  | cons b l ih =>
    simp only [insert_sorted]
    split
    · exact (List.Perm.cons b ih).trans (List.Perm.swap a b l)
    · exact List.Perm.refl _

theorem insertion_sort_perm (lt : Int → Int → Bool) (l : List Int) :
    (insertion_sort lt l).Perm l := by
  induction l with
  | nil => simp [insertion_sort]
  | cons a l ih =>
    simp only [insertion_sort]
    exact (insert_sorted_perm lt a _).trans (List.Perm.cons a ih)

theorem insert_sorted_pairwise (key : Int → Int) (a : Int) (l : List Int)
    (h : l.Pairwise (fun x y => key x ≤ key y)) :
    (insert_sorted (fun x y => decide (key x < key y)) a l).Pairwise
      (fun x y => key x ≤ key y) := by
  induction l with
  | nil => simp [insert_sorted]
  | cons b l ih =>
    simp only [insert_sorted]
    rw [List.pairwise_cons] at h
    split
    · rename_i hlt
      simp only [decide_eq_true_eq] at hlt
      rw [List.pairwise_cons]
      refine ⟨?_, ih h.2⟩
      intro c hc
      have hc2 := (insert_sorted_perm _ a l).subset hc
      rcases List.mem_cons.mp hc2 with rfl | hc3
      · exact le_of_lt hlt
      · exact h.1 c hc3
    · rename_i hlt
      simp only [decide_eq_true_eq, not_lt] at hlt
      rw [List.pairwise_cons]
      refine ⟨?_, List.pairwise_cons.mpr h⟩
      intro c hc
      rcases List.mem_cons.mp hc with rfl | hc3
      · exact hlt
      · exact le_trans hlt (h.1 c hc3)

theorem insertion_sort_stdSort : StdSort insertion_sort := by
  intro key l
  refine ⟨insertion_sort_perm _ l, ?_⟩
  induction l with
  | nil => simp [insertion_sort]
  | cons a l ih =>
    simp only [insertion_sort]
    exact insert_sorted_pairwise key a _ ih

theorem by_slots_remaining_eq (customers : List Customer) :
    by_slots_remaining customers =
      fun a b => decide ((fun i => (customerAt customers i).slots_remaining) a <
        (fun i => (customerAt customers i).slots_remaining) b) := by
  funext a b
  rfl

theorem StdSort.perm {sort : (Int → Int → Bool) → List Int → List Int} (h : StdSort sort)
    (customers : List Customer) (l : List Int) :
    (sort (by_slots_remaining customers) l).Perm l := by
  rw [by_slots_remaining_eq]
  exact (h _ l).1

theorem StdSort.sorted {sort : (Int → Int → Bool) → List Int → List Int} (h : StdSort sort)
    (customers : List Customer) (l : List Int) :
    (sort (by_slots_remaining customers) l).Pairwise
      (fun a b => (customerAt customers a).slots_remaining ≤
        (customerAt customers b).slots_remaining) := by
  rw [by_slots_remaining_eq]
  exact (h _ l).2

theorem StdSort.short {sort : (Int → Int → Bool) → List Int → List Int} (h : StdSort sort)
    (customers : List Customer) (l : List Int) (hl : l.length ≤ 1) :
    sort (by_slots_remaining customers) l = l := by
  have hp := h.perm customers l
  match l, hl with
  | [], _ => exact List.Perm.eq_nil hp
  | [a], _ => exact List.perm_singleton.mp hp

theorem admission_loop_fst (t : Int) (ev : List Event) (aq : List Int) :
    (admission_loop t ev aq).1 = ev.dropWhile (fun e => decide (t = e.event_time)) := by
  induction ev generalizing aq with
  | nil => rfl
  | cons e rest ih =>
    by_cases h : t = e.event_time
    · rw [admission_loop, if_pos h, ih, List.dropWhile_cons, if_pos (by simpa using h)]
    · rw [admission_loop, if_neg h, List.dropWhile_cons, if_neg (by simpa using h)]

theorem admission_loop_snd (t : Int) (ev : List Event) (aq : List Int) :
    (admission_loop t ev aq).2 =
      aq ++ (ev.takeWhile (fun e => decide (t = e.event_time))).map (fun e => e.customer_id) := by
  induction ev generalizing aq with
  | nil => simp [admission_loop]
  | cons e rest ih =>
    by_cases h : t = e.event_time
    · rw [admission_loop, if_pos h, ih, List.takeWhile_cons, if_pos (by simpa using h)]
      simp
    · rw [admission_loop, if_neg h, List.takeWhile_cons, if_neg (by simpa using h)]
      simp

theorem customerAt_set (customers : List Customer) (i j : Int) (c : Customer) :
    customerAt (customers.set i.toNat c) j =
      if i.toNat = j.toNat ∧ i.toNat < customers.length then c else customerAt customers j := by
  unfold customerAt
  rw [List.getD_eq_getElem?_getD, List.getD_eq_getElem?_getD, List.getElem?_set]
  by_cases h : i.toNat = j.toNat
  · by_cases h2 : i.toNat < customers.length
    · rw [if_pos h, if_pos h2, if_pos ⟨h, h2⟩]; rfl
    · rw [if_pos h, if_neg h2, if_neg (fun hh => h2 hh.2), ← h,
        List.getElem?_eq_none (Nat.le_of_not_lt h2)]
  · rw [if_neg h, if_neg (fun hh => h hh.1)]

namespace Mlfq

theorem run_ticks_succ (sort : (Int → Int → Bool) → List Int → List Int) (s : State) (n : Nat) :
    run_ticks sort s (n + 1) = run_ticks sort (tick sort s) n := by
  induction n with
  | zero => rfl
  | succ n ih =>
    show tick sort (run_ticks sort s (n + 1)) = tick sort (run_ticks sort (tick sort s) n)
    rw [ih]

theorem main_loop_eq (sort : (Int → Int → Bool) → List Int → List Int) (n : Nat) :
    ∀ (fuel : Nat) (s : State), n ≤ fuel →
      (∀ i, i < n → (run_ticks sort s i).all_done = false) →
      (run_ticks sort s n).all_done = true →
      main_loop sort fuel s = some (run_ticks sort s n) := by
  induction n with
  | zero =>
    intro fuel s _ _ hd
    cases fuel <;> simp_all [main_loop, run_ticks]
  | succ n ih =>
    intro fuel s hf hnot hd
    have h0 : s.all_done = false := hnot 0 (Nat.succ_pos n)
    match fuel, hf with
    | fuel + 1, hf =>
      simp only [main_loop, h0, Bool.false_eq_true, ↓reduceIte]
      rw [run_ticks_succ]
      apply ih fuel (tick sort s) (Nat.le_of_succ_le_succ hf)
      · intro i hi
        rw [← run_ticks_succ]
        exact hnot (i + 1) (Nat.succ_lt_succ hi)
      · rw [← run_ticks_succ]; exact hd

end Mlfq
end CpuScheduler

namespace CpuScheduler
namespace Mlfq

/-! ## The three phases of a tick, case by case -/

theorem admission_eq (s : State) :
    admission s =
      { s with
        arrival_events := s.arrival_events.dropWhile (fun e => decide (s.current_time = e.event_time))
        arrival_queue := s.arrival_queue ++
          (s.arrival_events.takeWhile (fun e => decide (s.current_time = e.event_time))).map
            (fun e => e.customer_id) } := by
  simp only [admission, admission_loop_fst, admission_loop_snd]

theorem expiry_idle (s : State) (h : ¬ (0 ≤ s.current_id ∧ s.current_time = s.time_out)) :
    expiry s = s := by
  simp only [expiry, if_neg h]

theorem expiry_requeue (s : State) (q0 q1 : List Int) (hq : s.queues = [q0, q1])
    (h1 : 0 ≤ s.current_id) (h2 : s.current_time = s.time_out)
    (h3 : 0 < (customerAt s.customers s.current_id).slots_remaining -
      (s.current_time - (customerAt s.customers s.current_id).playing_since))
    (h4 : (customerAt s.customers s.current_id).priority = HIGH_PRIORITY ∨
      (customerAt s.customers s.current_id).priority = LOW_PRIORITY) :
    expiry s =
      { s with
        customers := s.customers.set s.current_id.toNat
          { customerAt s.customers s.current_id with
            slots_remaining := (customerAt s.customers s.current_id).slots_remaining -
              (s.current_time - (customerAt s.customers s.current_id).playing_since) }
        queues := [q0 ++ [s.current_id], q1]
        current_id := -1 } := by
  simp only [expiry, if_pos (And.intro h1 h2), if_pos h3, hq, push_back]
  rcases h4 with h4 | h4
  · simp [h4]
  · simp [h4]

theorem expiry_discard (s : State)
    (h1 : 0 ≤ s.current_id) (h2 : s.current_time = s.time_out)
    (h3 : ¬ (0 < (customerAt s.customers s.current_id).slots_remaining -
        (s.current_time - (customerAt s.customers s.current_id).playing_since) ∧
      ((customerAt s.customers s.current_id).priority = HIGH_PRIORITY ∨
        (customerAt s.customers s.current_id).priority = LOW_PRIORITY))) :
    expiry s =
      { s with
        customers := s.customers.set s.current_id.toNat
          { customerAt s.customers s.current_id with
            slots_remaining := (customerAt s.customers s.current_id).slots_remaining -
              (s.current_time - (customerAt s.customers s.current_id).playing_since) }
        current_id := -1 } := by
  simp only [expiry, if_pos (And.intro h1 h2)]
  by_cases h5 : 0 < (customerAt s.customers s.current_id).slots_remaining -
        (s.current_time - (customerAt s.customers s.current_id).playing_since)
  · have h6 := not_or.mp (fun h => h3 ⟨h5, h⟩)
    simp only [if_pos h5, if_neg h6.1, if_neg h6.2]
  · simp only [if_neg h5]

theorem selection_busy (sort : (Int → Int → Bool) → List Int → List Int) (s : State)
    (h : s.current_id ≠ -1) : selection sort s = s := by
  simp only [selection, if_neg h]

theorem selection_arrival (sort : (Int → Int → Bool) → List Int → List Int) (s : State)
    (id : Int) (rest : List Int) (h : s.current_id = -1) (ha : s.arrival_queue = id :: rest) :
    selection sort s =
      { s with
        current_queue_index := -1
        current_id := id
        arrival_queue := rest
        time_out := s.current_time + min TIME_ALLOWANCE (customerAt s.customers id).slots_remaining
        customers := s.customers.set id.toNat
          { customerAt s.customers id with playing_since := s.current_time } } := by
  simp [selection, h, ha]

theorem selection_none (sort : (Int → Int → Bool) → List Int → List Int) (s : State)
    (h : s.current_id = -1) (ha : s.arrival_queue = []) (hq : s.queues = [[], []]) :
    selection sort s = { s with current_queue_index := -1 } := by
  simp [selection, h, ha, hq, scan_queues, NUM_PRIORITIES]

theorem selection_leveled (sort : (Int → Int → Bool) → List Int → List Int) (s : State)
    (q0 q1 : List Int) (id : Int) (rest : List Int)
    (h : s.current_id = -1) (ha : s.arrival_queue = []) (hq : s.queues = [q0, q1])
    (hne : q0 ≠ []) (hsort : sort (by_slots_remaining s.customers) q0 = id :: rest) :
    selection sort s =
      { s with
        current_queue_index := 0
        queues := [rest, q1]
        current_id := id
        time_out := s.current_time + min 50 (customerAt s.customers id).slots_remaining
        customers := s.customers.set id.toNat
          { customerAt s.customers id with playing_since := s.current_time } } := by
  simp [selection, h, ha, hq, scan_queues, NUM_PRIORITIES, hne, hsort, TIME_ALLOWANCES]

theorem tick_eq (sort : (Int → Int → Bool) → List Int → List Int) (s : State) :
    tick sort s = emit (selection sort (expiry (admission s))) := rfl

end Mlfq
end CpuScheduler

/-! ## Ids and the calendar built by `initialize_system` -/

namespace CpuScheduler

theorem ids_length (n : Nat) : (ids n).length = n := by simp [ids]

theorem mem_ids {n : Nat} {id : Int} : id ∈ ids n ↔ 0 ≤ id ∧ id < n := by
  simp only [ids, List.mem_map, List.mem_range]
  constructor
  · rintro ⟨i, hi, rfl⟩
    exact ⟨Int.ofNat_nonneg i, by exact_mod_cast hi⟩
  · rintro ⟨h0, h1⟩
    refine ⟨id.toNat, ?_, ?_⟩
    · omega
    · simp [Int.toNat_of_nonneg h0]

theorem ids_succ (n : Nat) : ids (n + 1) = ids n ++ [(n : Int)] := by
  simp [ids, List.range_succ]

theorem ids_nodup (n : Nat) : (ids n).Nodup := by
  unfold ids
  exact (List.nodup_range n).map (fun a b h => by exact_mod_cast h)

theorem mem_drop_ids {n m : Nat} {id : Int} :
    id ∈ (ids n).drop m ↔ (m : Int) ≤ id ∧ id < n := by
  induction n with
  | zero => simp [ids]; omega
  | succ n ih =>
    rw [ids_succ]
    by_cases h : m ≤ n
    · rw [List.drop_append_of_le_length (by rw [ids_length]; exact h), List.mem_append, ih]
      simp only [List.mem_singleton]
      push_cast
      omega
    · have h2 : (ids n ++ [(n : Int)]).drop m = [] := by
        apply List.drop_eq_nil_of_le
        simp [ids_length]; omega
      rw [h2]
      simp only [List.not_mem_nil, false_iff]
      push_cast
      omega

theorem drop_ids_cons {n m : Nat} (h : m < n) :
    (ids n).drop m = (m : Int) :: (ids n).drop (m + 1) := by
  rw [List.drop_eq_getElem_cons (by rw [ids_length]; exact h)]
  simp [ids]

theorem arrival_events_from_ids (c : Int) (l : List Job) :
    (arrival_events_from c l).map (fun e => e.customer_id) =
      (ids l.length).map (fun i => c + i) := by
  induction l generalizing c with
  | nil => simp [arrival_events_from, ids]
  | cons j rest ih =>
    simp only [arrival_events_from, List.map_cons, ih, List.length_cons, ids, List.range_succ_eq_map,
      List.map_cons, List.map_map]
    congr 1
    · simp
    · apply List.map_congr_left
      intro a _
      simp only [Function.comp, Nat.cast_succ]
      omega

theorem arrival_events_from_time (c : Int) (l : List Job) (hc : 0 ≤ c) (pre : List Job)
    (hpre : (pre.length : Int) = c) :
    ∀ e ∈ arrival_events_from c l, e.event_time = (job_of (pre ++ l) e.customer_id).arrival_time := by
  induction l generalizing c pre with
  | nil => simp [arrival_events_from]
  | cons j rest ih =>
    intro e he
    simp only [arrival_events_from, List.mem_cons] at he
    rcases he with rfl | he
    · simp only [job_of, customerAt, List.map_append, List.map_cons]
      have : c.toNat = (pre.map customer_from_file).length := by simp; omega
      rw [this, List.getD_eq_getElem?_getD, List.getElem?_append_right (le_refl _)]
      simp [customer_from_file]
    · have := ih (c + 1) (by omega) (pre ++ [j]) (by simp; omega) e he
      simpa using this

theorem names_print_state (out_file : List (Int × Int)) (t id : Int) :
    names (print_state out_file t id) = names out_file ++ [id] := by
  simp [names, print_state]

end CpuScheduler

/-! ## The structural invariant -/

namespace CpuScheduler

theorem customerAt_congr (customers : List Customer) {i j : Int} (h : i.toNat = j.toNat) :
    customerAt customers i = customerAt customers j := by
  unfold customerAt
  rw [h]

theorem customerAt_set_self (customers : List Customer) (i : Int) (c : Customer)
    (h : i.toNat < customers.length) : customerAt (customers.set i.toNat c) i = c := by
  rw [customerAt_set, if_pos ⟨rfl, h⟩]

theorem customerAt_set_of_ne (customers : List Customer) (i j : Int) (c : Customer)
    (h : i.toNat ≠ j.toNat) : customerAt (customers.set i.toNat c) j = customerAt customers j := by
  rw [customerAt_set, if_neg (fun hh => h hh.1)]

/-- A write that keeps a field of `customers[i]` keeps that field of every customer. -/
theorem customerAt_set_field {α : Type} (f : Customer → α) (customers : List Customer)
    (i j : Int) (c : Customer) (h : f c = f (customerAt customers i)) :
    f (customerAt (customers.set i.toNat c) j) = f (customerAt customers j) := by
  rw [customerAt_set]
  split
  · rename_i hh
    rw [h, customerAt_congr customers hh.1]
  · rfl

namespace Mlfq

theorem waiting_admission (s : State) : waiting (admission s) = waiting s := by
  rw [admission_eq]
  simp only [waiting, List.append_assoc, ← List.map_append, List.takeWhile_append_dropWhile]

theorem dispatched_admission (in_file : List Job) (s : State) :
    dispatched in_file (admission s) = dispatched in_file s := by
  simp only [dispatched, waiting_admission]

theorem waiting_expiry (s : State) : waiting (expiry s) = waiting s := by
  unfold expiry
  split <;> rfl

theorem dispatched_expiry (in_file : List Job) (s : State) :
    dispatched in_file (expiry s) = dispatched in_file s := by
  simp only [dispatched, waiting_expiry]

theorem Wf.dispatched_le {in_file : List Job} {s : State} (_h : Wf in_file s) :
    dispatched in_file s ≤ in_file.length := Nat.sub_le _ _

theorem Wf.waiting_length {in_file : List Job} {s : State} (h : Wf in_file s) :
    (waiting s).length = in_file.length - dispatched in_file s := by
  have := congrArg List.length h.waiting_eq
  simpa [ids_length] using this

theorem waiting_initial (in_file : List Job) :
    waiting (initial_state in_file) = ids in_file.length := by
  simp only [waiting, initial_state, initialize_system, List.nil_append,
    arrival_events_from_ids]
  simp

theorem dispatched_initial (in_file : List Job) :
    dispatched in_file (initial_state in_file) = 0 := by
  simp [dispatched, waiting_initial, ids_length]

theorem Wf_initial (in_file : List Job) : Wf in_file (initial_state in_file) := by
  have hw := waiting_initial in_file
  have hd := dispatched_initial in_file
  refine ⟨?_, ?_, ?_, ?_, ?_, ?_, ?_, ?_, ?_, ?_, ?_⟩
  · simp [initial_state, initialize_system]
  · intro id; rfl
  · intro id; rfl
  · rw [hd, hw]; rfl
  · have := arrival_events_from_time 0 in_file (le_refl 0) [] rfl
    simpa [initial_state, initialize_system] using this
  · exact ⟨[], rfl, by simp⟩
  · exact Or.inl rfl
  · rfl
  · rfl
  · intro id h0 h1
    rw [hd] at h1
    exact absurd h1 (by push_cast; omega)
  · intro id h
    simp [names, initial_state] at h

theorem Wf_admission {in_file : List Job} {s : State} (h : Wf in_file s) :
    Wf in_file (admission s) := by
  have hd := dispatched_admission in_file s
  refine ⟨h.customers_length, h.arrival_time_eq, h.priority_eq, ?_, ?_, ?_, ?_,
    h.current_time_eq, h.ticks_eq, ?_, ?_⟩
  · rw [hd, waiting_admission]; exact h.waiting_eq
  · intro e he
    rw [admission_eq] at he
    exact h.event_time_eq e ((List.dropWhile_sublist _).subset he)
  · rw [hd]; exact h.queues_eq
  · rw [hd]; exact h.current_lt
  · rw [hd]; exact h.named
  · rw [hd]; exact h.names_lt

theorem Wf_expiry {in_file : List Job} {s : State} (h : Wf in_file s) :
    Wf in_file (expiry s) := by
  have hd := dispatched_expiry in_file s
  obtain ⟨q0, hq, hq0⟩ := h.queues_eq
  by_cases hc : 0 ≤ s.current_id ∧ s.current_time = s.time_out
  · have hcur : s.current_id < dispatched in_file s := by
      rcases h.current_lt with h1 | h1
      · omega
      · exact h1.2
    have key : ∃ qs : List (List Int), (∃ q, qs = [q, []] ∧ ∀ id ∈ q, 0 ≤ id ∧ id < dispatched in_file s) ∧
        expiry s = { s with
          customers := s.customers.set s.current_id.toNat
            { customerAt s.customers s.current_id with
              slots_remaining := (customerAt s.customers s.current_id).slots_remaining -
                (s.current_time - (customerAt s.customers s.current_id).playing_since) }
          queues := qs
          current_id := -1 } := by
      by_cases h3 : 0 < (customerAt s.customers s.current_id).slots_remaining -
          (s.current_time - (customerAt s.customers s.current_id).playing_since) ∧
          ((customerAt s.customers s.current_id).priority = HIGH_PRIORITY ∨
            (customerAt s.customers s.current_id).priority = LOW_PRIORITY)
      · refine ⟨[q0 ++ [s.current_id], []], ⟨_, rfl, ?_⟩, expiry_requeue s q0 [] hq hc.1 hc.2 h3.1 h3.2⟩
        intro id hid
        rcases List.mem_append.mp hid with hid | hid
        · exact hq0 id hid
        · rw [List.mem_singleton.mp hid]; exact ⟨hc.1, hcur⟩
      · refine ⟨s.queues, ⟨q0, hq, hq0⟩, ?_⟩
        rw [expiry_discard s hc.1 hc.2 h3]
    obtain ⟨qs, hqs, he⟩ := key
    have hd2 := hd
    have hw := waiting_expiry s
    rw [he] at hd2 hw ⊢
    refine ⟨?_, ?_, ?_, ?_, h.event_time_eq, ?_, Or.inl rfl, h.current_time_eq, h.ticks_eq, ?_, ?_⟩
    · simp [h.customers_length]
    · intro id
      rw [← h.arrival_time_eq id]
      exact customerAt_set_field (fun c => c.arrival_time) _ _ _ _ rfl
    · intro id
      rw [← h.priority_eq id]
      exact customerAt_set_field (fun c => c.priority) _ _ _ _ rfl
    · rw [hd2, hw]; exact h.waiting_eq
    · rw [hd2]; exact hqs
    · rw [hd2]; exact h.named
    · rw [hd2]; exact h.names_lt
  · rw [expiry_idle s hc]; exact h

end Mlfq
end CpuScheduler

namespace CpuScheduler
namespace Mlfq

/-- The four outcomes of the selection when the second leveled queue is empty. -/
theorem selection_cases {sort : (Int → Int → Bool) → List Int → List Int} (hs : StdSort sort)
    (s : State) (q0 : List Int) (hq : s.queues = [q0, []]) :
    (s.current_id ≠ -1 ∧ selection sort s = s) ∨
    (s.current_id = -1 ∧ s.arrival_queue = [] ∧ q0 = [] ∧
      selection sort s = { s with current_queue_index := -1 }) ∨
    (s.current_id = -1 ∧ ∃ id rest, s.arrival_queue = id :: rest ∧
      selection sort s =
        { s with
          current_queue_index := -1
          current_id := id
          arrival_queue := rest
          time_out := s.current_time + min TIME_ALLOWANCE (customerAt s.customers id).slots_remaining
          customers := s.customers.set id.toNat
            { customerAt s.customers id with playing_since := s.current_time } }) ∨
    (s.current_id = -1 ∧ s.arrival_queue = [] ∧ ∃ id rest, (id :: rest).Perm q0 ∧
      (∀ b ∈ rest, (customerAt s.customers id).slots_remaining ≤
        (customerAt s.customers b).slots_remaining) ∧
      selection sort s =
        { s with
          current_queue_index := 0
          queues := [rest, []]
          current_id := id
          time_out := s.current_time + min 50 (customerAt s.customers id).slots_remaining
          customers := s.customers.set id.toNat
            { customerAt s.customers id with playing_since := s.current_time } }) := by
  by_cases hc : s.current_id = -1
  · right
    by_cases ha : s.arrival_queue = []
    · by_cases hq0 : q0 = []
      · left
        subst hq0
        exact ⟨hc, ha, rfl, selection_none sort s hc ha hq⟩
      · right; right
        have hp := hs.perm s.customers q0
        have hso := hs.sorted s.customers q0
        cases hsort : sort (by_slots_remaining s.customers) q0 with
        | nil =>
          rw [hsort] at hp
          exact absurd (List.Perm.nil_eq hp) (fun h => hq0 h.symm)
        | cons id rest =>
          rw [hsort] at hp hso
          exact ⟨hc, ha, id, rest, hp, (List.pairwise_cons.mp hso).1,
            selection_leveled sort s q0 [] id rest hc ha hq hq0 hsort⟩
    · right; left
      obtain ⟨id, rest, ha2⟩ := List.exists_cons_of_ne_nil ha
      exact ⟨hc, id, rest, ha2, selection_arrival sort s id rest hc ha2⟩
  · left
    exact ⟨hc, selection_busy sort s hc⟩

theorem Wf_finish {sort : (Int → Int → Bool) → List Int → List Int} (hs : StdSort sort)
    {in_file : List Job} {s : State} (h : Wf in_file s) :
    Wf in_file (emit (selection sort s)) := by
  obtain ⟨q0, hq, hq0⟩ := h.queues_eq
  have hticks : ∀ id : Int, (print_state s.out_file s.current_time id).map Prod.fst =
      ids (print_state s.out_file s.current_time id).length := by
    intro id
    simp only [print_state, List.map_append, List.map_cons, List.map_nil, List.length_append,
      List.length_singleton, ids_succ, h.ticks_eq, h.current_time_eq]
  have htime : ∀ id : Int, s.current_time + 1 =
      ((print_state s.out_file s.current_time id).length : Int) := by
    intro id
    simp [print_state, h.current_time_eq]
  rcases selection_cases hs s q0 hq with ⟨hc, he⟩ | ⟨hc, ha, hq0e, he⟩ | ⟨hc, id, rest, ha, he⟩ |
      ⟨hc, ha, id, rest, hp, _, he⟩
  · -- the running job keeps the processor
    rw [he]
    have hd : dispatched in_file (emit s) = dispatched in_file s := rfl
    refine ⟨h.customers_length, h.arrival_time_eq, h.priority_eq, ?_, h.event_time_eq, ?_, ?_,
      htime _, hticks _, ?_, ?_⟩
    · rw [hd]; exact h.waiting_eq
    · rw [hd]; exact ⟨q0, hq, hq0⟩
    · rw [hd]; exact h.current_lt
    · intro i h0 h1
      rw [hd] at h1
      simp only [emit, names_print_state, List.mem_append]
      exact Or.inl (h.named i h0 h1)
    · intro i hi
      rw [hd]
      simp only [emit, names_print_state, List.mem_append, List.mem_singleton] at hi
      rcases hi with hi | hi
      · exact h.names_lt i hi
      · rw [hi]
        rcases h.current_lt with h1 | h1
        · exact absurd h1 hc
        · exact Or.inr h1
  · -- nothing to run
    rw [he]
    have hd : dispatched in_file (emit { s with current_queue_index := -1 }) =
        dispatched in_file s := rfl
    refine ⟨h.customers_length, h.arrival_time_eq, h.priority_eq, ?_, h.event_time_eq, ?_, ?_,
      htime _, hticks _, ?_, ?_⟩
    · rw [hd]; exact h.waiting_eq
    · rw [hd]; exact ⟨q0, hq, hq0⟩
    · rw [hd]; exact h.current_lt
    · intro i h0 h1
      rw [hd] at h1
      simp only [emit, names_print_state, List.mem_append]
      exact Or.inl (h.named i h0 h1)
    · intro i hi
      rw [hd]
      simp only [emit, names_print_state, List.mem_append, List.mem_singleton] at hi
      rcases hi with hi | hi
      · exact h.names_lt i hi
      · rw [hi, hc]; exact Or.inl rfl
  · -- dispatch from the arrival queue
    have hd2 : dispatched in_file (emit (selection sort s)) = dispatched in_file s + 1 := by
      have hwl := h.waiting_length
      rw [he]
      simp only [dispatched, waiting, emit, ha, List.length_append, List.length_cons,
        List.length_map] at hwl ⊢
      omega
    rw [he] at hd2 ⊢
    have hwl := h.waiting_length
    have hw := h.waiting_eq
    simp only [waiting, ha, List.cons_append] at hw hwl
    have hlt : dispatched in_file s < in_file.length := by
      simp only [List.length_cons] at hwl
      omega
    rw [drop_ids_cons hlt] at hw
    have hid : id = (dispatched in_file s : Int) := (List.cons.inj hw).1
    have hw2 := (List.cons.inj hw).2
    refine ⟨?_, ?_, ?_, ?_, h.event_time_eq, ?_, ?_, htime _, hticks _, ?_, ?_⟩
    · simp [emit, h.customers_length]
    · intro i
      rw [← h.arrival_time_eq i]
      exact customerAt_set_field (fun c => c.arrival_time) _ _ _ _ rfl
    · intro i
      rw [← h.priority_eq i]
      exact customerAt_set_field (fun c => c.priority) _ _ _ _ rfl
    · rw [hd2]; exact hw2
    · rw [hd2]
      refine ⟨q0, hq, ?_⟩
      intro i hi
      have := hq0 i hi
      push_cast
      omega
    · rw [hd2]
      right
      show 0 ≤ id ∧ id < _
      push_cast
      omega
    · intro i h0 h1
      rw [hd2] at h1
      simp only [emit, names_print_state, List.mem_append, List.mem_singleton]
      by_cases hi : i < dispatched in_file s
      · exact Or.inl (h.named i h0 hi)
      · right
        push_cast at h1
        omega
    · intro i hi
      rw [hd2]
      simp only [emit, names_print_state, List.mem_append, List.mem_singleton] at hi
      rcases hi with hi | hi
      · rcases h.names_lt i hi with h1 | h1
        · exact Or.inl h1
        · right; push_cast; omega
      · right; push_cast; omega
  · -- dispatch from the first leveled queue
    rw [he]
    have hidq : id ∈ q0 := hp.subset (List.mem_cons_self id rest)
    have hd2 : dispatched in_file (emit { s with
        current_queue_index := 0
        queues := [rest, []]
        current_id := id
        time_out := s.current_time + min 50 (customerAt s.customers id).slots_remaining
        customers := s.customers.set id.toNat
          { customerAt s.customers id with playing_since := s.current_time } }) =
        dispatched in_file s := rfl
    refine ⟨?_, ?_, ?_, ?_, h.event_time_eq, ?_, ?_, htime _, hticks _, ?_, ?_⟩
    · simp [emit, h.customers_length]
    · intro i
      rw [← h.arrival_time_eq i]
      exact customerAt_set_field (fun c => c.arrival_time) _ _ _ _ rfl
    · intro i
      rw [← h.priority_eq i]
      exact customerAt_set_field (fun c => c.priority) _ _ _ _ rfl
    · rw [hd2]; exact h.waiting_eq
    · rw [hd2]
      exact ⟨rest, rfl, fun i hi => hq0 i (hp.subset (List.mem_cons_of_mem id hi))⟩
    · rw [hd2]
      exact Or.inr (hq0 id hidq)
    · intro i h0 h1
      rw [hd2] at h1
      simp only [emit, names_print_state, List.mem_append]
      exact Or.inl (h.named i h0 h1)
    · intro i hi
      rw [hd2]
      simp only [emit, names_print_state, List.mem_append, List.mem_singleton] at hi
      rcases hi with hi | hi
      · exact h.names_lt i hi
      · rw [hi]; exact Or.inr (hq0 id hidq)

theorem Wf_tick {sort : (Int → Int → Bool) → List Int → List Int} (hs : StdSort sort)
    {in_file : List Job} {s : State} (h : Wf in_file s) : Wf in_file (tick sort s) := by
  rw [tick_eq]
  exact Wf_finish hs (Wf_expiry (Wf_admission h))

theorem Wf_run {sort : (Int → Int → Bool) → List Int → List Int} (hs : StdSort sort)
    (in_file : List Job) (n : Nat) : Wf in_file (run_ticks sort (initial_state in_file) n) := by
  induction n with
  | zero => exact Wf_initial in_file
  | succ n ih => exact Wf_tick hs ih

end Mlfq
end CpuScheduler

/-! ## The accounting invariant -/

namespace CpuScheduler

theorem served_print_state (out_file : List (Int × Int)) (t id i : Int) :
    served (print_state out_file t id) i = served out_file i + (if id = i then 1 else 0) := by
  simp only [served, names_print_state, List.count_append, List.count_cons, List.count_nil,
    beq_iff_eq, Nat.zero_add]

theorem job_of_slots_pos {in_file : List Job} (h : SlotsPositive in_file) {id : Int}
    (h0 : 0 ≤ id) (h1 : id < in_file.length) : 0 < (job_of in_file id).slots_remaining := by
  have hlt : id.toNat < in_file.length := by omega
  simp only [job_of, customerAt, List.getD_eq_getElem?_getD]
  rw [List.getElem?_eq_getElem (by simpa using hlt)]
  simp only [List.getElem_map, Option.getD_some, customer_from_file]
  exact h _ (List.getElem_mem _)

namespace Mlfq

theorem Acct_initial (in_file : List Job) : Acct in_file false (initial_state in_file) := by
  refine ⟨?_, ?_, ?_, ?_, ?_, ?_⟩
  · intro q hq
    simp [initial_state, NUM_PRIORITIES, List.replicate] at hq
    rcases hq with rfl
    exact List.nodup_nil
  · intro q hq
    simp [initial_state, NUM_PRIORITIES, List.replicate] at hq
    rcases hq with rfl
    exact List.not_mem_nil _
  · intro id h0 _
    have : ¬ ((-1 : Int) = id) := by omega
    simp [initial_state, served, names, this, job_of, initialize_system]
  · intro q hq
    simp [initial_state, NUM_PRIORITIES, List.replicate] at hq
    rcases hq with rfl
    intro id hid
    exact absurd hid (List.not_mem_nil _)
  · intro h
    simp [initial_state] at h
  · intro id h0 h1
    have hd := dispatched_initial in_file
    rw [hd] at h1
    exact absurd h1 (by push_cast; omega)

theorem Acct_admission {in_file : List Job} {b : Bool} {s : State} (h : Acct in_file b s) :
    Acct in_file b (admission s) := by
  refine ⟨h.queues_nodup, h.current_not_queued, h.balance, h.queued_pos, h.running, ?_⟩
  rw [dispatched_admission]
  exact h.finished

end Mlfq
end CpuScheduler

namespace CpuScheduler

namespace Mlfq

theorem Wf.current_toNat_lt {in_file : List Job} {s : State} (h : Wf in_file s)
    (h0 : 0 ≤ s.current_id) : s.current_id.toNat < s.customers.length := by
  have := h.dispatched_le
  rw [h.customers_length]
  rcases h.current_lt with h1 | h1
  · omega
  · omega

theorem Acct_expiry {in_file : List Job} {s : State} (hw : Wf in_file s)
    (h : Acct in_file false s) : Acct in_file true (expiry s) := by
  obtain ⟨q0, hq, hq0⟩ := hw.queues_eq
  by_cases hc : 0 ≤ s.current_id ∧ s.current_time = s.time_out
  · obtain ⟨h0, ht⟩ := hc
    have hlt := hw.current_toNat_lt h0
    obtain ⟨hr1, hr2, hr3⟩ := h.running h0
    simp only [Bool.false_eq_true, ↓reduceIte, add_zero] at hr1 hr2
    have hout : (expiry s).out_file = s.out_file := by unfold expiry; split <;> rfl
    have htime : (expiry s).current_time = s.current_time := by unfold expiry; split <;> rfl
    have hcur : (expiry s).current_id = -1 := by
      unfold expiry; rw [if_pos ⟨h0, ht⟩]
    have hcs : (expiry s).customers = s.customers.set s.current_id.toNat
          { customerAt s.customers s.current_id with
            slots_remaining := (customerAt s.customers s.current_id).slots_remaining -
              (s.current_time - (customerAt s.customers s.current_id).playing_since) } := by
      unfold expiry; rw [if_pos ⟨h0, ht⟩]
    have hat : ∀ i : Int, 0 ≤ i → i ≠ s.current_id →
        customerAt (expiry s).customers i = customerAt s.customers i := by
      intro i hi hne
      rw [hcs, customerAt_set_of_ne]
      omega
    have hself : (customerAt (expiry s).customers s.current_id).slots_remaining =
        (customerAt s.customers s.current_id).slots_remaining -
          (s.current_time - (customerAt s.customers s.current_id).playing_since) := by
      rw [hcs, customerAt_set_self _ _ _ hlt]
    have hbal : ∀ id : Int, 0 ≤ id → id < in_file.length →
        (served (expiry s).out_file id : Int) + (customerAt (expiry s).customers id).slots_remaining =
        (job_of in_file id).slots_remaining +
          (if (expiry s).current_id = id then
            (expiry s).current_time - (customerAt (expiry s).customers id).playing_since
           else 0) := by
      intro id hi0 hi1
      have hb := h.balance id hi0 hi1
      have hne : ¬ ((-1 : Int) = id) := by omega
      rw [hout, hcur, if_neg hne]
      by_cases hid : id = s.current_id
      · subst hid
        rw [hself]
        rw [if_pos rfl] at hb
        omega
      · rw [hat id hi0 hid]
        rw [if_neg (fun e => hid e.symm)] at hb
        omega
    by_cases h3 : 0 < (customerAt s.customers s.current_id).slots_remaining -
          (s.current_time - (customerAt s.customers s.current_id).playing_since) ∧
          ((customerAt s.customers s.current_id).priority = HIGH_PRIORITY ∨
            (customerAt s.customers s.current_id).priority = LOW_PRIORITY)
    · have hqs : (expiry s).queues = [q0 ++ [s.current_id], []] := by
        rw [expiry_requeue s q0 [] hq h0 ht h3.1 h3.2]
      have hnq : s.current_id ∉ q0 := h.current_not_queued q0 (by rw [hq]; simp)
      refine ⟨?_, ?_, hbal, ?_, ?_, ?_⟩
      · intro q hqm
        rw [hqs] at hqm
        simp only [List.mem_cons, List.mem_singleton, List.not_mem_nil, or_false] at hqm
        rcases hqm with rfl | rfl
        · have hn0 := h.queues_nodup q0 (by rw [hq]; simp)
          exact List.Nodup.append hn0 (List.nodup_singleton _) (by simpa using hnq)
        · exact List.nodup_nil
      · intro q hqm
        rw [hqs] at hqm
        rw [hcur]
        simp only [List.mem_cons, List.mem_singleton, List.not_mem_nil, or_false] at hqm
        rcases hqm with rfl | rfl
        · intro hm
          rcases List.mem_append.mp hm with hm | hm
          · have := hq0 _ hm; omega
          · have := List.mem_singleton.mp hm; omega
        · exact List.not_mem_nil _
      · intro q hqm id hid
        rw [hqs] at hqm
        simp only [List.mem_cons, List.mem_singleton, List.not_mem_nil, or_false] at hqm
        rcases hqm with rfl | rfl
        · rcases List.mem_append.mp hid with hm | hm
          · have hne : id ≠ s.current_id := fun e => hnq (e ▸ hm)
            rw [hat id (hq0 id hm).1 hne]
            exact h.queued_pos q0 (by rw [hq]; simp) id hm
          · rw [List.mem_singleton.mp hm, hself]
            exact h3.1
        · exact absurd hid (List.not_mem_nil _)
      · intro hneg
        rw [hcur] at hneg
        omega
      · intro id hi0 hi1 hnq2 hne
        rw [dispatched_expiry] at hi1
        have hn1 : id ∉ q0 ++ [s.current_id] := hnq2 _ (by rw [hqs]; simp)
        have hn2 : id ≠ s.current_id := fun e => hn1 (by simp [e])
        rw [hat id hi0 hn2]
        apply h.finished id hi0 hi1 _ hn2
        intro q hqm
        rw [hq] at hqm
        simp only [List.mem_cons, List.mem_singleton, List.not_mem_nil, or_false] at hqm
        rcases hqm with rfl | rfl
        · exact fun hm => hn1 (List.mem_append_left _ hm)
        · exact List.not_mem_nil _
    · have hqs : (expiry s).queues = s.queues := by
        rw [expiry_discard s h0 ht h3]
      refine ⟨?_, ?_, hbal, ?_, ?_, ?_⟩
      · rw [hqs]; exact h.queues_nodup
      · intro q hqm
        rw [hqs, hq] at hqm
        rw [hcur]
        simp only [List.mem_cons, List.mem_singleton, List.not_mem_nil, or_false] at hqm
        rcases hqm with rfl | rfl
        · intro hm
          have := hq0 _ hm; omega
        · exact List.not_mem_nil _
      · intro q hqm id hid
        rw [hqs] at hqm
        have hne : id ≠ s.current_id := fun e => h.current_not_queued q hqm (e ▸ hid)
        have hi0 : 0 ≤ id := by
          rw [hq] at hqm
          simp only [List.mem_cons, List.mem_singleton, List.not_mem_nil, or_false] at hqm
          rcases hqm with rfl | rfl
          · exact (hq0 id hid).1
          · exact absurd hid (List.not_mem_nil _)
        rw [hat id hi0 hne]
        exact h.queued_pos q hqm id hid
      · intro hneg
        rw [hcur] at hneg
        omega
      · intro id hi0 hi1 hnq2 _
        rw [dispatched_expiry] at hi1
        rw [hqs] at hnq2
        by_cases hid : id = s.current_id
        · subst hid
          rw [hself]
          refine ⟨by omega, ?_⟩
          intro hp
          rw [← hw.priority_eq] at hp
          have : ¬ (0 < (customerAt s.customers s.current_id).slots_remaining -
            (s.current_time - (customerAt s.customers s.current_id).playing_since)) :=
            fun hpos => h3 ⟨hpos, hp⟩
          omega
        · rw [hat id hi0 hid]
          exact h.finished id hi0 hi1 hnq2 hid
  · rw [expiry_idle s hc]
    refine ⟨h.queues_nodup, h.current_not_queued, h.balance, h.queued_pos, ?_, h.finished⟩
    intro h0
    obtain ⟨a, b, c⟩ := h.running h0
    simp only [Bool.false_eq_true, ↓reduceIte, add_zero] at a b ⊢
    have : s.current_time ≠ s.time_out := fun e => hc ⟨h0, e⟩
    exact ⟨by omega, by omega, c⟩

end Mlfq
end CpuScheduler

namespace CpuScheduler
namespace Mlfq

theorem Acct_emit {in_file : List Job} {s : State} (h : Acct in_file true s) :
    Acct in_file false (emit s) := by
  refine ⟨h.queues_nodup, h.current_not_queued, ?_, h.queued_pos, ?_, h.finished⟩
  · intro id h0 h1
    have hb := h.balance id h0 h1
    show ((served (print_state s.out_file s.current_time s.current_id) id : Nat) : Int) +
      (customerAt s.customers id).slots_remaining = (job_of in_file id).slots_remaining +
        (if s.current_id = id then s.current_time + 1 - (customerAt s.customers id).playing_since
         else 0)
    rw [served_print_state]
    by_cases hid : s.current_id = id
    · rw [if_pos hid] at hb ⊢
      rw [if_pos hid]
      push_cast
      omega
    · rw [if_neg hid] at hb ⊢
      rw [if_neg hid]
      push_cast
      omega
  · intro h0
    obtain ⟨a, b, c⟩ := h.running h0
    simp only [↓reduceIte, add_zero] at a b
    show (customerAt s.customers s.current_id).playing_since + (if false = true then 0 else 1) ≤
        s.current_time + 1 ∧
      s.current_time + 1 + (if false = true then 1 else 0) ≤ s.time_out ∧ _
    simp only [Bool.false_eq_true, ↓reduceIte, add_zero]
    exact ⟨by omega, b, c⟩

theorem Acct_selection {sort : (Int → Int → Bool) → List Int → List Int} (hs : StdSort sort)
    {in_file : List Job} (hsp : SlotsPositive in_file) {s : State} (hw : Wf in_file s)
    (h : Acct in_file true s) : Acct in_file true (selection sort s) := by
  obtain ⟨q0, hq, hq0⟩ := hw.queues_eq
  have hmem : ∀ q ∈ s.queues, q = q0 ∨ q = [] := by
    intro q hqm
    rw [hq] at hqm
    simpa using hqm
  rcases selection_cases hs s q0 hq with ⟨_, he⟩ | ⟨_, _, _, he⟩ | ⟨hc, id, rest, ha, he⟩ |
      ⟨hc, ha, id, rest, hp, _, he⟩
  · rw [he]; exact h
  · rw [he]; exact ⟨h.queues_nodup, h.current_not_queued, h.balance, h.queued_pos, h.running,
      h.finished⟩
  · -- dispatch from the arrival queue
    have hwl := hw.waiting_length
    have hweq := hw.waiting_eq
    simp only [waiting, ha, List.cons_append] at hweq hwl
    have hlt : dispatched in_file s < in_file.length := by
      simp only [List.length_cons] at hwl
      omega
    rw [drop_ids_cons hlt] at hweq
    have hid : id = (dispatched in_file s : Int) := (List.cons.inj hweq).1
    have hid0 : 0 ≤ id := by omega
    have hidn : id < in_file.length := by omega
    have hidlt : id.toNat < s.customers.length := by rw [hw.customers_length]; omega
    have hd : dispatched in_file (selection sort s) = dispatched in_file s + 1 := by
      rw [he]
      simp only [dispatched, waiting, ha, List.length_append, List.length_cons,
        List.length_map] at hwl ⊢
      omega
    have hqs : (selection sort s).queues = s.queues := by rw [he]
    have hcur : (selection sort s).current_id = id := by rw [he]
    have hout : (selection sort s).out_file = s.out_file := by rw [he]
    have htime : (selection sort s).current_time = s.current_time := by rw [he]
    have hto : (selection sort s).time_out =
        s.current_time + min TIME_ALLOWANCE (customerAt s.customers id).slots_remaining := by
      rw [he]
    have hcs : (selection sort s).customers = s.customers.set id.toNat
        { customerAt s.customers id with playing_since := s.current_time } := by rw [he]
    have hrem : ∀ i : Int, (customerAt (selection sort s).customers i).slots_remaining =
        (customerAt s.customers i).slots_remaining := by
      intro i
      rw [hcs]
      exact customerAt_set_field (fun c => c.slots_remaining) _ _ _ _ rfl
    have hps : (customerAt (selection sort s).customers id).playing_since = s.current_time := by
      rw [hcs, customerAt_set_self _ _ _ hidlt]
    have hnotnamed : served s.out_file id = 0 := by
      rw [served, List.count_eq_zero]
      intro hm
      rcases hw.names_lt id hm with h1 | h1
      · omega
      · omega
    have hremid : (customerAt s.customers id).slots_remaining =
        (job_of in_file id).slots_remaining := by
      have hb := h.balance id hid0 hidn
      rw [if_neg (by omega), hnotnamed] at hb
      simpa using hb
    have hpos := job_of_slots_pos hsp hid0 hidn
    refine ⟨?_, ?_, ?_, ?_, ?_, ?_⟩
    · rw [hqs]; exact h.queues_nodup
    · intro q hqm
      rw [hqs] at hqm
      rw [hcur]
      rcases hmem q hqm with rfl | rfl
      · intro hm
        have := hq0 id hm
        omega
      · exact List.not_mem_nil _
    · intro i hi0 hi1
      have hb := h.balance i hi0 hi1
      rw [if_neg (by omega)] at hb
      rw [hout, hrem, hcur, htime]
      by_cases hii : id = i
      · subst hii
        rw [if_pos rfl, hps]
        omega
      · rw [if_neg hii]
        omega
    · intro q hqm i hi
      rw [hqs] at hqm
      rw [hrem]
      exact h.queued_pos q hqm i hi
    · intro _
      rw [hcur, hps, hrem, htime, hto, hremid]
      simp only [↓reduceIte, TIME_ALLOWANCE]
      omega
    · intro i hi0 hi1 hnq hne
      rw [hd] at hi1
      rw [hcur] at hne
      rw [hqs] at hnq
      rw [hrem]
      exact h.finished i hi0 (by push_cast at hi1; omega) hnq (by omega)
  · -- dispatch from the first leveled queue
    have hidq : id ∈ q0 := hp.subset (List.mem_cons_self id rest)
    have hid0 : 0 ≤ id := (hq0 id hidq).1
    have hidlt : id.toNat < s.customers.length := by
      have := hw.dispatched_le
      have := (hq0 id hidq).2
      rw [hw.customers_length]; omega
    have hd : dispatched in_file (selection sort s) = dispatched in_file s := by
      rw [he]; rfl
    have hqs : (selection sort s).queues = [rest, []] := by rw [he]
    have hcur : (selection sort s).current_id = id := by rw [he]
    have hout : (selection sort s).out_file = s.out_file := by rw [he]
    have htime : (selection sort s).current_time = s.current_time := by rw [he]
    have hto : (selection sort s).time_out =
        s.current_time + min 50 (customerAt s.customers id).slots_remaining := by
      rw [he]
    have hcs : (selection sort s).customers = s.customers.set id.toNat
        { customerAt s.customers id with playing_since := s.current_time } := by rw [he]
    have hrem : ∀ i : Int, (customerAt (selection sort s).customers i).slots_remaining =
        (customerAt s.customers i).slots_remaining := by
      intro i
      rw [hcs]
      exact customerAt_set_field (fun c => c.slots_remaining) _ _ _ _ rfl
    have hps : (customerAt (selection sort s).customers id).playing_since = s.current_time := by
      rw [hcs, customerAt_set_self _ _ _ hidlt]
    have hq0m : q0 ∈ s.queues := by rw [hq]; simp
    have hnd : (id :: rest).Nodup := hp.nodup_iff.mpr (h.queues_nodup q0 hq0m)
    have hpos := h.queued_pos q0 hq0m id hidq
    have hmem2 : ∀ q ∈ (selection sort s).queues, q = rest ∨ q = [] := by
      intro q hqm
      rw [hqs] at hqm
      simpa using hqm
    refine ⟨?_, ?_, ?_, ?_, ?_, ?_⟩
    · intro q hqm
      rcases hmem2 q hqm with rfl | rfl
      · exact (List.nodup_cons.mp hnd).2
      · exact List.nodup_nil
    · intro q hqm
      rw [hcur]
      rcases hmem2 q hqm with rfl | rfl
      · exact (List.nodup_cons.mp hnd).1
      · exact List.not_mem_nil _
    · intro i hi0 hi1
      have hb := h.balance i hi0 hi1
      rw [if_neg (by omega)] at hb
      rw [hout, hrem, hcur, htime]
      by_cases hii : id = i
      · subst hii
        rw [if_pos rfl, hps]
        omega
      · rw [if_neg hii]
        omega
    · intro q hqm i hi
      rw [hrem]
      rcases hmem2 q hqm with rfl | rfl
      · exact h.queued_pos q0 hq0m i (hp.subset (List.mem_cons_of_mem id hi))
      · exact absurd hi (List.not_mem_nil _)
    · intro _
      rw [hcur, hps, hrem, htime, hto]
      simp only [↓reduceIte]
      omega
    · intro i hi0 hi1 hnq hne
      rw [hd] at hi1
      rw [hcur] at hne
      rw [hrem]
      apply h.finished i hi0 hi1 _ (by omega)
      intro q hqm
      rcases hmem q hqm with rfl | rfl
      · intro hm
        rcases List.mem_cons.mp (hp.symm.subset hm) with h1 | h1
        · exact hne h1
        · exact hnq rest (by rw [hqs]; simp) h1
      · exact List.not_mem_nil _

theorem Acct_tick {sort : (Int → Int → Bool) → List Int → List Int} (hs : StdSort sort)
    {in_file : List Job} (hsp : SlotsPositive in_file) {s : State} (hw : Wf in_file s)
    (h : Acct in_file false s) : Acct in_file false (tick sort s) := by
  rw [tick_eq]
  exact Acct_emit (Acct_selection hs hsp (Wf_expiry (Wf_admission hw))
    (Acct_expiry (Wf_admission hw) (Acct_admission h)))

theorem Acct_run {sort : (Int → Int → Bool) → List Int → List Int} (hs : StdSort sort)
    {in_file : List Job} (hsp : SlotsPositive in_file) (n : Nat) :
    Acct in_file false (run_ticks sort (initial_state in_file) n) := by
  induction n with
  | zero => exact Acct_initial in_file
  | succ n ih => exact Acct_tick hs hsp (Wf_run hs in_file n) ih

end Mlfq
end CpuScheduler

/-! ## The calendar invariant -/

namespace CpuScheduler

theorem arrival_events_from_sorted (c : Int) (l : List Job) (h : ArrivalsSorted l) :
    (arrival_events_from c l).Pairwise (fun a b => a.event_time ≤ b.event_time) := by
  induction l generalizing c with
  | nil => simp [arrival_events_from]
  | cons j rest ih =>
    unfold ArrivalsSorted at h
    rw [List.pairwise_cons] at h
    simp only [arrival_events_from, List.pairwise_cons]
    refine ⟨?_, ih (c + 1) h.2⟩
    intro e he
    have : ∃ j' ∈ rest, e.event_time = j'.arrival_time := by
      clear ih h
      generalize c + 1 = d at he
      induction rest generalizing d with
      | nil => simp [arrival_events_from] at he
      | cons k rest ih2 =>
        simp only [arrival_events_from, List.mem_cons] at he
        rcases he with rfl | he
        · exact ⟨k, List.mem_cons_self _ _, rfl⟩
        · obtain ⟨j', hj', e'⟩ := ih2 _ he
          exact ⟨j', List.mem_cons_of_mem _ hj', e'⟩
    obtain ⟨j', hj', e'⟩ := this
    rw [e']
    exact h.1 j' hj'

theorem arrival_events_from_mem (c : Int) (l : List Job) :
    ∀ e ∈ arrival_events_from c l, ∃ j ∈ l, e.event_time = j.arrival_time := by
  induction l generalizing c with
  | nil => simp [arrival_events_from]
  | cons k rest ih =>
    intro e he
    simp only [arrival_events_from, List.mem_cons] at he
    rcases he with rfl | he
    · exact ⟨k, List.mem_cons_self _ _, rfl⟩
    · obtain ⟨j', hj', e'⟩ := ih _ e he
      exact ⟨j', List.mem_cons_of_mem _ hj', e'⟩

theorem le_max_arrival (l : List Job) : ∀ j ∈ l, j.arrival_time ≤ max_arrival l := by
  induction l with
  | nil => simp
  | cons k rest ih =>
    intro j hj
    simp only [max_arrival, List.foldr_cons]
    rcases List.mem_cons.mp hj with rfl | hj
    · exact le_max_left _ _
    · exact le_trans (ih j hj) (le_max_right _ _)

theorem max_arrival_nonneg (l : List Job) : 0 ≤ max_arrival l := by
  induction l with
  | nil => simp [max_arrival]
  | cons k rest ih =>
    simp only [max_arrival, List.foldr_cons]
    exact le_trans ih (le_max_right _ _)

theorem total_slots_nonneg (l : List Job) (h : SlotsPositive l) : 0 ≤ total_slots l := by
  unfold total_slots
  apply List.sum_nonneg
  intro x hx
  obtain ⟨j, hj, rfl⟩ := List.mem_map.mp hx
  exact le_of_lt (h j hj)

theorem dropWhile_future (t : Int) (l : List Event)
    (hs : l.Pairwise (fun a b => a.event_time ≤ b.event_time))
    (hf : ∀ e ∈ l, t ≤ e.event_time) :
    ∀ e ∈ l.dropWhile (fun e => decide (t = e.event_time)), t + 1 ≤ e.event_time := by
  induction l with
  | nil => simp
  | cons x xs ih =>
    rw [List.pairwise_cons] at hs
    rw [List.dropWhile_cons]
    by_cases hx : t = x.event_time
    · rw [if_pos (by simpa using hx)]
      exact ih hs.2 (fun e he => hf e (List.mem_cons_of_mem _ he))
    · rw [if_neg (by simpa using hx)]
      intro e he
      have hx2 := hf x (List.mem_cons_self _ _)
      rcases List.mem_cons.mp he with rfl | he
      · omega
      · have := hs.1 e he
        omega

namespace Mlfq

theorem expiry_arrival_events (s : State) : (expiry s).arrival_events = s.arrival_events := by
  unfold expiry; split <;> rfl

theorem expiry_arrival_queue (s : State) : (expiry s).arrival_queue = s.arrival_queue := by
  unfold expiry; split <;> rfl

theorem expiry_current_time (s : State) : (expiry s).current_time = s.current_time := by
  unfold expiry; split <;> rfl

theorem expiry_out_file (s : State) : (expiry s).out_file = s.out_file := by
  unfold expiry; split <;> rfl

theorem selection_arrival_events (sort : (Int → Int → Bool) → List Int → List Int) (s : State) :
    (selection sort s).arrival_events = s.arrival_events := by
  unfold selection
  dsimp only
  repeat' split
  all_goals rfl

theorem selection_current_time (sort : (Int → Int → Bool) → List Int → List Int) (s : State) :
    (selection sort s).current_time = s.current_time := by
  unfold selection
  dsimp only
  repeat' split
  all_goals rfl

theorem selection_out_file (sort : (Int → Int → Bool) → List Int → List Int) (s : State) :
    (selection sort s).out_file = s.out_file := by
  unfold selection
  dsimp only
  repeat' split
  all_goals rfl

theorem tick_out_file (sort : (Int → Int → Bool) → List Int → List Int) (s : State) :
    (tick sort s).out_file =
      s.out_file ++ [(s.current_time, (selection sort (expiry (admission s))).current_id)] := by
  show print_state (selection sort (expiry (admission s))).out_file
    (selection sort (expiry (admission s))).current_time _ = _
  rw [selection_out_file, selection_current_time, expiry_out_file, expiry_current_time]
  rfl

theorem tick_current_time (sort : (Int → Int → Bool) → List Int → List Int) (s : State) :
    (tick sort s).current_time = s.current_time + 1 := by
  show (selection sort (expiry (admission s))).current_time + 1 = _
  rw [selection_current_time, expiry_current_time]
  rfl

theorem run_ticks_length (sort : (Int → Int → Bool) → List Int → List Int) (s : State) (n : Nat) :
    (run_ticks sort s n).out_file.length = s.out_file.length + n := by
  induction n with
  | zero => rfl
  | succ n ih =>
    show (tick sort (run_ticks sort s n)).out_file.length = _
    rw [tick_out_file, List.length_append, ih]
    rfl

theorem Cal_initial (in_file : List Job) (h1 : ArrivalsSorted in_file)
    (h2 : ArrivalsNonneg in_file) : Cal (max_arrival in_file) false (initial_state in_file) := by
  refine ⟨arrival_events_from_sorted 0 in_file h1, ?_, ?_⟩
  · intro e he
    obtain ⟨j, hj, e'⟩ := arrival_events_from_mem 0 in_file e he
    have := h2 j hj
    simp only [initial_state, Bool.false_eq_true, ↓reduceIte, add_zero]
    omega
  · intro e he
    obtain ⟨j, hj, e'⟩ := arrival_events_from_mem 0 in_file e he
    rw [e']
    exact le_max_arrival in_file j hj

theorem Cal_admission {A : Int} {s : State} (h : Cal A false s) : Cal A true (admission s) := by
  have he : (admission s).arrival_events =
      s.arrival_events.dropWhile (fun e => decide (s.current_time = e.event_time)) := by
    rw [admission_eq]
  refine ⟨?_, ?_, ?_⟩
  · rw [he]
    exact List.Pairwise.sublist (List.dropWhile_sublist _) h.events_sorted
  · intro e hm
    rw [he] at hm
    have := dropWhile_future s.current_time s.arrival_events h.events_sorted
      (fun e he => by simpa using h.events_future e he) e hm
    simpa using this
  · intro e hm
    rw [he] at hm
    exact h.events_le e ((List.dropWhile_sublist _).subset hm)

theorem Cal_expiry {A : Int} {b : Bool} {s : State} (h : Cal A b s) : Cal A b (expiry s) := by
  refine ⟨?_, ?_, ?_⟩
  · rw [expiry_arrival_events]; exact h.events_sorted
  · rw [expiry_arrival_events, expiry_current_time]; exact h.events_future
  · rw [expiry_arrival_events]; exact h.events_le

theorem Cal_selection (sort : (Int → Int → Bool) → List Int → List Int) {A : Int} {b : Bool}
    {s : State} (h : Cal A b s) : Cal A b (selection sort s) := by
  refine ⟨?_, ?_, ?_⟩
  · rw [selection_arrival_events]; exact h.events_sorted
  · rw [selection_arrival_events, selection_current_time]; exact h.events_future
  · rw [selection_arrival_events]; exact h.events_le

theorem Cal_emit {A : Int} {s : State} (h : Cal A true s) : Cal A false (emit s) := by
  refine ⟨h.events_sorted, ?_, h.events_le⟩
  intro e he
  have := h.events_future e he
  simp only [↓reduceIte] at this
  show s.current_time + 1 + (if false = true then 1 else 0) ≤ e.event_time
  simpa using this

theorem Cal_run (sort : (Int → Int → Bool) → List Int → List Int) (in_file : List Job)
    (h1 : ArrivalsSorted in_file) (h2 : ArrivalsNonneg in_file) (n : Nat) :
    Cal (max_arrival in_file) false (run_ticks sort (initial_state in_file) n) := by
  induction n with
  | zero => exact Cal_initial in_file h1 h2
  | succ n ih =>
    show Cal _ false (tick sort _)
    rw [tick_eq]
    exact Cal_emit (Cal_selection sort (Cal_expiry (Cal_admission ih)))

end Mlfq
end CpuScheduler

/-! ## Counting the records -/

namespace CpuScheduler

/-- A list of running ids splits into the idle records and the records of each job. -/
theorem length_eq_count_add_sum (l : List Int) (n : Nat)
    (h : ∀ x ∈ l, x = -1 ∨ (0 ≤ x ∧ x < n)) :
    l.length = l.count (-1) + ∑ i in Finset.range n, l.count (i : Int) := by
  induction l with
  | nil => simp
  | cons x xs ih =>
    have ih2 := ih (fun y hy => h y (List.mem_cons_of_mem _ hy))
    simp only [List.length_cons, List.count_cons, beq_iff_eq, Finset.sum_add_distrib]
    rcases h x (List.mem_cons_self _ _) with hx | hx
    · subst hx
      have : ∑ i in Finset.range n, (if (-1 : Int) = (i : Int) then 1 else 0) = 0 := by
        apply Finset.sum_eq_zero
        intro i _
        rw [if_neg (by omega)]
      rw [this]
      simp only [↓reduceIte]
      omega
    · have hx1 : ¬ (x = -1) := by omega
      have : ∑ i in Finset.range n, (if x = (i : Int) then 1 else 0) = 1 := by
        rw [Finset.sum_eq_single x.toNat]
        · rw [if_pos (by omega)]
        · intro b _ hb
          rw [if_neg (by omega)]
        · intro hb
          exact absurd (Finset.mem_range.mpr (by omega)) hb
      rw [this, if_neg hx1]
      omega

theorem job_of_cons_succ (j : Job) (rest : List Job) (i : Nat) :
    job_of (j :: rest) ((i + 1 : Nat) : Int) = job_of rest (i : Int) := by
  simp [job_of, customerAt]

theorem sum_job_of_slots (l : List Job) :
    ∑ i in Finset.range l.length, (job_of l (i : Int)).slots_remaining = total_slots l := by
  induction l with
  | nil => simp [total_slots]
  | cons j rest ih =>
    rw [List.length_cons, Finset.sum_range_succ']
    simp only [job_of_cons_succ, ih]
    simp only [total_slots, job_of, customerAt, customer_from_file, List.map_cons,
      List.sum_cons, Nat.cast_zero, Int.toNat_zero, List.getD_cons_zero]
    omega

namespace Mlfq

/-- No job is named in more records than it requested slots. -/
theorem served_le {in_file : List Job} (hsp : SlotsPositive in_file) {s : State}
    (hw : Wf in_file s) (h : Acct in_file false s) (id : Int) (h0 : 0 ≤ id)
    (h1 : id < in_file.length) :
    (served s.out_file id : Int) ≤ (job_of in_file id).slots_remaining := by
  obtain ⟨q0, hq, hq0⟩ := hw.queues_eq
  have hb := h.balance id h0 h1
  by_cases hc : s.current_id = id
  · rw [if_pos hc] at hb
    have hr := h.running (by omega)
    rw [hc] at hr
    obtain ⟨a, b, c⟩ := hr
    simp only [Bool.false_eq_true, ↓reduceIte, add_zero] at b
    omega
  · rw [if_neg hc] at hb
    by_cases hm : id ∈ q0
    · have := h.queued_pos q0 (by rw [hq]; simp) id hm
      omega
    · by_cases hd : id < dispatched in_file s
      · have := (h.finished id h0 hd (by
          intro q hqm
          rw [hq] at hqm
          simp only [List.mem_cons, List.mem_singleton, List.not_mem_nil, or_false] at hqm
          rcases hqm with rfl | rfl
          · exact hm
          · exact List.not_mem_nil _) (fun e => hc e.symm)).1
        omega
      · have hz : served s.out_file id = 0 := by
          rw [served, List.count_eq_zero]
          intro hmem
          rcases hw.names_lt id hmem with h2 | h2
          · omega
          · exact hd h2.2
        have := job_of_slots_pos hsp h0 h1
        rw [hz]
        omega

/-- The number of records that name a job is at most the sum of all requests. -/
theorem busy_le {in_file : List Job} (hsp : SlotsPositive in_file) {s : State}
    (hw : Wf in_file s) (h : Acct in_file false s) :
    ((∑ i in Finset.range in_file.length, (names s.out_file).count (i : Int) : Nat) : Int) ≤
      total_slots in_file := by
  rw [← sum_job_of_slots]
  push_cast
  apply Finset.sum_le_sum
  intro i hi
  exact served_le hsp hw h (i : Int) (by omega) (by exact_mod_cast Finset.mem_range.mp hi)

theorem names_range {in_file : List Job} {s : State} (hw : Wf in_file s) :
    ∀ x ∈ names s.out_file, x = -1 ∨ (0 ≤ x ∧ x < in_file.length) := by
  intro x hx
  have := hw.dispatched_le
  rcases hw.names_lt x hx with h | h
  · exact Or.inl h
  · right; omega

theorem queues_is_empty_iff (q0 q1 : List Int) :
    queues_is_empty [q0, q1] NUM_PRIORITIES 0 = true ↔ q0 = [] ∧ q1 = [] := by
  simp only [queues_is_empty, NUM_PRIORITIES, List.getD_cons_zero, ne_eq, ite_not]
  by_cases h0 : q0 = []
  · by_cases h1 : q1 = []
    · simp [h0, h1]
    · simp [h0, h1]
  · simp [h0]

theorem emit_all_done (s : State) (q0 q1 : List Int) (hq : s.queues = [q0, q1]) :
    (emit s).all_done = true ↔ AllEmpty (emit s) := by
  show (s.arrival_events.isEmpty && s.arrival_queue.isEmpty &&
      queues_is_empty s.queues NUM_PRIORITIES 0 && decide (s.current_id = -1)) = true ↔
    s.arrival_events = [] ∧ s.arrival_queue = [] ∧ (∀ q ∈ s.queues, q = []) ∧ s.current_id = -1
  rw [hq]
  simp only [Bool.and_eq_true, List.isEmpty_iff, queues_is_empty_iff, decide_eq_true_eq,
    List.mem_cons, List.mem_singleton, List.not_mem_nil, or_false, forall_eq_or_imp, forall_eq]
  tauto

theorem tick_all_done {sort : (Int → Int → Bool) → List Int → List Int} (hs : StdSort sort)
    {in_file : List Job} {s : State} (hw : Wf in_file s) :
    (tick sort s).all_done = true ↔ AllEmpty (tick sort s) := by
  obtain ⟨q0, hq, _⟩ := (Wf_tick hs hw).queues_eq
  rw [tick_eq] at hq ⊢
  exact emit_all_done _ q0 [] hq

end Mlfq
end CpuScheduler

/-! ## Idle records and the bound on the clock -/

namespace CpuScheduler
namespace Mlfq

theorem Wf.arrival_queue_nonneg {in_file : List Job} {s : State} (h : Wf in_file s) :
    ∀ id ∈ s.arrival_queue, 0 ≤ id := by
  intro id hid
  have hm : id ∈ waiting s := List.mem_append_left _ hid
  rw [h.waiting_eq, mem_drop_ids] at hm
  omega

/-- The processor is left idle only when the arrival queue and the leveled queues are empty. -/
theorem selection_idle {sort : (Int → Int → Bool) → List Int → List Int} (hs : StdSort sort)
    {in_file : List Job} {s : State} (hw : Wf in_file s)
    (h : (selection sort s).current_id = -1) :
    s.current_id = -1 ∧ s.arrival_queue = [] ∧ s.queues = [[], []] ∧
      selection sort s = { s with current_queue_index := -1 } := by
  obtain ⟨q0, hq, hq0⟩ := hw.queues_eq
  rcases selection_cases hs s q0 hq with ⟨hc, he⟩ | ⟨hc, ha, hq0e, he⟩ | ⟨hc, id, rest, ha, he⟩ |
      ⟨hc, ha, id, rest, hp, _, he⟩
  · rw [he] at h
    exact absurd h hc
  · subst hq0e
    exact ⟨hc, ha, hq, he⟩
  · rw [he] at h
    have := hw.arrival_queue_nonneg id (by rw [ha]; simp)
    have h' : id = -1 := h
    omega
  · rw [he] at h
    have := (hq0 id (hp.subset (List.mem_cons_self _ _))).1
    have h' : id = -1 := h
    omega

theorem AllEmpty_tick {sort : (Int → Int → Bool) → List Int → List Int}
    {in_file : List Job} {s : State} (hw : Wf in_file s) (h : AllEmpty s) :
    AllEmpty (tick sort s) := by
  obtain ⟨h1, h2, h3, h4⟩ := h
  have ha : admission s = s := by
    rw [admission_eq, h1, h2]
    cases s
    simp_all
  have he : expiry s = s := expiry_idle s (by omega)
  obtain ⟨q0, hq, _⟩ := hw.queues_eq
  have hq0 : q0 = [] := h3 q0 (by rw [hq]; simp)
  subst hq0
  rw [tick_eq, ha, he, selection_none sort s h4 h2 hq]
  exact ⟨h1, h2, h3, h4⟩

/-- The number of idle records stays below the largest arrival tick until everything is
empty. -/
theorem idle_tick {sort : (Int → Int → Bool) → List Int → List Int} (hs : StdSort sort)
    {in_file : List Job} {A : Int} {s : State} (hw : Wf in_file s) (hc : Cal A false s)
    (h : ((names s.out_file).count (-1) : Int) ≤ A ∨ AllEmpty s) :
    ((names (tick sort s).out_file).count (-1) : Int) ≤ A ∨ AllEmpty (tick sort s) := by
  rcases h with h | h
  · have hw1 : Wf in_file (expiry (admission s)) := Wf_expiry (Wf_admission hw)
    have hc1 : Cal A true (expiry (admission s)) := Cal_expiry (Cal_admission hc)
    have hn : names (tick sort s).out_file =
        names s.out_file ++ [(selection sort (expiry (admission s))).current_id] := by
      rw [tick_out_file]; simp [names]
    by_cases hcur : (selection sort (expiry (admission s))).current_id = -1
    · obtain ⟨h1, h2, h3, h4⟩ := selection_idle hs hw1 hcur
      by_cases hev : (expiry (admission s)).arrival_events = []
      · right
        rw [tick_eq, h4]
        refine ⟨hev, h2, ?_, h1⟩
        intro q hqm
        have : q ∈ (expiry (admission s)).queues := hqm
        rw [h3] at this
        simpa using this
      · left
        obtain ⟨e, rest, hev2⟩ := List.exists_cons_of_ne_nil hev
        have hf := hc1.events_future e (by rw [hev2]; simp)
        have hl := hc1.events_le e (by rw [hev2]; simp)
        simp only [↓reduceIte, expiry_current_time] at hf
        have ht : (admission s).current_time = s.current_time := rfl
        rw [ht, hw.current_time_eq] at hf
        have hcount : (names s.out_file).count (-1) ≤ s.out_file.length := by
          have := List.count_le_length (-1 : Int) (names s.out_file)
          simpa [names] using this
        rw [hn, hcur, List.count_append]
        simp only [List.count_cons_self, List.count_nil]
        push_cast
        omega
    · left
      rw [hn, List.count_append, List.count_singleton]
      have : ¬ ((selection sort (expiry (admission s))).current_id == -1) = true := by
        simpa using hcur
      rw [if_neg this]
      simpa using h
  · exact Or.inr (AllEmpty_tick hw h)

theorem idle_run {sort : (Int → Int → Bool) → List Int → List Int} (hs : StdSort sort)
    (in_file : List Job) (h1 : ArrivalsSorted in_file) (h2 : ArrivalsNonneg in_file) (n : Nat) :
    ((names (run_ticks sort (initial_state in_file) n).out_file).count (-1) : Int) ≤
        max_arrival in_file ∨
      AllEmpty (run_ticks sort (initial_state in_file) n) := by
  induction n with
  | zero =>
    left
    simpa [run_ticks, initial_state, names] using max_arrival_nonneg in_file
  | succ n ih =>
    exact idle_tick hs (Wf_run hs in_file n) (Cal_run sort in_file h1 h2 n) ih

/-- While something is left to do, the clock is at most the largest arrival tick plus the
sum of all requests. -/
theorem clock_le {sort : (Int → Int → Bool) → List Int → List Int} (hs : StdSort sort)
    (in_file : List Job) (h1 : ArrivalsSorted in_file) (h2 : ArrivalsNonneg in_file)
    (h3 : SlotsPositive in_file) (n : Nat)
    (hne : ¬ AllEmpty (run_ticks sort (initial_state in_file) n)) :
    (n : Int) ≤ max_arrival in_file + total_slots in_file := by
  have hw := Wf_run hs in_file n
  have ha := Acct_run hs h3 n
  have hi := (idle_run hs in_file h1 h2 n).resolve_right hne
  have hb := busy_le h3 hw ha
  have hl := length_eq_count_add_sum _ _ (names_range hw)
  have hlen := run_ticks_length sort (initial_state in_file) n
  have hz : (initial_state in_file).out_file.length = 0 := rfl
  rw [hz, Nat.zero_add] at hlen
  have hnl : (names (run_ticks sort (initial_state in_file) n).out_file).length = n := by
    simpa [names] using hlen
  rw [hnl] at hl
  have : (n : Int) = ((names (run_ticks sort (initial_state in_file) n).out_file).count (-1) : Int) +
      ((∑ i in Finset.range in_file.length,
        (names (run_ticks sort (initial_state in_file) n).out_file).count (i : Int) : Nat) : Int) := by
    exact_mod_cast hl
  omega

end Mlfq
end CpuScheduler

/-! ## Termination of the tick loop -/

namespace CpuScheduler

theorem job_of_eq_getElem (in_file : List Job) (j : Nat) (hj : j < in_file.length) :
    job_of in_file (j : Int) = customer_from_file in_file[j] := by
  simp only [job_of, customerAt, Int.toNat_ofNat, List.getD_eq_getElem?_getD]
  rw [List.getElem?_eq_getElem (by simpa using hj)]
  simp

namespace Mlfq

theorem main_loop_some (sort : (Int → Int → Bool) → List Int → List Int) (fuel : Nat) :
    ∀ (s0 s : State), main_loop sort fuel s0 = some s →
      ∃ n, s = run_ticks sort s0 n ∧ s.all_done = true ∧
        ∀ i, i < n → (run_ticks sort s0 i).all_done = false := by
  induction fuel with
  | zero =>
    intro s0 s h
    simp only [main_loop] at h
    split at h
    · rename_i hd
      refine ⟨0, (Option.some.inj h).symm, ?_, fun i hi => absurd hi (Nat.not_lt_zero i)⟩
      rw [← Option.some.inj h]; exact hd
    · exact absurd h (by simp)
  | succ fuel ih =>
    intro s0 s h
    simp only [main_loop] at h
    split at h
    · rename_i hd
      refine ⟨0, (Option.some.inj h).symm, ?_, fun i hi => absurd hi (Nat.not_lt_zero i)⟩
      rw [← Option.some.inj h]; exact hd
    · rename_i hd
      obtain ⟨n, h1, h2, h3⟩ := ih (tick sort s0) s h
      refine ⟨n + 1, ?_, h2, ?_⟩
      · rw [run_ticks_succ]; exact h1
      · intro i hi
        cases i with
        | zero => simpa using hd
        | succ i =>
          rw [run_ticks_succ]
          exact h3 i (Nat.lt_of_succ_lt_succ hi)

theorem run_all_done {sort : (Int → Int → Bool) → List Int → List Int} (hs : StdSort sort)
    (in_file : List Job) (n : Nat) :
    (run_ticks sort (initial_state in_file) (n + 1)).all_done = true ↔
      AllEmpty (run_ticks sort (initial_state in_file) (n + 1)) :=
  tick_all_done hs (Wf_run hs in_file n)

theorem run_current_time {sort : (Int → Int → Bool) → List Int → List Int} (hs : StdSort sort)
    (in_file : List Job) (n : Nat) :
    (run_ticks sort (initial_state in_file) n).current_time = n := by
  rw [(Wf_run hs in_file n).current_time_eq, run_ticks_length]
  simp [initial_state]

/-- The last record written by a tick that leaves everything empty. -/
theorem last_record {sort : (Int → Int → Bool) → List Int → List Int} (hs : StdSort sort)
    (in_file : List Job) (n : Nat)
    (h : AllEmpty (run_ticks sort (initial_state in_file) (n + 1))) :
    (run_ticks sort (initial_state in_file) (n + 1)).out_file.getLast? = some ((n : Int), -1) := by
  have hc : (selection sort (expiry (admission (run_ticks sort (initial_state in_file) n)))).current_id
      = -1 := h.2.2.2
  show (tick sort (run_ticks sort (initial_state in_file) n)).out_file.getLast? = _
  rw [tick_out_file, hc, run_current_time hs]
  simp

/-- The tick loop halts, and the tick of the halt is bounded. -/
theorem halts {sort : (Int → Int → Bool) → List Int → List Int} (hs : StdSort sort)
    (in_file : List Job) (h1 : ArrivalsSorted in_file) (h2 : ArrivalsNonneg in_file)
    (h3 : SlotsPositive in_file) :
    ∃ T : Nat, (T : Int) ≤ max_arrival in_file + total_slots in_file ∧
      AllEmpty (run_ticks sort (initial_state in_file) (T + 1)) ∧
      (∀ t, t < T → ¬ AllEmpty (run_ticks sort (initial_state in_file) (t + 1))) ∧
      ∀ fuel, T + 1 ≤ fuel → main_loop sort fuel (initial_state in_file) =
        some (run_ticks sort (initial_state in_file) (T + 1)) := by
  classical
  have hA := max_arrival_nonneg in_file
  have hS := total_slots_nonneg in_file h3
  have hex : ∃ t, AllEmpty (run_ticks sort (initial_state in_file) (t + 1)) := by
    refine ⟨(max_arrival in_file + total_slots in_file).toNat, ?_⟩
    by_contra hne
    have := clock_le hs in_file h1 h2 h3 _ hne
    push_cast at this
    omega
  refine ⟨Nat.find hex, ?_, Nat.find_spec hex, fun t ht => Nat.find_min hex ht, ?_⟩
  · cases hT : Nat.find hex with
    | zero => simp; omega
    | succ k =>
      have hk : ¬ AllEmpty (run_ticks sort (initial_state in_file) (k + 1)) :=
        Nat.find_min hex (by omega)
      exact clock_le hs in_file h1 h2 h3 (k + 1) hk
  · intro fuel hf
    apply main_loop_eq sort (Nat.find hex + 1) fuel _ hf
    · intro i hi
      cases i with
      | zero => rfl
      | succ i =>
        have hk : ¬ AllEmpty (run_ticks sort (initial_state in_file) (i + 1)) :=
          Nat.find_min hex (by omega)
        rw [← run_all_done hs] at hk
        simpa using hk
    · exact (run_all_done hs in_file _).mpr (Nat.find_spec hex)

/-- When everything is empty, every job with a valid priority has no slot left and has been
named in as many records as it requested. -/
theorem AllEmpty_served {in_file : List Job} {s : State} (hw : Wf in_file s)
    (ha : Acct in_file false s) (he : AllEmpty s) (id : Int) (h0 : 0 ≤ id)
    (h1 : id < in_file.length)
    (hp : (job_of in_file id).priority = HIGH_PRIORITY ∨
      (job_of in_file id).priority = LOW_PRIORITY) :
    (served s.out_file id : Int) = (job_of in_file id).slots_remaining ∧
      (customerAt s.customers id).slots_remaining = 0 := by
  obtain ⟨e1, e2, e3, e4⟩ := he
  have hwl := hw.waiting_length
  simp only [waiting, e1, e2, List.map_nil, List.append_nil, List.length_nil] at hwl
  have hd : dispatched in_file s = in_file.length := by
    have := hw.dispatched_le
    omega
  have hb := ha.balance id h0 h1
  rw [e4, if_neg (by omega)] at hb
  have hf := (ha.finished id h0 (by rw [hd]; exact h1)
    (fun q hq => by rw [e3 q hq]; exact List.not_mem_nil _) (by rw [e4]; omega)).2 hp
  rw [hf] at hb
  exact ⟨by omega, hf⟩

end Mlfq
end CpuScheduler

/-! ## Service conservation, termination and the shape of the trace -/

namespace CpuScheduler

theorem scenario_two_valid :
    ArrivalsSorted scenario_two ∧ ArrivalsNonneg scenario_two ∧ SlotsPositive scenario_two ∧
      PrioritiesValid scenario_two := by
  simp [ArrivalsSorted, ArrivalsNonneg, SlotsPositive, PrioritiesValid, scenario_two,
    HIGH_PRIORITY]

namespace Mlfq

/-- C1 (service conservation in `mlfq.cpp`).  For every job list whose arrival ticks are
non-negative and non-decreasing in input order, whose `slots_requested` are all positive and
whose priorities are all 0 or 1, the tick loop halts, the completed trace contains, for each
job `j`, exactly `slots_requested(j)` records naming `j`, and every job's `slots_remaining`
is 0 when the simulation halts. -/
theorem mlfq_service_conservation (sort : (Int → Int → Bool) → List Int → List Int)
    (hs : StdSort sort) (in_file : List Job) (h1 : ArrivalsSorted in_file)
    (h2 : ArrivalsNonneg in_file) (h3 : SlotsPositive in_file) (h4 : PrioritiesValid in_file) :
    ∃ (fuel : Nat) (s : State), main_loop sort fuel (initial_state in_file) = some s ∧
      ∀ (j : Nat) (hj : j < in_file.length),
        (served s.out_file (j : Int) : Int) = (in_file[j]).slots_requested ∧
        (customerAt s.customers (j : Int)).slots_remaining = 0 := by
  obtain ⟨T, _, hempty, _, hloop⟩ := halts hs in_file h1 h2 h3
  refine ⟨T + 1, _, hloop (T + 1) (le_refl _), ?_⟩
  intro j hj
  have hjob := job_of_eq_getElem in_file j hj
  have hp : (job_of in_file (j : Int)).priority = HIGH_PRIORITY ∨
      (job_of in_file (j : Int)).priority = LOW_PRIORITY := by
    rw [hjob]
    exact h4 _ (List.getElem_mem _)
  have := AllEmpty_served (Wf_run hs in_file (T + 1)) (Acct_run hs h3 (T + 1)) hempty (j : Int)
    (by omega) (by exact_mod_cast hj) hp
  rw [hjob] at this
  exact this

theorem mlfq_service_conservation_witness :
    ∃ (fuel : Nat) (s : State),
      main_loop insertion_sort fuel (initial_state scenario_two) = some s ∧
      ∀ (j : Nat) (hj : j < scenario_two.length),
        (served s.out_file (j : Int) : Int) = (scenario_two[j]).slots_requested ∧
        (customerAt s.customers (j : Int)).slots_remaining = 0 :=
  mlfq_service_conservation insertion_sort insertion_sort_stdSort scenario_two
    scenario_two_valid.1 scenario_two_valid.2.1 scenario_two_valid.2.2.1
    scenario_two_valid.2.2.2

/-- C3 (termination of `mlfq.cpp`).  For every job list whose arrival ticks are non-negative
and non-decreasing in input order and whose `slots_requested` are all positive, the tick loop
halts: there is a tick `T` such that the loop stops after the iteration of tick `T`
(with any fuel of at least `T + 1` iterations), `T` is the first tick after whose processing
the calendar, the arrival queue, every leveled queue and the running slot are all empty, the
last trace record carries the tick `T`, and `T` is at most the largest arrival tick plus the
sum of all `slots_requested`. -/
theorem mlfq_termination (sort : (Int → Int → Bool) → List Int → List Int)
    (hs : StdSort sort) (in_file : List Job) (h1 : ArrivalsSorted in_file)
    (h2 : ArrivalsNonneg in_file) (h3 : SlotsPositive in_file) :
    ∃ T : Nat,
      (∀ fuel, T + 1 ≤ fuel → main_loop sort fuel (initial_state in_file) =
        some (run_ticks sort (initial_state in_file) (T + 1))) ∧
      AllEmpty (run_ticks sort (initial_state in_file) (T + 1)) ∧
      (∀ t, t < T → ¬ AllEmpty (run_ticks sort (initial_state in_file) (t + 1))) ∧
      (run_ticks sort (initial_state in_file) (T + 1)).out_file.getLast? = some ((T : Int), -1) ∧
      (T : Int) ≤ max_arrival in_file + total_slots in_file := by
  obtain ⟨T, hT, hempty, hfirst, hloop⟩ := halts hs in_file h1 h2 h3
  exact ⟨T, hloop, hempty, hfirst, last_record hs in_file T hempty, hT⟩

theorem mlfq_termination_witness :
    ∃ T : Nat,
      (∀ fuel, T + 1 ≤ fuel → main_loop insertion_sort fuel (initial_state scenario_two) =
        some (run_ticks insertion_sort (initial_state scenario_two) (T + 1))) ∧
      AllEmpty (run_ticks insertion_sort (initial_state scenario_two) (T + 1)) ∧
      (∀ t, t < T → ¬ AllEmpty (run_ticks insertion_sort (initial_state scenario_two) (t + 1))) ∧
      (run_ticks insertion_sort (initial_state scenario_two) (T + 1)).out_file.getLast? =
        some ((T : Int), -1) ∧
      (T : Int) ≤ max_arrival scenario_two + total_slots scenario_two :=
  mlfq_termination insertion_sort insertion_sort_stdSort scenario_two
    scenario_two_valid.1 scenario_two_valid.2.1 scenario_two_valid.2.2.1

end Mlfq
end CpuScheduler

/-! ## No run before arrival -/

namespace CpuScheduler
namespace Mlfq

theorem Arrived_initial (in_file : List Job) : Arrived in_file (initial_state in_file) := by
  refine ⟨?_, ?_, ?_, ?_⟩
  · intro id hid
    exact absurd hid (List.not_mem_nil _)
  · intro q hq id hid
    simp [initial_state, NUM_PRIORITIES, List.replicate] at hq
    rw [hq] at hid
    exact absurd hid (List.not_mem_nil _)
  · intro h
    simp [initial_state] at h
  · intro r hr
    exact absurd hr (List.not_mem_nil _)

theorem Arrived_admission {in_file : List Job} {s : State} (hw : Wf in_file s)
    (h : Arrived in_file s) : Arrived in_file (admission s) := by
  refine ⟨?_, h.queues_arrived, h.current_arrived, h.trace_arrived⟩
  intro id hid
  rw [admission_eq] at hid
  rcases List.mem_append.mp hid with hid | hid
  · exact h.queue_arrived id hid
  · obtain ⟨e, he, rfl⟩ := List.mem_map.mp hid
    have he2 := List.mem_takeWhile_imp he
    have he3 := hw.event_time_eq e (List.takeWhile_sublist _ |>.subset he)
    simp only [decide_eq_true_eq] at he2
    show (job_of in_file e.customer_id).arrival_time ≤ s.current_time
    rw [← he3, ← he2]

theorem Arrived_expiry {in_file : List Job} {s : State} (hw : Wf in_file s)
    (h : Arrived in_file s) : Arrived in_file (expiry s) := by
  obtain ⟨q0, hq, _⟩ := hw.queues_eq
  have hcase : (expiry s).current_id = s.current_id ∧ (expiry s).queues = s.queues ∨
      (0 ≤ s.current_id ∧ (expiry s).current_id = -1 ∧
        ((expiry s).queues = s.queues ∨ (expiry s).queues = [q0 ++ [s.current_id], []])) := by
    by_cases hc : 0 ≤ s.current_id ∧ s.current_time = s.time_out
    · right
      refine ⟨hc.1, ?_, ?_⟩
      · unfold expiry; rw [if_pos hc]
      · by_cases h3 : 0 < (customerAt s.customers s.current_id).slots_remaining -
            (s.current_time - (customerAt s.customers s.current_id).playing_since) ∧
            ((customerAt s.customers s.current_id).priority = HIGH_PRIORITY ∨
              (customerAt s.customers s.current_id).priority = LOW_PRIORITY)
        · right
          rw [expiry_requeue s q0 [] hq hc.1 hc.2 h3.1 h3.2]
        · left
          rw [expiry_discard s hc.1 hc.2 h3]
    · left
      rw [expiry_idle s hc]
      exact ⟨rfl, rfl⟩
  refine ⟨?_, ?_, ?_, ?_⟩
  · rw [expiry_arrival_queue, expiry_current_time]; exact h.queue_arrived
  · rw [expiry_current_time]
    rcases hcase with ⟨_, h2⟩ | ⟨h0, _, h2 | h2⟩
    · rw [h2]; exact h.queues_arrived
    · rw [h2]; exact h.queues_arrived
    · rw [h2]
      intro q hqm id hid
      simp only [List.mem_cons, List.mem_singleton, List.not_mem_nil, or_false] at hqm
      rcases hqm with rfl | rfl
      · rcases List.mem_append.mp hid with hid | hid
        · exact h.queues_arrived q0 (by rw [hq]; simp) id hid
        · rw [List.mem_singleton.mp hid]
          exact h.current_arrived h0
      · exact absurd hid (List.not_mem_nil _)
  · rw [expiry_current_time]
    rcases hcase with ⟨h1, _⟩ | ⟨_, h1, _⟩
    · rw [h1]; exact h.current_arrived
    · rw [h1]; intro hneg; omega
  · rw [expiry_out_file]; exact h.trace_arrived

theorem Arrived_selection {sort : (Int → Int → Bool) → List Int → List Int} (hs : StdSort sort)
    {in_file : List Job} {s : State} (hw : Wf in_file s) (h : Arrived in_file s) :
    Arrived in_file (selection sort s) := by
  obtain ⟨q0, hq, _⟩ := hw.queues_eq
  rcases selection_cases hs s q0 hq with ⟨_, he⟩ | ⟨_, _, _, he⟩ | ⟨_, id, rest, ha, he⟩ |
      ⟨_, _, id, rest, hp, _, he⟩
  · rw [he]; exact h
  · rw [he]; exact ⟨h.queue_arrived, h.queues_arrived, h.current_arrived, h.trace_arrived⟩
  · rw [he]
    refine ⟨?_, h.queues_arrived, ?_, h.trace_arrived⟩
    · intro i hi
      exact h.queue_arrived i (by rw [ha]; exact List.mem_cons_of_mem _ hi)
    · intro _
      exact h.queue_arrived id (by rw [ha]; exact List.mem_cons_self _ _)
  · rw [he]
    have hq0m : q0 ∈ s.queues := by rw [hq]; simp
    refine ⟨h.queue_arrived, ?_, ?_, h.trace_arrived⟩
    · intro q hqm i hi
      simp only [List.mem_cons, List.mem_singleton, List.not_mem_nil, or_false] at hqm
      rcases hqm with rfl | rfl
      · exact h.queues_arrived q0 hq0m i (hp.subset (List.mem_cons_of_mem _ hi))
      · exact absurd hi (List.not_mem_nil _)
    · intro _
      exact h.queues_arrived q0 hq0m id (hp.subset (List.mem_cons_self _ _))

theorem Arrived_emit {in_file : List Job} {s : State} (h : Arrived in_file s) :
    Arrived in_file (emit s) := by
  refine ⟨?_, ?_, ?_, ?_⟩
  · intro id hid
    have := h.queue_arrived id hid
    show _ ≤ s.current_time + 1
    omega
  · intro q hq id hid
    have := h.queues_arrived q hq id hid
    show _ ≤ s.current_time + 1
    omega
  · intro h0
    have := h.current_arrived h0
    show (job_of in_file s.current_id).arrival_time ≤ s.current_time + 1
    omega
  · intro r hr
    have hr2 : r ∈ s.out_file ++ [(s.current_time, s.current_id)] := hr
    rcases List.mem_append.mp hr2 with hr3 | hr3
    · exact h.trace_arrived r hr3
    · rw [List.mem_singleton.mp hr3]
      exact h.current_arrived

theorem Arrived_run {sort : (Int → Int → Bool) → List Int → List Int} (hs : StdSort sort)
    (in_file : List Job) (n : Nat) :
    Arrived in_file (run_ticks sort (initial_state in_file) n) := by
  induction n with
  | zero => exact Arrived_initial in_file
  | succ n ih =>
    have hw := Wf_run hs in_file n
    show Arrived in_file (tick sort _)
    rw [tick_eq]
    exact Arrived_emit (Arrived_selection hs (Wf_expiry (Wf_admission hw))
      (Arrived_expiry (Wf_admission hw) (Arrived_admission hw ih)))

end Mlfq
end CpuScheduler

/-! ## First dispatches follow the input order -/

namespace CpuScheduler
namespace Mlfq

theorem FifoTrace_tick {sort : (Int → Int → Bool) → List Int → List Int} (hs : StdSort sort)
    {in_file : List Job} {s : State} (hw : Wf in_file s) (h : FifoTrace s.out_file) :
    FifoTrace (tick sort s).out_file := by
  have hw2 := Wf_tick hs hw
  have hout := tick_out_file sort s
  have hcur : (tick sort s).current_id = (selection sort (expiry (admission s))).current_id := rfl
  intro t r hr i h0 h1
  rw [hout] at hr ⊢
  by_cases ht : t < s.out_file.length
  · rw [List.getElem?_append_left ht] at hr
    rw [List.take_append_of_le_length (le_of_lt ht)]
    exact h t r hr i h0 h1
  · by_cases ht2 : t = s.out_file.length
    · subst ht2
      rw [List.getElem?_append_right (le_refl _)] at hr
      simp only [Nat.sub_self, List.getElem?_cons_zero, Option.some.injEq] at hr
      rw [List.take_append_of_le_length (le_refl _), List.take_length]
      rw [← hr] at h1
      simp only at h1
      have hlt : i < dispatched in_file (tick sort s) := by
        rcases hw2.current_lt with h2 | h2
        · rw [hcur] at h2; omega
        · rw [hcur] at h2; omega
      have hm := hw2.named i h0 hlt
      rw [hout] at hm
      simp only [names, List.map_append, List.map_cons, List.map_nil, List.mem_append,
        List.mem_singleton] at hm
      rcases hm with hm | hm
      · exact hm
      · omega
    · rw [List.getElem?_eq_none (by simp; omega)] at hr
      exact absurd hr (by simp)

theorem FifoTrace_run {sort : (Int → Int → Bool) → List Int → List Int} (hs : StdSort sort)
    (in_file : List Job) (n : Nat) :
    FifoTrace (run_ticks sort (initial_state in_file) n).out_file := by
  induction n with
  | zero =>
    intro t r hr
    simp [run_ticks, initial_state] at hr
  | succ n ih => exact FifoTrace_tick hs (Wf_run hs in_file n) ih

/-- C7 (arrival-queue FIFO in `mlfq.cpp`).  For every input whose arrival ticks are
non-decreasing in input order, if the jobs `i < j` arrive at the same tick, then whenever the
record of a tick `t` names `j`, some record of a strictly earlier tick names `i`: the job
listed earlier receives its first dispatch at a strictly earlier tick than the other.  When
moreover the arrival ticks are non-negative and every job requests at least one slot, the
loop halts and both jobs are named in the trace. -/
theorem mlfq_arrival_fifo (sort : (Int → Int → Bool) → List Int → List Int)
    (hs : StdSort sort) (in_file : List Job) (h1 : ArrivalsSorted in_file)
    (i j : Nat) (hij : i < j) (hj : j < in_file.length)
    (_hsame : (in_file[i]).arrival_time = (in_file[j]).arrival_time) :
    (∀ (n t : Nat) (tick_j : Int),
      (run_ticks sort (initial_state in_file) n).out_file[t]? = some (tick_j, (j : Int)) →
      ∃ (t0 : Nat) (tick_i : Int), t0 < t ∧
        (run_ticks sort (initial_state in_file) n).out_file[t0]? = some (tick_i, (i : Int))) ∧
    (ArrivalsNonneg in_file → SlotsPositive in_file →
      ∃ (fuel : Nat) (s : State), main_loop sort fuel (initial_state in_file) = some s ∧
        (i : Int) ∈ names s.out_file ∧ (j : Int) ∈ names s.out_file) := by
  constructor
  · intro n t tick_j hr
    have hm := FifoTrace_run hs in_file n t _ hr (i : Int) (by omega) (by simp; omega)
    simp only [names, List.mem_map] at hm
    obtain ⟨r, hr1, hr2⟩ := hm
    obtain ⟨t0, ht0, hget⟩ := List.getElem_of_mem hr1
    have ht0' : t0 < t := by
      have := ht0
      simp only [List.length_take] at this
      omega
    refine ⟨t0, r.1, ht0', ?_⟩
    have h2 : (List.take t (run_ticks sort (initial_state in_file) n).out_file)[t0]? = some r := by
      rw [List.getElem?_eq_getElem ht0, hget]
    rw [List.getElem?_take_of_lt ht0'] at h2
    rw [h2, ← hr2]
  · intro h2 h3
    obtain ⟨T, _, hempty, _, hloop⟩ := halts hs in_file h1 h2 h3
    have hw := Wf_run hs in_file (T + 1)
    have hwl := hw.waiting_length
    obtain ⟨e1, e2, _, _⟩ := hempty
    simp only [waiting, e1, e2, List.map_nil, List.append_nil, List.length_nil] at hwl
    have hd : dispatched in_file (run_ticks sort (initial_state in_file) (T + 1)) =
        in_file.length := by
      have := hw.dispatched_le
      omega
    refine ⟨T + 1, _, hloop (T + 1) (le_refl _), ?_, ?_⟩
    · exact hw.named (i : Int) (by omega) (by rw [hd]; exact_mod_cast (by omega : i < in_file.length))
    · exact hw.named (j : Int) (by omega) (by rw [hd]; exact_mod_cast hj)

set_option maxRecDepth 100000 in
theorem mlfq_arrival_fifo_witness :
    (∃ (t0 : Nat) (tick_i : Int), t0 < 8 ∧
      (run_ticks insertion_sort (initial_state same_tick_jobs) 24).out_file[t0]? =
        some (tick_i, ((0 : Nat) : Int))) ∧
    (∃ (fuel : Nat) (s : State),
      main_loop insertion_sort fuel (initial_state same_tick_jobs) = some s ∧
        ((0 : Nat) : Int) ∈ names s.out_file ∧ ((1 : Nat) : Int) ∈ names s.out_file) :=
  ⟨(mlfq_arrival_fifo insertion_sort insertion_sort_stdSort same_tick_jobs
      (by simp [ArrivalsSorted, same_tick_jobs]) 0 1 (by decide) (by decide) (by decide)).1
      24 8 8 (by decide!),
    (mlfq_arrival_fifo insertion_sort insertion_sort_stdSort same_tick_jobs
      (by simp [ArrivalsSorted, same_tick_jobs]) 0 1 (by decide) (by decide) (by decide)).2
      (by simp [ArrivalsNonneg, same_tick_jobs]) (by simp [SlotsPositive, same_tick_jobs])⟩

end Mlfq
end CpuScheduler

/-! ## Admission at the arrival tick -/

namespace CpuScheduler

theorem mem_takeWhile_of_sorted (t : Int) (l : List Event)
    (hs : l.Pairwise (fun a b => a.event_time ≤ b.event_time))
    (hf : ∀ e ∈ l, t ≤ e.event_time) (e : Event) (he : e ∈ l) (het : e.event_time = t) :
    e ∈ l.takeWhile (fun e => decide (t = e.event_time)) := by
  induction l with
  | nil => exact absurd he (List.not_mem_nil _)
  | cons x xs ih =>
    rw [List.pairwise_cons] at hs
    have hx : t = x.event_time := by
      have h1 := hf x (List.mem_cons_self _ _)
      rcases List.mem_cons.mp he with rfl | he2
      · omega
      · have := hs.1 e he2
        omega
    rw [List.takeWhile_cons, if_pos (by simpa using hx)]
    rcases List.mem_cons.mp he with rfl | he2
    · exact List.mem_cons_self _ _
    · exact List.mem_cons_of_mem _ (ih hs.2 (fun e he => hf e (List.mem_cons_of_mem _ he)) he2)

namespace Mlfq

theorem admitted_eq (s : State) :
    admitted s =
      (s.arrival_events.takeWhile (fun e => decide (s.current_time = e.event_time))).map
        (fun e => e.customer_id) := by
  unfold admitted
  rw [admission_eq]
  exact List.drop_left _ _

theorem selection_arrival_queue_subset {sort : (Int → Int → Bool) → List Int → List Int}
    (hs : StdSort sort) {in_file : List Job} {s : State} (hw : Wf in_file s) :
    ∀ id ∈ (selection sort s).arrival_queue, id ∈ s.arrival_queue := by
  obtain ⟨q0, hq, _⟩ := hw.queues_eq
  rcases selection_cases hs s q0 hq with ⟨_, he⟩ | ⟨_, _, _, he⟩ | ⟨_, id, rest, ha, he⟩ |
      ⟨_, _, id, rest, hp, _, he⟩
  · rw [he]; exact fun id h => h
  · rw [he]; exact fun id h => h
  · rw [he, ha]; exact fun id h => List.mem_cons_of_mem _ h
  · rw [he]; exact fun id h => h

/-- At the head of the loop, the jobs in the arrival queue arrived at an earlier tick. -/
theorem queue_past {sort : (Int → Int → Bool) → List Int → List Int} (hs : StdSort sort)
    (in_file : List Job) (n : Nat) :
    ∀ id ∈ (run_ticks sort (initial_state in_file) n).arrival_queue,
      (job_of in_file id).arrival_time < n := by
  cases n with
  | zero =>
    intro id hid
    exact absurd hid (List.not_mem_nil _)
  | succ n =>
    intro id hid
    have hw := Wf_run hs in_file n
    have hid2 : id ∈ (selection sort (expiry (admission
        (run_ticks sort (initial_state in_file) n)))).arrival_queue := hid
    have hid3 := selection_arrival_queue_subset hs (Wf_expiry (Wf_admission hw)) id hid2
    rw [expiry_arrival_queue] at hid3
    have := (Arrived_admission hw (Arrived_run hs in_file n)).queue_arrived id hid3
    have ht : (admission (run_ticks sort (initial_state in_file) n)).current_time = n :=
      run_current_time hs in_file n
    rw [ht] at this
    push_cast
    omega

/-- Until its arrival tick, the event of a job is in the calendar. -/
theorem event_pending {sort : (Int → Int → Bool) → List Int → List Int} (hs : StdSort sort)
    (in_file : List Job) (j : Nat) (hj : j < in_file.length) (t : Nat)
    (ht : (t : Int) ≤ (in_file[j]).arrival_time) :
    ∃ e ∈ (run_ticks sort (initial_state in_file) t).arrival_events, e.customer_id = (j : Int) := by
  have hw := Wf_run hs in_file t
  have har := Arrived_run hs in_file t
  have hjob := job_of_eq_getElem in_file j hj
  have harr : (job_of in_file (j : Int)).arrival_time = (in_file[j]).arrival_time := by
    rw [hjob]; rfl
  have hge : dispatched in_file (run_ticks sort (initial_state in_file) t) ≤ j := by
    by_contra hlt
    have hm := hw.named (j : Int) (by omega) (by omega)
    simp only [names, List.mem_map] at hm
    obtain ⟨r, hr, hr2⟩ := hm
    have h1 := har.trace_arrived r hr (by omega)
    have h2 : r.1 ∈ (run_ticks sort (initial_state in_file) t).out_file.map Prod.fst :=
      List.mem_map.mpr ⟨r, hr, rfl⟩
    rw [hw.ticks_eq, mem_ids, run_ticks_length] at h2
    simp only [initial_state, List.length_nil, Nat.zero_add] at h2
    rw [hr2, harr] at h1
    omega
  have hmem : (j : Int) ∈ waiting (run_ticks sort (initial_state in_file) t) := by
    rw [hw.waiting_eq, mem_drop_ids]
    omega
  rcases List.mem_append.mp hmem with h | h
  · have := queue_past hs in_file t (j : Int) h
    rw [harr] at this
    omega
  · obtain ⟨e, he, he2⟩ := List.mem_map.mp h
    exact ⟨e, he, he2⟩

/-- C2, as amended (admission in `mlfq.cpp`).  `initialize_system` keeps the input order and
sorts nothing.  For every input whose arrival ticks are non-negative and non-decreasing in
input order, and every job `j`: the tick loop is still running when the clock reaches the
arrival tick of `j`, and `j` is moved into the arrival queue at the tick `t` if and only if
`t` is its arrival tick -- whatever the running slot holds at that tick. -/
theorem mlfq_admission_sorted (sort : (Int → Int → Bool) → List Int → List Int)
    (hs : StdSort sort) (in_file : List Job) (h1 : ArrivalsSorted in_file)
    (h2 : ArrivalsNonneg in_file) (j : Nat) (hj : j < in_file.length) :
    (∀ t : Nat, (t : Int) ≤ (in_file[j]).arrival_time →
      (run_ticks sort (initial_state in_file) t).all_done = false) ∧
    (∀ t : Nat, (j : Int) ∈ admitted_at sort in_file t ↔ (t : Int) = (in_file[j]).arrival_time) := by
  have hjob := job_of_eq_getElem in_file j hj
  have harr : (job_of in_file (j : Int)).arrival_time = (in_file[j]).arrival_time := by
    rw [hjob]; rfl
  constructor
  · intro t ht
    cases t with
    | zero => rfl
    | succ t =>
      obtain ⟨e, he, _⟩ := event_pending hs in_file j hj (t + 1) ht
      have hne : ¬ AllEmpty (run_ticks sort (initial_state in_file) (t + 1)) := by
        intro hall
        rw [hall.1] at he
        exact absurd he (List.not_mem_nil _)
      rw [← run_all_done hs] at hne
      simpa using hne
  · intro t
    have hw := Wf_run hs in_file t
    have htime := run_current_time hs in_file t
    unfold admitted_at
    rw [admitted_eq, htime]
    constructor
    · intro hm
      obtain ⟨e, he, he2⟩ := List.mem_map.mp hm
      have he3 := List.mem_takeWhile_imp he
      simp only [decide_eq_true_eq] at he3
      have he4 := hw.event_time_eq e ((List.takeWhile_sublist _).subset he)
      rw [he2, harr] at he4
      omega
    · intro ht
      obtain ⟨e, he, he2⟩ := event_pending hs in_file j hj t (le_of_eq ht)
      have hc := Cal_run sort in_file h1 h2 t
      have he4 := hw.event_time_eq e he
      rw [he2, harr] at he4
      refine List.mem_map.mpr ⟨e, ?_, he2⟩
      apply mem_takeWhile_of_sorted _ _ hc.events_sorted _ e he (by omega)
      intro e' he'
      have := hc.events_future e' he'
      simp only [Bool.false_eq_true, ↓reduceIte, add_zero, htime] at this
      exact this

theorem mlfq_admission_sorted_witness :
    (∀ t : Nat, (t : Int) ≤ (scenario_two[1]).arrival_time →
      (run_ticks insertion_sort (initial_state scenario_two) t).all_done = false) ∧
    (∀ t : Nat, ((1 : Nat) : Int) ∈ admitted_at insertion_sort scenario_two t ↔
      (t : Int) = (scenario_two[1]).arrival_time) :=
  mlfq_admission_sorted insertion_sort insertion_sort_stdSort scenario_two
    scenario_two_valid.1 scenario_two_valid.2.1 1 (by decide)

/-- Counterexample to C2 as stated.  On the input `A 0 5 5`, `B 0 2 3` (not listed by arrival
tick) the calendar is not sorted, and job 1, whose arrival tick is 2, is not moved into the
arrival queue at tick 2. -/
theorem mlfq_admission_unsorted_counterexample :
    (unsorted_jobs[1]).arrival_time = 2 ∧
      ((1 : Nat) : Int) ∉ admitted_at insertion_sort unsorted_jobs 2 ∧
      ¬ ((initialize_system unsorted_jobs).1).Pairwise
        (fun a b => a.event_time ≤ b.event_time) := by
  decide

end Mlfq
end CpuScheduler

/-! ## Runs that do not depend on the sorting function -/

namespace CpuScheduler
namespace Mlfq

theorem selection_congr (sort₁ sort₂ : (Int → Int → Bool) → List Int → List Int) (s : State)
    (h : sort₁ (by_slots_remaining s.customers) (sort_input s) =
      sort₂ (by_slots_remaining s.customers) (sort_input s)) :
    selection sort₁ s = selection sort₂ s := by
  unfold selection
  unfold sort_input at h
  by_cases hc : s.current_id = -1
  · rw [if_pos hc] at h
    simp only [if_pos hc]
    by_cases ha : s.arrival_queue = []
    · rw [if_pos ha] at h
      simp only [if_pos ha]
      by_cases hi : scan_queues s.queues NUM_PRIORITIES 0 ≠ -1
      · rw [if_pos hi] at h
        simp only [if_pos hi, h]
      · simp only [if_neg hi]
    · simp only [if_neg ha, ne_eq, not_true_eq_false, if_false]
  · simp only [if_neg hc]

theorem tick_congr {sort : (Int → Int → Bool) → List Int → List Int} (hs : StdSort sort)
    (s : State) (h : (sort_input (expiry (admission s))).length ≤ 1) :
    tick sort s = tick insertion_sort s := by
  have := selection_congr sort insertion_sort (expiry (admission s))
    (by rw [hs.short _ _ h, insertion_sort_stdSort.short _ _ h])
  simp only [tick, this]

theorem main_loop_congr {sort : (Int → Int → Bool) → List Int → List Int} (hs : StdSort sort)
    (fuel : Nat) : ∀ s : State, short_sorts s fuel = true →
      main_loop sort fuel s = main_loop insertion_sort fuel s := by
  induction fuel with
  | zero => intro s _; rfl
  | succ fuel ih =>
    intro s h
    simp only [short_sorts, Bool.and_eq_true, decide_eq_true_eq] at h
    simp only [main_loop]
    rw [tick_congr hs s h.1, ih _ h.2]

theorem run_ticks_congr {sort : (Int → Int → Bool) → List Int → List Int} (hs : StdSort sort)
    (n : Nat) : ∀ s : State, short_sorts s n = true →
      run_ticks sort s n = run_ticks insertion_sort s n := by
  induction n with
  | zero => intro s _; rfl
  | succ n ih =>
    intro s h
    simp only [short_sorts, Bool.and_eq_true, decide_eq_true_eq] at h
    rw [run_ticks_succ, run_ticks_succ, tick_congr hs s h.1, ih _ h.2]

end Mlfq

namespace Scheduler

theorem rotation_congr (sort₁ sort₂ : (Int → Int → Bool) → List Int → List Int) (s : State)
    (hc : s.current_id = -1)
    (h : sort₁ (by_slots_remaining s.customers) (sort_input s) =
      sort₂ (by_slots_remaining s.customers) (sort_input s)) :
    rotation sort₁ s = rotation sort₂ s := by
  unfold rotation
  unfold sort_input at h
  rw [if_pos hc] at h
  by_cases ha : deref s s.current_queue = []
  · rw [if_pos ha] at h
    simp only [if_pos ha]
    by_cases hr : rotate s ≠ QueueRef.arrival_queue
    · rw [if_pos hr] at h
      simp only [if_pos hr]
      have hd : deref { s with current_queue := rotate s } (rotate s) = deref s (rotate s) := by
        cases rotate s <;> rfl
      rw [hd, h]
    · simp only [if_neg hr]
  · simp only [if_neg ha]

theorem sched_tick_congr {sort : (Int → Int → Bool) → List Int → List Int} (hs : StdSort sort)
    (s : State) (h : (sort_input (expiry (admission s))).length ≤ 1) :
    tick sort s = tick insertion_sort s := by
  have : selection sort (expiry (admission s)) =
      selection insertion_sort (expiry (admission s)) := by
    unfold selection
    by_cases hc : (expiry (admission s)).current_id = -1
    · simp only [if_pos hc]
      rw [rotation_congr sort insertion_sort _ hc
        (by rw [hs.short _ _ h, insertion_sort_stdSort.short _ _ h])]
    · simp only [if_neg hc]
  simp only [tick, this]

theorem sched_main_loop_congr {sort : (Int → Int → Bool) → List Int → List Int} (hs : StdSort sort)
    (fuel : Nat) : ∀ s : State, short_sorts s fuel = true →
      main_loop sort fuel s = main_loop insertion_sort fuel s := by
  induction fuel with
  | zero => intro s _; rfl
  | succ fuel ih =>
    intro s h
    simp only [short_sorts, Bool.and_eq_true, decide_eq_true_eq] at h
    simp only [main_loop]
    rw [sched_tick_congr hs s h.1, ih _ h.2]

end Scheduler
end CpuScheduler

/-! ## Dispatch by shortest remaining time, scenario 1, and the two variants -/

namespace CpuScheduler
namespace Mlfq

/-- C4 (shortest-remaining-time dispatch in `mlfq.cpp`).  At every tick of every run, if the
processor is idle after the expiry check and the selection takes a job from a leveled queue
(`current_queue_index >= 0`), then the dispatched job was in that queue, the queue loses
exactly that job, and the dispatched job's `slots_remaining` is less than or equal to the
`slots_remaining` of every job that was in that queue at that moment. -/
theorem mlfq_srt_dispatch (sort : (Int → Int → Bool) → List Int → List Int)
    (hs : StdSort sort) (in_file : List Job) (n : Nat)
    (hidle : (at_selection sort in_file n).current_id = -1)
    (hlevel : 0 ≤ (selection sort (at_selection sort in_file n)).current_queue_index) :
    ((selection sort (at_selection sort in_file n)).current_id ::
        (selection sort (at_selection sort in_file n)).queues.getD
          (selection sort (at_selection sort in_file n)).current_queue_index.toNat []).Perm
      ((at_selection sort in_file n).queues.getD
        (selection sort (at_selection sort in_file n)).current_queue_index.toNat []) ∧
    ∀ b ∈ (at_selection sort in_file n).queues.getD
        (selection sort (at_selection sort in_file n)).current_queue_index.toNat [],
      (customerAt (at_selection sort in_file n).customers
          (selection sort (at_selection sort in_file n)).current_id).slots_remaining ≤
        (customerAt (at_selection sort in_file n).customers b).slots_remaining := by
  have hw : Wf in_file (at_selection sort in_file n) :=
    Wf_expiry (Wf_admission (Wf_run hs in_file n))
  obtain ⟨q0, hq, _⟩ := hw.queues_eq
  rcases selection_cases hs _ q0 hq with ⟨hc, _⟩ | ⟨_, _, _, he⟩ | ⟨_, id, rest, _, he⟩ |
      ⟨_, _, id, rest, hp, hle, he⟩
  · exact absurd hidle hc
  · rw [he] at hlevel
    have hneg : ¬ ((0 : Int) ≤ -1) := by decide
    exact absurd hlevel hneg
  · rw [he] at hlevel
    have hneg : ¬ ((0 : Int) ≤ -1) := by decide
    exact absurd hlevel hneg
  · rw [he, hq]
    simp only [Int.toNat_zero, List.getD_cons_zero]
    refine ⟨hp, ?_⟩
    intro b hb
    rcases List.mem_cons.mp (hp.symm.subset hb) with rfl | hb2
    · exact le_refl _
    · exact hle b hb2

set_option maxRecDepth 100000 in
theorem mlfq_srt_dispatch_witness :
    (at_selection insertion_sort two_demoted_jobs 16).queues.getD 0 [] = [0, 1] ∧
    (customerAt (at_selection insertion_sort two_demoted_jobs 16).customers 0).slots_remaining = 7 ∧
    (customerAt (at_selection insertion_sort two_demoted_jobs 16).customers 1).slots_remaining = 2 ∧
    (selection insertion_sort (at_selection insertion_sort two_demoted_jobs 16)).current_id = 1 ∧
    ∀ b ∈ (at_selection insertion_sort two_demoted_jobs 16).queues.getD
        (selection insertion_sort
          (at_selection insertion_sort two_demoted_jobs 16)).current_queue_index.toNat [],
      (customerAt (at_selection insertion_sort two_demoted_jobs 16).customers
          (selection insertion_sort
            (at_selection insertion_sort two_demoted_jobs 16)).current_id).slots_remaining ≤
        (customerAt (at_selection insertion_sort two_demoted_jobs 16).customers b).slots_remaining :=
  ⟨by decide, by decide, by decide, by decide,
    (mlfq_srt_dispatch insertion_sort insertion_sort_stdSort two_demoted_jobs 16
      (by decide) (by decide)).2⟩

/-- C9, as amended (scenario 1 in `mlfq.cpp`).  For the single job `A 0 0 5` the output is
the records of the ticks 0..4, all naming job 0, followed by the idle record `(5, -1)` of the
tick at which the job's quantum expires: the loop stops after the iteration of tick 5 (six
iterations), not before. -/
theorem mlfq_scenario_one (sort : (Int → Int → Bool) → List Int → List Int)
    (hs : StdSort sort) :
    main sort 6 scenario_one = some [(0, 0), (1, 0), (2, 0), (3, 0), (4, 0), (5, -1)] ∧
      main sort 5 scenario_one = none := by
  unfold main
  rw [main_loop_congr hs 6 _ (by decide), main_loop_congr hs 5 _ (by decide)]
  decide

theorem mlfq_scenario_one_witness :
    main insertion_sort 6 scenario_one = some [(0, 0), (1, 0), (2, 0), (3, 0), (4, 0), (5, -1)] ∧
      main insertion_sort 5 scenario_one = none :=
  mlfq_scenario_one insertion_sort insertion_sort_stdSort

/-- Counterexample to C9 as stated: whatever the number of iterations allowed, the output for
`A 0 0 5` is not the five records `(0,0), ..., (4,0)`. -/
theorem mlfq_scenario_one_counterexample :
    ¬ ∃ fuel : Nat,
      main insertion_sort fuel scenario_one = some [(0, 0), (1, 0), (2, 0), (3, 0), (4, 0)] := by
  rintro ⟨fuel, h⟩
  by_cases hf : 6 ≤ fuel
  · have := main_loop_eq insertion_sort 6 fuel (initial_state scenario_one) hf (by decide)
      (by decide)
    unfold main at h
    rw [this] at h
    revert h
    decide
  · have hlt : fuel < 6 := by omega
    interval_cases fuel <;> revert h <;> decide

end Mlfq

set_option maxRecDepth 1000000 in
/-- C10 (the two variants are different schedulers).  The input `A 0 0 68`, `B 0 9 3` is
valid (arrival ticks non-negative and non-decreasing, slots positive, priorities 0 or 1), and
on it `mlfq.cpp` writes job 0 for the ticks 0..57, job 1 for 58..60, job 0 for 61..70 and the
idle record of tick 71, whereas `scheduler.cpp` writes job 0 for the ticks 0..67, job 1 for
68..70 and the idle record of tick 71: the traces differ at tick 58. -/
theorem variants_differ (sort : (Int → Int → Bool) → List Int → List Int)
    (hs : StdSort sort) :
    (ArrivalsSorted two_variants_jobs ∧ ArrivalsNonneg two_variants_jobs ∧
      SlotsPositive two_variants_jobs ∧ PrioritiesValid two_variants_jobs) ∧
    Mlfq.main sort 72 two_variants_jobs =
      some (span 0 58 0 ++ span 58 3 1 ++ span 61 10 0 ++ [(71, -1)]) ∧
    Scheduler.main sort 72 two_variants_jobs =
      some (span 0 68 0 ++ span 68 3 1 ++ [(71, -1)]) ∧
    (span 0 58 0 ++ span 58 3 1 ++ span 61 10 0 ++ [(71, -1)])[58]? = some (58, 1) ∧
    (span 0 68 0 ++ span 68 3 1 ++ [(71, -1)])[58]? = some (58, 0) := by
  have h1 : Mlfq.short_sorts (Mlfq.initial_state two_variants_jobs) 72 = true := by decide!
  have h2 : Scheduler.short_sorts (Scheduler.initial_state two_variants_jobs) 72 = true := by
    decide!
  have h3 : Mlfq.main insertion_sort 72 two_variants_jobs =
      some (span 0 58 0 ++ span 58 3 1 ++ span 61 10 0 ++ [(71, -1)]) := by decide!
  have h4 : Scheduler.main insertion_sort 72 two_variants_jobs =
      some (span 0 68 0 ++ span 68 3 1 ++ [(71, -1)]) := by decide!
  refine ⟨?_, ?_, ?_, by decide!, by decide!⟩
  · simp [ArrivalsSorted, ArrivalsNonneg, SlotsPositive, PrioritiesValid, two_variants_jobs,
      HIGH_PRIORITY]
  · rw [← h3]
    unfold Mlfq.main
    rw [Mlfq.main_loop_congr hs 72 _ h1]
  · rw [← h4]
    unfold Scheduler.main
    rw [Scheduler.sched_main_loop_congr hs 72 _ h2]

set_option maxRecDepth 1000000 in
theorem variants_differ_witness :
    Mlfq.main insertion_sort 72 two_variants_jobs ≠
      Scheduler.main insertion_sort 72 two_variants_jobs := by
  have h := variants_differ insertion_sort insertion_sort_stdSort
  rw [h.2.1, h.2.2.1]
  decide!

end CpuScheduler

/-! ## The record of a tick -/

namespace CpuScheduler
namespace Mlfq

/-- The record of tick `n` names the job that holds the running slot after that tick. -/
theorem record_eq {sort : (Int → Int → Bool) → List Int → List Int} (hs : StdSort sort)
    (in_file : List Job) (n : Nat) :
    (run_ticks sort (initial_state in_file) (n + 1)).out_file[n]? =
      some ((n : Int), (run_ticks sort (initial_state in_file) (n + 1)).current_id) := by
  have hout := tick_out_file sort (run_ticks sort (initial_state in_file) n)
  have hlen : (run_ticks sort (initial_state in_file) n).out_file.length = n := by
    rw [run_ticks_length]; simp [initial_state]
  show (tick sort (run_ticks sort (initial_state in_file) n)).out_file[n]? = _
  rw [hout, List.getElem?_append_right (by omega), hlen, run_current_time hs]
  simp only [Nat.sub_self, List.getElem?_cons_zero]
  rfl

end Mlfq
end CpuScheduler

/-! ## Dispatch precedence -/

namespace CpuScheduler
namespace Mlfq

theorem selection_second_level (sort : (Int → Int → Bool) → List Int → List Int) (s : State)
    (q1 : List Int) (id : Int) (rest : List Int)
    (h : s.current_id = -1) (ha : s.arrival_queue = []) (hq : s.queues = [[], q1])
    (hne : q1 ≠ []) (hsort : sort (by_slots_remaining s.customers) q1 = id :: rest) :
    selection sort s =
      { s with
        current_queue_index := 1
        queues := [[], rest]
        current_id := id
        time_out := s.current_time + min 50 (customerAt s.customers id).slots_remaining
        customers := s.customers.set id.toNat
          { customerAt s.customers id with playing_since := s.current_time } } := by
  simp [selection, h, ha, hq, scan_queues, NUM_PRIORITIES, hne, hsort, TIME_ALLOWANCES]

/-- C11 (strict dispatch precedence in `mlfq.cpp`).  In every state of the tick loop with its
two leveled queues in which the processor is idle after the expiry check (in particular at
every tick of every run): if the arrival queue is non-empty, the dispatched job is the head
of the arrival queue and no leveled queue is touched; only if the arrival queue is empty is a
job taken from a leveled queue, and then from `queues[0]` when it is non-empty, and from
`queues[1]` only when `queues[0]` is empty; when all three are empty nothing is dispatched. -/
theorem mlfq_dispatch_precedence (sort : (Int → Int → Bool) → List Int → List Int)
    (hs : StdSort sort) (s : State) (q0 q1 : List Int) (hq : s.queues = [q0, q1])
    (hidle : s.current_id = -1) :
    (∀ (id : Int) (rest : List Int), s.arrival_queue = id :: rest →
      (selection sort s).current_id = id ∧ (selection sort s).arrival_queue = rest ∧
      (selection sort s).queues = [q0, q1] ∧ (selection sort s).current_queue_index = -1) ∧
    (s.arrival_queue = [] → q0 ≠ [] →
      (selection sort s).current_queue_index = 0 ∧
      ((selection sort s).current_id :: (selection sort s).queues.getD 0 []).Perm q0 ∧
      (selection sort s).queues.getD 1 [] = q1 ∧ (selection sort s).arrival_queue = []) ∧
    (s.arrival_queue = [] → q0 = [] → q1 ≠ [] →
      (selection sort s).current_queue_index = 1 ∧
      ((selection sort s).current_id :: (selection sort s).queues.getD 1 []).Perm q1 ∧
      (selection sort s).queues.getD 0 [] = [] ∧ (selection sort s).arrival_queue = []) ∧
    (s.arrival_queue = [] → q0 = [] → q1 = [] →
      (selection sort s).current_id = -1 ∧ (selection sort s).queues = [q0, q1]) := by
  refine ⟨?_, ?_, ?_, ?_⟩
  · intro id rest ha
    rw [selection_arrival sort s id rest hidle ha]
    exact ⟨rfl, rfl, hq, rfl⟩
  · intro ha hne
    have hp := hs.perm s.customers q0
    cases hsort : sort (by_slots_remaining s.customers) q0 with
    | nil =>
      rw [hsort] at hp
      exact absurd (List.Perm.nil_eq hp) (fun h => hne h.symm)
    | cons id rest =>
      rw [hsort] at hp
      rw [selection_leveled sort s q0 q1 id rest hidle ha hq hne hsort]
      exact ⟨rfl, hp, rfl, ha⟩
  · intro ha h0 hne
    subst h0
    have hp := hs.perm s.customers q1
    cases hsort : sort (by_slots_remaining s.customers) q1 with
    | nil =>
      rw [hsort] at hp
      exact absurd (List.Perm.nil_eq hp) (fun h => hne h.symm)
    | cons id rest =>
      rw [hsort] at hp
      rw [selection_second_level sort s q1 id rest hidle ha hq hne hsort]
      exact ⟨rfl, hp, rfl, ha⟩
  · intro ha h0 h1
    subst h0 h1
    rw [selection_none sort s hidle ha hq]
    exact ⟨hidle, hq⟩

set_option maxRecDepth 100000 in
theorem mlfq_dispatch_precedence_witness :
    (at_selection insertion_sort scenario_two 8).arrival_queue = [1] ∧
    (at_selection insertion_sort scenario_two 8).queues = [[0], []] ∧
    (selection insertion_sort (at_selection insertion_sort scenario_two 8)).current_id = 1 ∧
    (selection insertion_sort (at_selection insertion_sort scenario_two 8)).queues = [[0], []] :=
  ⟨by decide!, by decide!,
    ((mlfq_dispatch_precedence insertion_sort insertion_sort_stdSort
      (at_selection insertion_sort scenario_two 8) [0] [] (by decide!) (by decide!)).1 1 []
      (by decide!)).1,
    ((mlfq_dispatch_precedence insertion_sort insertion_sort_stdSort
      (at_selection insertion_sort scenario_two 8) [0] [] (by decide!) (by decide!)).1 1 []
      (by decide!)).2.2.1⟩

end Mlfq
end CpuScheduler

/-! ## Demotion goes to the first leveled queue -/

namespace CpuScheduler
namespace Mlfq

/-- C13, as amended (demotion target in `mlfq.cpp`).  At every tick of every run at which the
quantum of the running job `j` expires: the running slot is cleared; if the job's
`slots_remaining` is still positive after the subtraction and its priority is 0 or 1, the job
is pushed at the back of `queues[0]` -- for priority 1 as well as for priority 0 -- and
`queues[1]` stays empty; otherwise (nothing remains, or the priority is neither 0 nor 1) the
job is discarded and the leveled queues are unchanged. -/
theorem mlfq_demotion_target (sort : (Int → Int → Bool) → List Int → List Int)
    (hs : StdSort sort) (in_file : List Job) (n : Nat) (j : Int) (hj : 0 ≤ j)
    (hcur : (admission (run_ticks sort (initial_state in_file) n)).current_id = j)
    (ht : (admission (run_ticks sort (initial_state in_file) n)).current_time =
      (admission (run_ticks sort (initial_state in_file) n)).time_out) :
    (at_selection sort in_file n).current_id = -1 ∧
    (customerAt (at_selection sort in_file n).customers j).slots_remaining =
      (customerAt (admission (run_ticks sort (initial_state in_file) n)).customers
          j).slots_remaining -
        ((n : Int) - (customerAt (admission (run_ticks sort (initial_state in_file) n)).customers
          j).playing_since) ∧
    (0 < (customerAt (at_selection sort in_file n).customers j).slots_remaining →
      (job_of in_file j).priority = 0 ∨ (job_of in_file j).priority = 1 →
      (at_selection sort in_file n).queues.getD 0 [] =
        (admission (run_ticks sort (initial_state in_file) n)).queues.getD 0 [] ++ [j] ∧
      (at_selection sort in_file n).queues.getD 1 [] = []) ∧
    (¬ (0 < (customerAt (at_selection sort in_file n).customers j).slots_remaining ∧
        ((job_of in_file j).priority = 0 ∨ (job_of in_file j).priority = 1)) →
      (at_selection sort in_file n).queues =
        (admission (run_ticks sort (initial_state in_file) n)).queues) := by
  have hw := Wf_admission (Wf_run hs in_file n)
  have htime : (admission (run_ticks sort (initial_state in_file) n)).current_time = n :=
    run_current_time hs in_file n
  unfold at_selection
  generalize admission (run_ticks sort (initial_state in_file) n) = s at hw hcur ht htime ⊢
  obtain ⟨q0, hq, _⟩ := hw.queues_eq
  have hlt := hw.current_toNat_lt (by rw [hcur]; exact hj)
  rw [hcur] at hlt
  have hactive : 0 ≤ s.current_id ∧ s.current_time = s.time_out := ⟨by rw [hcur]; exact hj, ht⟩
  have hecur : (expiry s).current_id = -1 := by
    unfold expiry; rw [if_pos hactive]
  have hecs : (expiry s).customers = s.customers.set j.toNat
      { customerAt s.customers j with
        slots_remaining := (customerAt s.customers j).slots_remaining -
          (s.current_time - (customerAt s.customers j).playing_since) } := by
    unfold expiry; rw [if_pos hactive, hcur]
  have hrem : (customerAt (expiry s).customers j).slots_remaining =
      (customerAt s.customers j).slots_remaining -
        ((n : Int) - (customerAt s.customers j).playing_since) := by
    rw [hecs, customerAt_set_self _ _ _ hlt, htime]
  have hprio := hw.priority_eq j
  refine ⟨hecur, hrem, ?_, ?_⟩
  · intro hpos hp
    rw [hrem, ← htime] at hpos
    rw [← hprio] at hp
    rw [expiry_requeue s q0 [] hq hactive.1 hactive.2 (by rw [hcur]; exact hpos)
      (by rw [hcur]; exact hp), hq, hcur]
    exact ⟨rfl, rfl⟩
  · intro hneg
    rw [hrem, ← htime, ← hprio] at hneg
    rw [expiry_discard s hactive.1 hactive.2 (by rw [hcur]; exact hneg)]

set_option maxRecDepth 100000 in
theorem mlfq_demotion_target_witness :
    (job_of low_priority_job 0).priority = 1 ∧
    (at_selection insertion_sort low_priority_job 8).queues.getD 0 [] = [0] ∧
    (at_selection insertion_sort low_priority_job 8).queues.getD 1 [] = [] :=
  ⟨by decide,
    by
      have h := ((mlfq_demotion_target insertion_sort insertion_sort_stdSort low_priority_job 8 0
        (by decide) (by decide!) (by decide!)).2.2.1 (by decide!) (by decide)).1
      rw [h]
      decide!,
    ((mlfq_demotion_target insertion_sort insertion_sort_stdSort low_priority_job 8 0
      (by decide) (by decide!) (by decide!)).2.2.1 (by decide!) (by decide)).2⟩

set_option maxRecDepth 100000 in
/-- Counterexample to C13 as stated.  The job of `A 1 0 20` has priority 1; when its first
quantum expires at tick 8 with 12 slots remaining it is pushed into `queues[0]`, and
`queues[1]` is empty. -/
theorem mlfq_demotion_target_counterexample :
    (job_of low_priority_job 0).priority = 1 ∧
    (admission (run_ticks insertion_sort (initial_state low_priority_job) 8)).current_id = 0 ∧
    (admission (run_ticks insertion_sort (initial_state low_priority_job) 8)).time_out = 8 ∧
    (customerAt (at_selection insertion_sort low_priority_job 8).customers 0).slots_remaining = 12 ∧
    (at_selection insertion_sort low_priority_job 8).queues = [[0], []] ∧
    (0 : Int) ∉ (at_selection insertion_sort low_priority_job 8).queues.getD 1 [] := by
  decide!

end Mlfq
end CpuScheduler

/-! ## Mutual exclusion -/

namespace CpuScheduler
namespace Mlfq

theorem Excl_initial (in_file : List Job) : Excl (initial_state in_file) := by
  refine ⟨?_, ?_⟩
  · intro q hq
    simp [initial_state, NUM_PRIORITIES, List.replicate] at hq
    rw [hq]
    exact List.nodup_nil
  · intro q hq
    simp [initial_state, NUM_PRIORITIES, List.replicate] at hq
    rw [hq]
    exact List.not_mem_nil _

theorem Excl_admission {s : State} (h : Excl s) : Excl (admission s) :=
  ⟨h.queues_nodup, h.current_not_queued⟩

theorem Excl_expiry {in_file : List Job} {s : State} (hw : Wf in_file s) (h : Excl s) :
    Excl (expiry s) := by
  obtain ⟨q0, hq, hq0⟩ := hw.queues_eq
  have hq0m : q0 ∈ s.queues := by rw [hq]; simp
  by_cases hc : 0 ≤ s.current_id ∧ s.current_time = s.time_out
  · have hcur : (expiry s).current_id = -1 := by
      unfold expiry; rw [if_pos hc]
    have hqs : (expiry s).queues = [q0, []] ∨ (expiry s).queues = [q0 ++ [s.current_id], []] := by
      by_cases h3 : 0 < (customerAt s.customers s.current_id).slots_remaining -
          (s.current_time - (customerAt s.customers s.current_id).playing_since) ∧
          ((customerAt s.customers s.current_id).priority = HIGH_PRIORITY ∨
            (customerAt s.customers s.current_id).priority = LOW_PRIORITY)
      · right
        rw [expiry_requeue s q0 [] hq hc.1 hc.2 h3.1 h3.2]
      · left
        rw [expiry_discard s hc.1 hc.2 h3]
        exact hq
    have hmem : ∀ q ∈ (expiry s).queues, q = q0 ∨ q = q0 ++ [s.current_id] ∨ q = [] := by
      intro q hqm
      rcases hqs with e | e <;> rw [e] at hqm <;> simp at hqm <;> tauto
    refine ⟨?_, ?_⟩
    · intro q hqm
      have hqm2 := hqm
      rcases hmem q hqm with rfl | rfl | rfl
      · exact h.queues_nodup _ hq0m
      · exact List.Nodup.append (h.queues_nodup _ hq0m) (List.nodup_singleton _)
          (by simpa using h.current_not_queued q0 hq0m)
      · exact List.nodup_nil
    · intro q hqm
      rw [hcur]
      rcases hmem q hqm with rfl | rfl | rfl
      · intro hm
        have := hq0 _ hm; omega
      · intro hm
        rcases List.mem_append.mp hm with hm | hm
        · have := hq0 _ hm; omega
        · have := List.mem_singleton.mp hm; omega
      · exact List.not_mem_nil _
  · rw [expiry_idle s hc]; exact h

theorem Excl_selection {sort : (Int → Int → Bool) → List Int → List Int} (hs : StdSort sort)
    {in_file : List Job} {s : State} (hw : Wf in_file s) (h : Excl s) :
    Excl (selection sort s) := by
  obtain ⟨q0, hq, hq0⟩ := hw.queues_eq
  have hq0m : q0 ∈ s.queues := by rw [hq]; simp
  rcases selection_cases hs s q0 hq with ⟨_, he⟩ | ⟨_, _, _, he⟩ | ⟨_, id, rest, ha, he⟩ |
      ⟨_, _, id, rest, hp, _, he⟩
  · rw [he]; exact h
  · rw [he]; exact ⟨h.queues_nodup, h.current_not_queued⟩
  · rw [he]
    refine ⟨h.queues_nodup, ?_⟩
    intro q hqm hm
    have hqm' : q ∈ s.queues := hqm
    rw [hq] at hqm'
    simp only [List.mem_cons, List.mem_singleton, List.not_mem_nil, or_false] at hqm'
    have hid : (dispatched in_file s : Int) ≤ id := by
      have hmw : id ∈ waiting s := by
        simp only [waiting, ha]; simp
      rw [hw.waiting_eq, mem_drop_ids] at hmw
      exact hmw.1
    rcases hqm' with rfl | rfl
    · have := hq0 id hm
      omega
    · exact absurd hm (List.not_mem_nil _)
  · rw [he]
    have hnd : (id :: rest).Nodup := hp.nodup_iff.mpr (h.queues_nodup q0 hq0m)
    refine ⟨?_, ?_⟩
    · intro q hqm
      simp only [List.mem_cons, List.mem_singleton, List.not_mem_nil, or_false] at hqm
      rcases hqm with rfl | rfl
      · exact (List.nodup_cons.mp hnd).2
      · exact List.nodup_nil
    · intro q hqm
      simp only [List.mem_cons, List.mem_singleton, List.not_mem_nil, or_false] at hqm
      rcases hqm with rfl | rfl
      · exact (List.nodup_cons.mp hnd).1
      · exact List.not_mem_nil _

theorem Excl_emit {s : State} (h : Excl s) : Excl (emit s) :=
  ⟨h.queues_nodup, h.current_not_queued⟩

theorem Excl_run {sort : (Int → Int → Bool) → List Int → List Int} (hs : StdSort sort)
    (in_file : List Job) (n : Nat) : Excl (run_ticks sort (initial_state in_file) n) := by
  induction n with
  | zero => exact Excl_initial in_file
  | succ n ih =>
    have hw := Wf_run hs in_file n
    show Excl (tick sort _)
    rw [tick_eq]
    exact Excl_emit (Excl_selection hs (Wf_expiry (Wf_admission hw))
      (Excl_expiry (Wf_admission hw) (Excl_admission ih)))

/-- The ids held by a well-formed state are pairwise different. -/
theorem held_nodup {in_file : List Job} {s : State} (hw : Wf in_file s) (h : Excl s) :
    (held s).Nodup := by
  obtain ⟨q0, hq, hq0⟩ := hw.queues_eq
  have hq0m : q0 ∈ s.queues := by rw [hq]; simp
  have haq : ∀ id ∈ s.arrival_queue, (dispatched in_file s : Int) ≤ id := by
    intro id hid
    have hmw : id ∈ waiting s := List.mem_append_left _ hid
    rw [hw.waiting_eq, mem_drop_ids] at hmw
    exact hmw.1
  have hand : s.arrival_queue.Nodup := by
    have hwn : (waiting s).Nodup := by
      rw [hw.waiting_eq]
      exact List.Nodup.sublist (List.drop_sublist _ _) (ids_nodup _)
    exact List.Nodup.sublist (List.sublist_append_left _ _) hwn
  unfold held
  rw [hq]
  simp only [List.getD_cons_zero, List.getD_cons_succ, List.append_nil]
  have h1 : (s.arrival_queue ++ q0).Nodup := by
    apply List.Nodup.append hand (h.queues_nodup q0 hq0m)
    intro id ha hb
    have := haq id ha
    have := hq0 id hb
    omega
  by_cases hc : 0 ≤ s.current_id
  · rw [if_pos hc]
    apply List.Nodup.append h1 (List.nodup_singleton _)
    intro id ha hb
    rw [List.mem_singleton.mp hb] at ha
    rcases List.mem_append.mp ha with ha | ha
    · have := haq _ ha
      rcases hw.current_lt with h2 | h2
      · omega
      · omega
    · exact h.current_not_queued q0 hq0m ha
  · rw [if_neg hc, List.append_nil]
    exact h1

/-- C15 (mutual exclusion invariant in `mlfq.cpp`).  For every input, at the end of every
tick's processing (and before the first tick), the list made of the arrival queue,
`queues[0]`, `queues[1]` and the job in the running slot has no repetition: the running slot
-- one variable -- holds at most one job id, no id occurs twice within the arrival queue or
within a leveled queue, and no id occurs in more than one of them. -/
theorem mlfq_mutual_exclusion (sort : (Int → Int → Bool) → List Int → List Int)
    (hs : StdSort sort) (in_file : List Job) (n : Nat) :
    (held (run_ticks sort (initial_state in_file) n)).Nodup :=
  held_nodup (Wf_run hs in_file n) (Excl_run hs in_file n)

set_option maxRecDepth 100000 in
theorem mlfq_mutual_exclusion_witness :
    held (run_ticks insertion_sort (initial_state waiting_and_arriving_jobs) 9) = [2, 0, 1] ∧
    (held (run_ticks insertion_sort (initial_state waiting_and_arriving_jobs) 9)).Nodup :=
  ⟨by decide!,
    mlfq_mutual_exclusion insertion_sort insertion_sort_stdSort waiting_and_arriving_jobs 9⟩

end Mlfq
end CpuScheduler

/-! ## The remaining service never grows -/

namespace CpuScheduler

theorem job_of_slots_nonneg {in_file : List Job} (h : SlotsNonneg in_file) (id : Int) :
    0 ≤ (job_of in_file id).slots_remaining := by
  simp only [job_of, customerAt, List.getD_eq_getElem?_getD]
  by_cases hlt : id.toNat < (in_file.map customer_from_file).length
  · rw [List.getElem?_eq_getElem hlt]
    simp only [List.getElem_map, Option.getD_some, customer_from_file]
    exact h _ (List.getElem_mem _)
  · rw [List.getElem?_eq_none (by omega)]
    simp [noCustomer]

namespace Mlfq

theorem Rem_initial (in_file : List Job) (h : SlotsNonneg in_file) :
    Rem (initial_state in_file) := by
  refine ⟨?_, ?_, ?_⟩
  · intro id
    exact job_of_slots_nonneg h id
  · intro q hq id hid
    simp [initial_state, NUM_PRIORITIES, List.replicate] at hq
    rw [hq] at hid
    exact absurd hid (List.not_mem_nil _)
  · intro h0
    simp [initial_state] at h0

theorem Rem_admission {s : State} (h : Rem s) : Rem (admission s) :=
  ⟨h.rem_nonneg, h.queued_pos, h.running⟩

/-- The expiry check never increases a `slots_remaining`. -/
theorem expiry_rem_le {s : State} (h : Rem s) (id : Int) :
    (customerAt (expiry s).customers id).slots_remaining ≤
      (customerAt s.customers id).slots_remaining := by
  by_cases hc : 0 ≤ s.current_id ∧ s.current_time = s.time_out
  · have hcs : (expiry s).customers = s.customers.set s.current_id.toNat
          { customerAt s.customers s.current_id with
            slots_remaining := (customerAt s.customers s.current_id).slots_remaining -
              (s.current_time - (customerAt s.customers s.current_id).playing_since) } := by
      unfold expiry; rw [if_pos hc]
    rw [hcs, customerAt_set]
    split
    · rename_i hh
      have := h.running hc.1
      rw [← customerAt_congr s.customers hh.1]
      simp only
      omega
    · exact le_refl _
  · rw [expiry_idle s hc]

theorem Rem_expiry {in_file : List Job} {s : State} (hw : Wf in_file s) (he : Excl s)
    (h : Rem s) : Rem (expiry s) := by
  obtain ⟨q0, hq, hq0⟩ := hw.queues_eq
  have hq0m : q0 ∈ s.queues := by rw [hq]; simp
  by_cases hc : 0 ≤ s.current_id ∧ s.current_time = s.time_out
  · have hlt := hw.current_toNat_lt hc.1
    obtain ⟨hr1, hr2⟩ := h.running hc.1
    have hcur : (expiry s).current_id = -1 := by
      unfold expiry; rw [if_pos hc]
    have hcs : (expiry s).customers = s.customers.set s.current_id.toNat
          { customerAt s.customers s.current_id with
            slots_remaining := (customerAt s.customers s.current_id).slots_remaining -
              (s.current_time - (customerAt s.customers s.current_id).playing_since) } := by
      unfold expiry; rw [if_pos hc]
    have hself : (customerAt (expiry s).customers s.current_id).slots_remaining =
        (customerAt s.customers s.current_id).slots_remaining -
          (s.current_time - (customerAt s.customers s.current_id).playing_since) := by
      rw [hcs, customerAt_set_self _ _ _ hlt]
    have hat : ∀ i : Int, 0 ≤ i → i ≠ s.current_id →
        customerAt (expiry s).customers i = customerAt s.customers i := by
      intro i hi hne
      rw [hcs, customerAt_set_of_ne]
      omega
    refine ⟨?_, ?_, ?_⟩
    · intro id
      rw [hcs, customerAt_set]
      split
      · simp only
        omega
      · exact h.rem_nonneg id
    · intro q hqm id hid
      by_cases h3 : 0 < (customerAt s.customers s.current_id).slots_remaining -
          (s.current_time - (customerAt s.customers s.current_id).playing_since) ∧
          ((customerAt s.customers s.current_id).priority = HIGH_PRIORITY ∨
            (customerAt s.customers s.current_id).priority = LOW_PRIORITY)
      · rw [expiry_requeue s q0 [] hq hc.1 hc.2 h3.1 h3.2] at hqm
        simp only [List.mem_cons, List.mem_singleton, List.not_mem_nil, or_false] at hqm
        rcases hqm with rfl | rfl
        · rcases List.mem_append.mp hid with hm | hm
          · have hne : id ≠ s.current_id := fun e => he.current_not_queued q0 hq0m (e ▸ hm)
            rw [hat id (hq0 id hm).1 hne]
            exact h.queued_pos q0 hq0m id hm
          · rw [List.mem_singleton.mp hm, hself]
            exact h3.1
        · exact absurd hid (List.not_mem_nil _)
      · rw [expiry_discard s hc.1 hc.2 h3] at hqm
        have hqm' : q ∈ s.queues := hqm
        have hne : id ≠ s.current_id := fun e => he.current_not_queued q hqm' (e ▸ hid)
        have hi0 : 0 ≤ id := by
          rw [hq] at hqm'
          simp only [List.mem_cons, List.mem_singleton, List.not_mem_nil, or_false] at hqm'
          rcases hqm' with rfl | rfl
          · exact (hq0 id hid).1
          · exact absurd hid (List.not_mem_nil _)
        rw [hat id hi0 hne]
        exact h.queued_pos q hqm' id hid
    · intro hneg
      rw [hcur] at hneg
      omega
  · rw [expiry_idle s hc]; exact h

theorem selection_rem {sort : (Int → Int → Bool) → List Int → List Int} (hs : StdSort sort)
    {in_file : List Job} {s : State} (hw : Wf in_file s) (id : Int) :
    (customerAt (selection sort s).customers id).slots_remaining =
      (customerAt s.customers id).slots_remaining := by
  obtain ⟨q0, hq, _⟩ := hw.queues_eq
  rcases selection_cases hs s q0 hq with ⟨_, he⟩ | ⟨_, _, _, he⟩ | ⟨_, i, rest, _, he⟩ |
      ⟨_, _, i, rest, _, _, he⟩
  · rw [he]
  · rw [he]
  · rw [he]
    exact customerAt_set_field (fun c => c.slots_remaining) _ _ _ _ rfl
  · rw [he]
    exact customerAt_set_field (fun c => c.slots_remaining) _ _ _ _ rfl

theorem Rem_selection {sort : (Int → Int → Bool) → List Int → List Int} (hs : StdSort sort)
    {in_file : List Job} {s : State} (hw : Wf in_file s) (h : Rem s) :
    Rem (selection sort s) := by
  obtain ⟨q0, hq, hq0⟩ := hw.queues_eq
  have hq0m : q0 ∈ s.queues := by rw [hq]; simp
  have hrem := selection_rem hs hw
  rcases selection_cases hs s q0 hq with ⟨_, he⟩ | ⟨_, _, _, he⟩ | ⟨_, id, rest, ha, he⟩ |
      ⟨_, _, id, rest, hp, _, he⟩
  · rw [he]; exact h
  · rw [he]; exact ⟨h.rem_nonneg, h.queued_pos, h.running⟩
  · have hidlt : id.toNat < s.customers.length := by
      have hmw : id ∈ waiting s := by simp only [waiting, ha]; simp
      rw [hw.waiting_eq, mem_drop_ids] at hmw
      rw [hw.customers_length]; omega
    have hqs : (selection sort s).queues = s.queues := by rw [he]
    have hcur : (selection sort s).current_id = id := by rw [he]
    have hto : (selection sort s).time_out =
        s.current_time + min TIME_ALLOWANCE (customerAt s.customers id).slots_remaining := by
      rw [he]
    have hps : (customerAt (selection sort s).customers id).playing_since = s.current_time := by
      rw [he]; exact congrArg _ (customerAt_set_self _ _ _ hidlt)
    refine ⟨?_, ?_, ?_⟩
    · intro i; rw [hrem]; exact h.rem_nonneg i
    · intro q hqm i hi
      rw [hqs] at hqm
      rw [hrem]; exact h.queued_pos q hqm i hi
    · intro _
      have := h.rem_nonneg id
      rw [hcur, hps, hrem, hto]
      simp only [TIME_ALLOWANCE]
      omega
  · have hidq : id ∈ q0 := hp.subset (List.mem_cons_self id rest)
    have hidlt : id.toNat < s.customers.length := by
      have := hw.dispatched_le
      have := (hq0 id hidq)
      rw [hw.customers_length]; omega
    have hqs : (selection sort s).queues = [rest, []] := by rw [he]
    have hcur : (selection sort s).current_id = id := by rw [he]
    have hto : (selection sort s).time_out =
        s.current_time + min 50 (customerAt s.customers id).slots_remaining := by
      rw [he]
    have hps : (customerAt (selection sort s).customers id).playing_since = s.current_time := by
      rw [he]; exact congrArg _ (customerAt_set_self _ _ _ hidlt)
    refine ⟨?_, ?_, ?_⟩
    · intro i; rw [hrem]; exact h.rem_nonneg i
    · intro q hqm i hi
      rw [hqs] at hqm
      simp only [List.mem_cons, List.mem_singleton, List.not_mem_nil, or_false] at hqm
      rw [hrem]
      rcases hqm with rfl | rfl
      · exact h.queued_pos q0 hq0m i (hp.subset (List.mem_cons_of_mem _ hi))
      · exact absurd hi (List.not_mem_nil _)
    · intro _
      have := h.rem_nonneg id
      rw [hcur, hps, hrem, hto]
      omega

theorem Rem_emit {s : State} (h : Rem s) : Rem (emit s) :=
  ⟨h.rem_nonneg, h.queued_pos, h.running⟩

theorem Rem_run {sort : (Int → Int → Bool) → List Int → List Int} (hs : StdSort sort)
    (in_file : List Job) (hnn : SlotsNonneg in_file) (n : Nat) :
    Rem (run_ticks sort (initial_state in_file) n) := by
  induction n with
  | zero => exact Rem_initial in_file hnn
  | succ n ih =>
    have hw := Wf_run hs in_file n
    show Rem (tick sort _)
    rw [tick_eq]
    exact Rem_emit (Rem_selection hs (Wf_expiry (Wf_admission hw))
      (Rem_expiry (Wf_admission hw) (Excl_admission (Excl_run hs in_file n)) (Rem_admission ih)))

theorem Rem_at_selection {sort : (Int → Int → Bool) → List Int → List Int} (hs : StdSort sort)
    (in_file : List Job) (hnn : SlotsNonneg in_file) (n : Nat) :
    Rem (at_selection sort in_file n) :=
  Rem_expiry (Wf_admission (Wf_run hs in_file n)) (Excl_admission (Excl_run hs in_file n))
    (Rem_admission (Rem_run hs in_file hnn n))

theorem tick_rem_le {sort : (Int → Int → Bool) → List Int → List Int} (hs : StdSort sort)
    {in_file : List Job} {s : State} (hw : Wf in_file s) (h : Rem s) (id : Int) :
    (customerAt (tick sort s).customers id).slots_remaining ≤
      (customerAt s.customers id).slots_remaining := by
  show (customerAt (selection sort (expiry (admission s))).customers id).slots_remaining ≤ _
  rw [selection_rem hs (Wf_expiry (Wf_admission hw))]
  exact expiry_rem_le (Rem_admission h) id

theorem run_rem_le {sort : (Int → Int → Bool) → List Int → List Int} (hs : StdSort sort)
    (in_file : List Job) (hnn : SlotsNonneg in_file) (id : Int) (n k : Nat) :
    (customerAt (run_ticks sort (initial_state in_file) (n + k)).customers id).slots_remaining ≤
      (customerAt (run_ticks sort (initial_state in_file) n).customers id).slots_remaining := by
  induction k with
  | zero => exact le_refl _
  | succ k ih =>
    exact le_trans (tick_rem_le hs (Wf_run hs in_file (n + k)) (Rem_run hs in_file hnn (n + k)) id)
      ih

end Mlfq
end CpuScheduler

/-! ## A job that fits in its first quantum -/

namespace CpuScheduler
namespace Mlfq

theorem FirstQuantum_initial (in_file : List Job) (j : Int) (hj : 0 ≤ j) :
    FirstQuantum in_file j (initial_state in_file) := by
  refine ⟨?_, ?_, ?_, ?_⟩
  · intro q hq
    simp [initial_state, NUM_PRIORITIES, List.replicate] at hq
    rw [hq]
    exact List.not_mem_nil _
  · intro _; rfl
  · intro h
    have : (-1 : Int) = j := h
    omega
  · intro h
    rw [dispatched_initial] at h
    exact absurd h (by push_cast; omega)

theorem FirstQuantum_admission {in_file : List Job} {j : Int} {s : State}
    (h : FirstQuantum in_file j s) : FirstQuantum in_file j (admission s) := by
  refine ⟨h.not_queued, ?_, h.running, ?_⟩
  · rw [dispatched_admission]; exact h.fresh
  · rw [dispatched_admission]; exact h.done

theorem FirstQuantum_expiry {in_file : List Job} {j : Int} (hj : 0 ≤ j) {s : State}
    (hw : Wf in_file s) (h : FirstQuantum in_file j s) :
    FirstQuantum in_file j (expiry s) := by
  obtain ⟨q0, hq, hq0⟩ := hw.queues_eq
  by_cases hc : 0 ≤ s.current_id ∧ s.current_time = s.time_out
  · have hlt := hw.current_toNat_lt hc.1
    have hcur : (expiry s).current_id = -1 := by
      unfold expiry; rw [if_pos hc]
    have hcs : (expiry s).customers = s.customers.set s.current_id.toNat
          { customerAt s.customers s.current_id with
            slots_remaining := (customerAt s.customers s.current_id).slots_remaining -
              (s.current_time - (customerAt s.customers s.current_id).playing_since) } := by
      unfold expiry; rw [if_pos hc]
    have hd := dispatched_expiry in_file s
    by_cases hcj : s.current_id = j
    · obtain ⟨hr1, hr2⟩ := h.running hcj
      have hself : (customerAt (expiry s).customers j).slots_remaining = 0 := by
        rw [hcs, hcj, customerAt_set_self _ _ _ (by rw [← hcj]; exact hlt)]
        simp only
        rw [hr1, hc.2, hr2]
        omega
      have h3 : ¬ (0 < (customerAt s.customers s.current_id).slots_remaining -
          (s.current_time - (customerAt s.customers s.current_id).playing_since) ∧
          ((customerAt s.customers s.current_id).priority = HIGH_PRIORITY ∨
            (customerAt s.customers s.current_id).priority = LOW_PRIORITY)) := by
        intro hh
        have := hh.1
        rw [hcj, hr1, hc.2, hr2] at this
        omega
      have hqs : (expiry s).queues = s.queues := by
        rw [expiry_discard s hc.1 hc.2 h3]
      refine ⟨by rw [hqs]; exact h.not_queued, ?_, ?_, fun _ _ => hself⟩
      · intro hge
        rw [hd] at hge
        rcases hw.current_lt with h1 | h1
        · omega
        · omega
      · intro he
        rw [hcur] at he
        omega
    · have hat : customerAt (expiry s).customers j = customerAt s.customers j := by
        rw [hcs, customerAt_set_of_ne]
        omega
      refine ⟨?_, ?_, ?_, ?_⟩
      · intro q hqm
        by_cases h3 : 0 < (customerAt s.customers s.current_id).slots_remaining -
            (s.current_time - (customerAt s.customers s.current_id).playing_since) ∧
            ((customerAt s.customers s.current_id).priority = HIGH_PRIORITY ∨
              (customerAt s.customers s.current_id).priority = LOW_PRIORITY)
        · rw [expiry_requeue s q0 [] hq hc.1 hc.2 h3.1 h3.2] at hqm
          simp only [List.mem_cons, List.mem_singleton, List.not_mem_nil, or_false] at hqm
          rcases hqm with rfl | rfl
          · intro hm
            rcases List.mem_append.mp hm with hm | hm
            · exact h.not_queued q0 (by rw [hq]; simp) hm
            · exact hcj (List.mem_singleton.mp hm).symm
          · exact List.not_mem_nil _
        · rw [expiry_discard s hc.1 hc.2 h3] at hqm
          exact h.not_queued q hqm
      · rw [hd, hat]; exact h.fresh
      · intro he
        rw [hcur] at he
        omega
      · intro hlt2 _
        rw [hd] at hlt2
        rw [hat]
        exact h.done hlt2 hcj
  · rw [expiry_idle s hc]; exact h

theorem FirstQuantum_selection {sort : (Int → Int → Bool) → List Int → List Int}
    (hs : StdSort sort) {in_file : List Job} {j : Int} (hj : 0 ≤ j)
    (hle : (job_of in_file j).slots_remaining ≤ TIME_ALLOWANCE) {s : State}
    (hw : Wf in_file s) (h : FirstQuantum in_file j s) :
    FirstQuantum in_file j (selection sort s) := by
  obtain ⟨q0, hq, hq0⟩ := hw.queues_eq
  have hq0m : q0 ∈ s.queues := by rw [hq]; simp
  have hrem := selection_rem hs hw
  rcases selection_cases hs s q0 hq with ⟨_, he⟩ | ⟨_, _, _, he⟩ | ⟨hc, id, rest, ha, he⟩ |
      ⟨hc, _, id, rest, hp, _, he⟩
  · rw [he]; exact h
  · rw [he]; exact ⟨h.not_queued, h.fresh, h.running, h.done⟩
  · have hwl := hw.waiting_length
    have hweq := hw.waiting_eq
    simp only [waiting, ha, List.cons_append] at hweq hwl
    have hlt : dispatched in_file s < in_file.length := by
      simp only [List.length_cons] at hwl
      omega
    rw [drop_ids_cons hlt] at hweq
    have hid : id = (dispatched in_file s : Int) := (List.cons.inj hweq).1
    have hidlt : id.toNat < s.customers.length := by rw [hw.customers_length]; omega
    have hd : dispatched in_file (selection sort s) = dispatched in_file s + 1 := by
      rw [he]
      simp only [dispatched, waiting, ha, List.length_append, List.length_cons,
        List.length_map] at hwl ⊢
      omega
    have hqs : (selection sort s).queues = s.queues := by rw [he]
    have hcur : (selection sort s).current_id = id := by rw [he]
    have hto : (selection sort s).time_out =
        s.current_time + min TIME_ALLOWANCE (customerAt s.customers id).slots_remaining := by
      rw [he]
    have hps : (customerAt (selection sort s).customers id).playing_since = s.current_time := by
      rw [he]; exact congrArg _ (customerAt_set_self _ _ _ hidlt)
    refine ⟨by rw [hqs]; exact h.not_queued, ?_, ?_, ?_⟩
    · intro hge
      rw [hd] at hge
      rw [hrem]
      exact h.fresh (by push_cast at hge; omega)
    · intro hcj
      rw [hcur] at hcj
      subst hcj
      have hf := h.fresh (le_of_eq hid.symm)
      rw [hrem, hps, hto, hf]
      exact ⟨rfl, by rw [min_eq_right hle]⟩
    · intro hlt2 hne
      rw [hd] at hlt2
      rw [hcur] at hne
      rw [hrem]
      exact h.done (by push_cast at hlt2; omega) (by rw [hc]; omega)
  · have hidq : id ∈ q0 := hp.subset (List.mem_cons_self id rest)
    have hne : id ≠ j := fun e => h.not_queued q0 hq0m (e ▸ hidq)
    have hd : dispatched in_file (selection sort s) = dispatched in_file s := by
      rw [he]; rfl
    have hqs : (selection sort s).queues = [rest, []] := by rw [he]
    have hcur : (selection sort s).current_id = id := by rw [he]
    refine ⟨?_, ?_, ?_, ?_⟩
    · intro q hqm
      rw [hqs] at hqm
      simp only [List.mem_cons, List.mem_singleton, List.not_mem_nil, or_false] at hqm
      rcases hqm with rfl | rfl
      · exact fun hm => h.not_queued q0 hq0m (hp.subset (List.mem_cons_of_mem _ hm))
      · exact List.not_mem_nil _
    · rw [hd, hrem]; exact h.fresh
    · intro hcj
      rw [hcur] at hcj
      exact absurd hcj hne
    · intro hlt2 _
      rw [hd] at hlt2
      rw [hrem]
      exact h.done hlt2 (by rw [hc]; omega)

theorem FirstQuantum_emit {in_file : List Job} {j : Int} {s : State}
    (h : FirstQuantum in_file j s) : FirstQuantum in_file j (emit s) :=
  ⟨h.not_queued, h.fresh, h.running, h.done⟩

theorem FirstQuantum_run {sort : (Int → Int → Bool) → List Int → List Int}
    (hs : StdSort sort) (in_file : List Job) (j : Int) (hj : 0 ≤ j)
    (hle : (job_of in_file j).slots_remaining ≤ TIME_ALLOWANCE) (n : Nat) :
    FirstQuantum in_file j (run_ticks sort (initial_state in_file) n) := by
  induction n with
  | zero => exact FirstQuantum_initial in_file j hj
  | succ n ih =>
    have hw := Wf_run hs in_file n
    show FirstQuantum in_file j (tick sort _)
    rw [tick_eq]
    exact FirstQuantum_emit (FirstQuantum_selection hs hj hle (Wf_expiry (Wf_admission hw))
      (FirstQuantum_expiry hj (Wf_admission hw) (FirstQuantum_admission ih)))

/-- C16 (remaining-service invariant in `mlfq.cpp`).  For every input whose `slots_requested`
are all non-negative: at every tick each job's `slots_remaining` is non-negative and not
larger than it was at any earlier tick; every job sitting in a leveled queue -- at the head of
the loop or right after the expiry check -- has `slots_remaining > 0`; and a job whose
`slots_requested` equals the base allowance 8 is never in a leveled queue, and has
`slots_remaining = 0` as soon as the expiry check ends its quantum. -/
theorem mlfq_remaining_service (sort : (Int → Int → Bool) → List Int → List Int)
    (hs : StdSort sort) (in_file : List Job) (hnn : SlotsNonneg in_file) :
    (∀ (n : Nat) (id : Int),
      0 ≤ (customerAt (run_ticks sort (initial_state in_file) n).customers id).slots_remaining) ∧
    (∀ (n k : Nat) (id : Int),
      (customerAt (run_ticks sort (initial_state in_file) (n + k)).customers id).slots_remaining ≤
        (customerAt (run_ticks sort (initial_state in_file) n).customers id).slots_remaining) ∧
    (∀ (n : Nat) (id : Int),
      ((∃ q ∈ (run_ticks sort (initial_state in_file) n).queues, id ∈ q) →
        0 < (customerAt (run_ticks sort (initial_state in_file) n).customers id).slots_remaining) ∧
      ((∃ q ∈ (at_selection sort in_file n).queues, id ∈ q) →
        0 < (customerAt (at_selection sort in_file n).customers id).slots_remaining)) ∧
    (∀ (j : Nat) (hj : j < in_file.length), (in_file[j]).slots_requested = TIME_ALLOWANCE →
      ∀ n : Nat,
        (∀ q ∈ (run_ticks sort (initial_state in_file) n).queues, (j : Int) ∉ q) ∧
        (∀ q ∈ (at_selection sort in_file n).queues, (j : Int) ∉ q) ∧
        ((admission (run_ticks sort (initial_state in_file) n)).current_id = (j : Int) →
          (admission (run_ticks sort (initial_state in_file) n)).current_time =
            (admission (run_ticks sort (initial_state in_file) n)).time_out →
          (customerAt (at_selection sort in_file n).customers (j : Int)).slots_remaining = 0)) := by
  refine ⟨fun n id => (Rem_run hs in_file hnn n).rem_nonneg id,
    fun n k id => run_rem_le hs in_file hnn id n k, ?_, ?_⟩
  · intro n id
    constructor
    · rintro ⟨q, hq, hid⟩
      exact (Rem_run hs in_file hnn n).queued_pos q hq id hid
    · rintro ⟨q, hq, hid⟩
      exact (Rem_at_selection hs in_file hnn n).queued_pos q hq id hid
  · intro j hj hslots n
    have hjob := job_of_eq_getElem in_file j hj
    have hle : (job_of in_file (j : Int)).slots_remaining ≤ TIME_ALLOWANCE := by
      rw [hjob]
      exact le_of_eq hslots
    have hw := Wf_admission (Wf_run hs in_file n)
    have h0 := FirstQuantum_run hs in_file (j : Int) (by omega) hle n
    have h1 : FirstQuantum in_file (j : Int) (at_selection sort in_file n) :=
      FirstQuantum_expiry (by omega) hw (FirstQuantum_admission h0)
    refine ⟨h0.not_queued, h1.not_queued, ?_⟩
    intro hcur ht
    have hactive : 0 ≤ (admission (run_ticks sort (initial_state in_file) n)).current_id ∧
        (admission (run_ticks sort (initial_state in_file) n)).current_time =
          (admission (run_ticks sort (initial_state in_file) n)).time_out :=
      ⟨by rw [hcur]; omega, ht⟩
    have hecur : (at_selection sort in_file n).current_id = -1 := by
      unfold at_selection expiry; rw [if_pos hactive]
    have hlt : (j : Int) < dispatched in_file (at_selection sort in_file n) := by
      unfold at_selection
      rw [dispatched_expiry]
      rcases hw.current_lt with h2 | h2
      · rw [hcur] at h2; omega
      · rw [hcur] at h2; exact h2.2
    exact h1.done hlt (by rw [hecur]; omega)

set_option maxRecDepth 100000 in
theorem mlfq_remaining_service_witness :
    (customerAt (run_ticks insertion_sort (initial_state
      [{ name := "A", priority := 0, arrival_time := 0, slots_requested := 8 }]) 8).customers
        0).slots_remaining = 8 ∧
    (customerAt (at_selection insertion_sort
      [{ name := "A", priority := 0, arrival_time := 0, slots_requested := 8 }] 8).customers
        ((0 : Nat) : Int)).slots_remaining = 0 :=
  ⟨by decide!,
    ((mlfq_remaining_service insertion_sort insertion_sort_stdSort
      [{ name := "A", priority := 0, arrival_time := 0, slots_requested := 8 }]
      (by simp [SlotsNonneg])).2.2.2 0 (by decide) (by decide) 8).2.2 (by decide!) (by decide!)⟩

end Mlfq
end CpuScheduler

/-! ## The quantum rule -/

namespace CpuScheduler
namespace Mlfq

/-- A tick at which the running job's quantum does not expire leaves the running slot. -/
theorem tick_busy (sort : (Int → Int → Bool) → List Int → List Int) (s : State)
    (h0 : 0 ≤ s.current_id) (hne : s.current_time ≠ s.time_out) :
    (tick sort s).current_id = s.current_id ∧ (tick sort s).time_out = s.time_out ∧
      (tick sort s).customers = s.customers ∧ (tick sort s).queues = s.queues := by
  have he : expiry (admission s) = admission s :=
    expiry_idle _ (fun h => hne h.2)
  have hsel : selection sort (admission s) = admission s :=
    selection_busy sort _ (by show s.current_id ≠ -1; omega)
  rw [tick_eq, he, hsel]
  exact ⟨rfl, rfl, rfl, rfl⟩

/-- Until `time_out`, the running job keeps the running slot. -/
theorem stays_running {sort : (Int → Int → Bool) → List Int → List Int} (hs : StdSort sort)
    (in_file : List Job) (a : Nat) (j : Int) (hj : 0 ≤ j)
    (hcur : (run_ticks sort (initial_state in_file) a).current_id = j) (k : Nat)
    (hk : ((a + k : Nat) : Int) ≤ (run_ticks sort (initial_state in_file) a).time_out) :
    (run_ticks sort (initial_state in_file) (a + k)).current_id = j ∧
      (run_ticks sort (initial_state in_file) (a + k)).time_out =
        (run_ticks sort (initial_state in_file) a).time_out ∧
      (run_ticks sort (initial_state in_file) (a + k)).customers =
        (run_ticks sort (initial_state in_file) a).customers := by
  induction k with
  | zero => exact ⟨hcur, rfl, rfl⟩
  | succ k ih =>
    have hk' : ((a + k : Nat) : Int) ≤ (run_ticks sort (initial_state in_file) a).time_out := by
      push_cast at hk ⊢; omega
    obtain ⟨h1, h2, h3⟩ := ih hk'
    have htime := run_current_time hs in_file (a + k)
    have hb := tick_busy sort (run_ticks sort (initial_state in_file) (a + k))
      (by rw [h1]; exact hj) (by rw [htime, h2]; push_cast at hk ⊢; omega)
    show (tick sort (run_ticks sort (initial_state in_file) (a + k))).current_id = j ∧
      (tick sort (run_ticks sort (initial_state in_file) (a + k))).time_out = _ ∧
      (tick sort (run_ticks sort (initial_state in_file) (a + k))).customers = _
    rw [hb.1, hb.2.1, hb.2.2.1]
    exact ⟨h1, h2, h3⟩

/-- C12 (quantum rule in `mlfq.cpp`).  When, at tick `t`, the processor is idle after the
expiry check and a job `j` with `slots_remaining = r > 0` is dispatched: `playing_since` is
set to `t`; `time_out` is set to `t + min(8, r)` if the job came from the arrival queue
(`current_queue_index = -1`, whatever its priority), and to
`t + min(TIME_ALLOWANCES[L], r) = t + min(50, r)` if it came from the leveled queue `L`; the
records of the ticks `t, ..., time_out - 1` all name `j`; and at the tick `time_out` the job
still holds the running slot when the iteration begins and the expiry check clears it, which
ends the span. -/
theorem mlfq_quantum_rule (sort : (Int → Int → Bool) → List Int → List Int)
    (hs : StdSort sort) (in_file : List Job) (t : Nat) (j : Int) (hj : 0 ≤ j)
    (hidle : (at_selection sort in_file t).current_id = -1)
    (hdisp : (run_ticks sort (initial_state in_file) (t + 1)).current_id = j)
    (hpos : 0 < (customerAt (at_selection sort in_file t).customers j).slots_remaining) :
    (customerAt (run_ticks sort (initial_state in_file) (t + 1)).customers j).playing_since = t ∧
    ((run_ticks sort (initial_state in_file) (t + 1)).current_queue_index = -1 →
      (run_ticks sort (initial_state in_file) (t + 1)).time_out =
        t + min TIME_ALLOWANCE
          (customerAt (at_selection sort in_file t).customers j).slots_remaining) ∧
    (0 ≤ (run_ticks sort (initial_state in_file) (t + 1)).current_queue_index →
      (run_ticks sort (initial_state in_file) (t + 1)).time_out =
        t + min (TIME_ALLOWANCES.getD
            (run_ticks sort (initial_state in_file) (t + 1)).current_queue_index.toNat 0)
          (customerAt (at_selection sort in_file t).customers j).slots_remaining ∧
      TIME_ALLOWANCES.getD
        (run_ticks sort (initial_state in_file) (t + 1)).current_queue_index.toNat 0 = 50) ∧
    (∀ u : Nat, t ≤ u → (u : Int) < (run_ticks sort (initial_state in_file) (t + 1)).time_out →
      (run_ticks sort (initial_state in_file) (u + 1)).out_file[u]? = some ((u : Int), j)) ∧
    (∀ T : Nat, (T : Int) = (run_ticks sort (initial_state in_file) (t + 1)).time_out →
      (admission (run_ticks sort (initial_state in_file) T)).current_id = j ∧
      (at_selection sort in_file T).current_id = -1) := by
  have hw : Wf in_file (at_selection sort in_file t) :=
    Wf_expiry (Wf_admission (Wf_run hs in_file t))
  have htime : (at_selection sort in_file t).current_time = t := by
    unfold at_selection
    rw [expiry_current_time]
    exact run_current_time hs in_file t
  have hstep : run_ticks sort (initial_state in_file) (t + 1) =
      emit (selection sort (at_selection sort in_file t)) := rfl
  obtain ⟨q0, hq, hq0⟩ := hw.queues_eq
  -- the dispatch itself
  have hkey : (customerAt (run_ticks sort (initial_state in_file) (t + 1)).customers
        j).playing_since = t ∧
      (((run_ticks sort (initial_state in_file) (t + 1)).current_queue_index = -1 ∧
          (run_ticks sort (initial_state in_file) (t + 1)).time_out =
            t + min TIME_ALLOWANCE
              (customerAt (at_selection sort in_file t).customers j).slots_remaining) ∨
        ((run_ticks sort (initial_state in_file) (t + 1)).current_queue_index = 0 ∧
          (run_ticks sort (initial_state in_file) (t + 1)).time_out =
            t + min 50 (customerAt (at_selection sort in_file t).customers j).slots_remaining)) := by
    rw [hstep] at hdisp ⊢
    rcases selection_cases hs _ q0 hq with ⟨hc, _⟩ | ⟨_, _, _, he⟩ | ⟨_, id, rest, ha, he⟩ |
        ⟨_, _, id, rest, hp, _, he⟩
    · exact absurd hidle hc
    · rw [he] at hdisp
      have : (at_selection sort in_file t).current_id = j := hdisp
      omega
    · rw [he] at hdisp ⊢
      have hid : id = j := hdisp
      subst hid
      have hidlt : id.toNat < (at_selection sort in_file t).customers.length := by
        have hmw : id ∈ waiting (at_selection sort in_file t) := by
          simp only [waiting, ha]; simp
        rw [hw.waiting_eq, mem_drop_ids] at hmw
        rw [hw.customers_length]; omega
      refine ⟨?_, Or.inl ⟨rfl, ?_⟩⟩
      · show (customerAt ((at_selection sort in_file t).customers.set id.toNat _) id).playing_since
          = _
        rw [customerAt_set_self _ _ _ hidlt]
        exact htime
      · show (at_selection sort in_file t).current_time + _ = _
        rw [htime]
    · rw [he] at hdisp ⊢
      have hid : id = j := hdisp
      subst hid
      have hidq : id ∈ q0 := hp.subset (List.mem_cons_self id rest)
      have hidlt : id.toNat < (at_selection sort in_file t).customers.length := by
        have := hw.dispatched_le
        have := hq0 id hidq
        rw [hw.customers_length]; omega
      refine ⟨?_, Or.inr ⟨rfl, ?_⟩⟩
      · show (customerAt ((at_selection sort in_file t).customers.set id.toNat _) id).playing_since
          = _
        rw [customerAt_set_self _ _ _ hidlt]
        exact htime
      · show (at_selection sort in_file t).current_time + _ = _
        rw [htime]
  obtain ⟨hps, hto⟩ := hkey
  have hgt : (t : Int) + 1 ≤ (run_ticks sort (initial_state in_file) (t + 1)).time_out := by
    rcases hto with ⟨_, h⟩ | ⟨_, h⟩
    · rw [h]
      simp only [TIME_ALLOWANCE]
      omega
    · rw [h]
      omega
  refine ⟨hps, ?_, ?_, ?_, ?_⟩
  · intro hi
    rcases hto with ⟨_, h⟩ | ⟨h0, _⟩
    · exact h
    · rw [h0] at hi
      exact absurd hi (by decide)
  · intro hi
    rcases hto with ⟨h0, _⟩ | ⟨h0, h⟩
    · rw [h0] at hi
      exact absurd hi (by decide)
    · rw [h0]
      exact ⟨h, rfl⟩
  · intro u htu hu
    obtain ⟨k, rfl⟩ : ∃ k, u = t + k := ⟨u - t, by omega⟩
    have hst := stays_running hs in_file (t + 1) j hj hdisp k (by push_cast at hu ⊢; omega)
    have hrec := record_eq hs in_file (t + k)
    have heq : t + 1 + k = t + k + 1 := by omega
    rw [heq] at hst
    rw [hrec, hst.1]
  · intro T hT
    obtain ⟨k, rfl⟩ : ∃ k, T = t + 1 + k := ⟨T - (t + 1), by omega⟩
    have hst := stays_running hs in_file (t + 1) j hj hdisp k (by rw [hT])
    have htimeT := run_current_time hs in_file (t + 1 + k)
    have hcurA : (admission (run_ticks sort (initial_state in_file) (t + 1 + k))).current_id = j :=
      hst.1
    refine ⟨hcurA, ?_⟩
    have hactive : 0 ≤ (admission (run_ticks sort (initial_state in_file) (t + 1 + k))).current_id ∧
        (admission (run_ticks sort (initial_state in_file) (t + 1 + k))).current_time =
          (admission (run_ticks sort (initial_state in_file) (t + 1 + k))).time_out := by
      refine ⟨by rw [hcurA]; exact hj, ?_⟩
      show (run_ticks sort (initial_state in_file) (t + 1 + k)).current_time =
        (run_ticks sort (initial_state in_file) (t + 1 + k)).time_out
      rw [htimeT, hst.2.1, hT]
    unfold at_selection expiry
    rw [if_pos hactive]

set_option maxRecDepth 100000 in
theorem mlfq_quantum_rule_witness :
    (run_ticks insertion_sort (initial_state scenario_two) 12).time_out = 23 ∧
    (run_ticks insertion_sort (initial_state scenario_two) 12).current_queue_index = 0 ∧
    (customerAt (at_selection insertion_sort scenario_two 11).customers 0).slots_remaining = 12 ∧
    (customerAt (run_ticks insertion_sort (initial_state scenario_two) 12).customers
      0).playing_since = ((11 : Nat) : Int) ∧
    (run_ticks insertion_sort (initial_state scenario_two) (22 + 1)).out_file[22]? =
      some (((22 : Nat) : Int), 0) :=
  ⟨by decide!, by decide!, by decide!,
    (mlfq_quantum_rule insertion_sort insertion_sort_stdSort scenario_two 11 0 (by decide)
      (by decide!) (by decide!) (by decide!)).1,
    (mlfq_quantum_rule insertion_sort insertion_sort_stdSort scenario_two 11 0 (by decide)
      (by decide!) (by decide!) (by decide!)).2.2.2.1 22 (by decide) (by decide!)⟩

end Mlfq
end CpuScheduler

/-! ## A job that requests no slot -/

namespace CpuScheduler
namespace Mlfq

theorem AllEmpty_run_add {sort : (Int → Int → Bool) → List Int → List Int} (hs : StdSort sort)
    (in_file : List Job) (n k : Nat)
    (h : AllEmpty (run_ticks sort (initial_state in_file) n)) :
    AllEmpty (run_ticks sort (initial_state in_file) (n + k)) := by
  induction k with
  | zero => exact h
  | succ k ih => exact AllEmpty_tick (Wf_run hs in_file (n + k)) ih

theorem main_loop_none (sort : (Int → Int → Bool) → List Int → List Int) (s0 : State)
    (h : ∀ n, (run_ticks sort s0 n).all_done = false) (fuel : Nat) :
    main_loop sort fuel s0 = none := by
  cases hm : main_loop sort fuel s0 with
  | none => rfl
  | some s =>
    obtain ⟨n, h1, h2, _⟩ := main_loop_some sort fuel s0 s hm
    rw [h1, h n] at h2
    exact absurd h2 (by decide)

/-- The run of the model (whose clock is an unbounded integer) once a job `j` with
`slots_requested = 0` is dispatched at tick `t`: `time_out` is `t`, and from then on `j` holds
the running slot, every record names `j`, and `all_done` is not set. -/
theorem zero_demand_run (sort : (Int → Int → Bool) → List Int → List Int)
    (hs : StdSort sort) (in_file : List Job) (j : Nat) (hj : j < in_file.length)
    (hz : (in_file[j]).slots_requested = 0) (t : Nat)
    (hidle : (at_selection sort in_file t).current_id = -1)
    (hdisp : (run_ticks sort (initial_state in_file) (t + 1)).current_id = (j : Int)) :
    (run_ticks sort (initial_state in_file) (t + 1)).time_out = t ∧
    (∀ u : Nat, t < u →
      (run_ticks sort (initial_state in_file) u).current_id = (j : Int) ∧
      (run_ticks sort (initial_state in_file) u).time_out = t ∧
      (at_selection sort in_file u).current_id = (j : Int)) ∧
    (∀ u : Nat, t ≤ u →
      (run_ticks sort (initial_state in_file) (u + 1)).out_file[u]? = some ((u : Int), (j : Int))) ∧
    (∀ n : Nat, (run_ticks sort (initial_state in_file) n).all_done = false) ∧
    (∀ fuel : Nat, main_loop sort fuel (initial_state in_file) = none) := by
  have hw : Wf in_file (at_selection sort in_file t) :=
    Wf_expiry (Wf_admission (Wf_run hs in_file t))
  have hjob := job_of_eq_getElem in_file j hj
  have hslots : (job_of in_file (j : Int)).slots_remaining = 0 := by
    rw [hjob]; exact hz
  have hfq : FirstQuantum in_file (j : Int) (at_selection sort in_file t) :=
    FirstQuantum_expiry (by omega) (Wf_admission (Wf_run hs in_file t))
      (FirstQuantum_admission (FirstQuantum_run hs in_file (j : Int) (by omega)
        (by rw [hslots]; decide) t))
  have htime : (at_selection sort in_file t).current_time = t := by
    unfold at_selection
    rw [expiry_current_time]
    exact run_current_time hs in_file t
  have hstep : run_ticks sort (initial_state in_file) (t + 1) =
      emit (selection sort (at_selection sort in_file t)) := rfl
  obtain ⟨q0, hq, hq0⟩ := hw.queues_eq
  have hto : (run_ticks sort (initial_state in_file) (t + 1)).time_out = t := by
    rw [hstep] at hdisp ⊢
    rcases selection_cases hs _ q0 hq with ⟨hc, _⟩ | ⟨_, _, _, he⟩ | ⟨_, id, rest, ha, he⟩ |
        ⟨_, _, id, rest, hp, _, he⟩
    · exact absurd hidle hc
    · rw [he] at hdisp
      have : (at_selection sort in_file t).current_id = (j : Int) := hdisp
      omega
    · rw [he] at hdisp ⊢
      have hid : id = (j : Int) := hdisp
      subst hid
      have hmw : ((j : Nat) : Int) ∈ waiting (at_selection sort in_file t) := by
        simp only [waiting, ha]; simp
      rw [hw.waiting_eq, mem_drop_ids] at hmw
      have hf := hfq.fresh hmw.1
      show (at_selection sort in_file t).current_time +
        min TIME_ALLOWANCE (customerAt (at_selection sort in_file t).customers (j : Int)).slots_remaining
          = _
      rw [hf, hslots, htime]
      simp [TIME_ALLOWANCE]
    · rw [he] at hdisp
      have hid : id = (j : Int) := hdisp
      have hidq : id ∈ q0 := hp.subset (List.mem_cons_self id rest)
      rw [hid] at hidq
      exact absurd hidq (hfq.not_queued q0 (by rw [hq]; simp))
  have hstall : ∀ k : Nat,
      (run_ticks sort (initial_state in_file) (t + 1 + k)).current_id = (j : Int) ∧
      (run_ticks sort (initial_state in_file) (t + 1 + k)).time_out = t := by
    intro k
    induction k with
    | zero => exact ⟨hdisp, hto⟩
    | succ k ih =>
      have htk := run_current_time hs in_file (t + 1 + k)
      have hb := tick_busy sort (run_ticks sort (initial_state in_file) (t + 1 + k))
        (by rw [ih.1]; omega) (by rw [htk, ih.2]; push_cast; omega)
      show (tick sort (run_ticks sort (initial_state in_file) (t + 1 + k))).current_id = _ ∧
        (tick sort (run_ticks sort (initial_state in_file) (t + 1 + k))).time_out = _
      rw [hb.1, hb.2.1]
      exact ih
  have hnot : ∀ n : Nat, (run_ticks sort (initial_state in_file) n).all_done = false := by
    intro n
    cases n with
    | zero => rfl
    | succ n =>
      by_contra hd
      have hd' : (run_ticks sort (initial_state in_file) (n + 1)).all_done = true := by
        simpa using hd
      have hall := (run_all_done hs in_file n).mp hd'
      have hall2 := AllEmpty_run_add hs in_file (n + 1) (t + 1) hall
      have hcur := (hstall (n + 1)).1
      have heq : t + 1 + (n + 1) = n + 1 + (t + 1) := by omega
      rw [heq, hall2.2.2.2] at hcur
      omega
  refine ⟨hto, ?_, ?_, hnot, main_loop_none sort _ hnot⟩
  · intro u hu
    obtain ⟨k, rfl⟩ : ∃ k, u = t + 1 + k := ⟨u - (t + 1), by omega⟩
    obtain ⟨h1, h2⟩ := hstall k
    refine ⟨h1, h2, ?_⟩
    have htk := run_current_time hs in_file (t + 1 + k)
    have he : expiry (admission (run_ticks sort (initial_state in_file) (t + 1 + k))) =
        admission (run_ticks sort (initial_state in_file) (t + 1 + k)) := by
      apply expiry_idle
      intro hh
      have h3 : (run_ticks sort (initial_state in_file) (t + 1 + k)).current_time =
          (run_ticks sort (initial_state in_file) (t + 1 + k)).time_out := hh.2
      rw [htk, h2] at h3
      push_cast at h3
      omega
    unfold at_selection
    rw [he]
    exact h1
  · intro u hu
    obtain ⟨k, rfl⟩ : ∃ k, u = t + k := ⟨u - t, by omega⟩
    have hrec := record_eq hs in_file (t + k)
    have heq : t + k + 1 = t + 1 + k := by omega
    rw [hrec, heq, (hstall k).1]

/-- C18, as amended (a zero-demand job stalls `mlfq.cpp`).  For every input in which a job
`j` with `slots_requested = 0` is dispatched at some tick `t`: `time_out` is set to `t`
itself; at every later tick up to `INT_MAX` job `j` still holds the running slot with
`time_out = t`, the expiry check does not fire, and the record of every tick `u` with
`t <= u <= INT_MAX` names `j`; `all_done` is not set by any of the iterations of the ticks
`0, ..., INT_MAX`, so the loop does not stop within its first `2^31` iterations.  (The
increment of the clock at `INT_MAX` overflows; what follows is not described here.) -/
theorem mlfq_zero_demand_stalls (sort : (Int → Int → Bool) → List Int → List Int)
    (hs : StdSort sort) (in_file : List Job) (j : Nat) (hj : j < in_file.length)
    (hz : (in_file[j]).slots_requested = 0) (t : Nat)
    (hidle : (at_selection sort in_file t).current_id = -1)
    (hdisp : (run_ticks sort (initial_state in_file) (t + 1)).current_id = (j : Int)) :
    (run_ticks sort (initial_state in_file) (t + 1)).time_out = t ∧
    (∀ u : Nat, t < u → (u : Int) ≤ INT_MAX →
      (run_ticks sort (initial_state in_file) u).current_id = (j : Int) ∧
      (run_ticks sort (initial_state in_file) u).time_out = t ∧
      (run_ticks sort (initial_state in_file) u).current_time = u ∧
      (at_selection sort in_file u).current_id = (j : Int)) ∧
    (∀ u : Nat, t ≤ u → (u : Int) ≤ INT_MAX →
      (run_ticks sort (initial_state in_file) (u + 1)).out_file[u]? = some ((u : Int), (j : Int))) ∧
    (∀ n : Nat, (n : Int) ≤ INT_MAX + 1 →
      (run_ticks sort (initial_state in_file) n).all_done = false) ∧
    (∀ fuel : Nat, (fuel : Int) ≤ INT_MAX + 1 →
      main_loop sort fuel (initial_state in_file) = none) := by
  obtain ⟨h1, h2, h3, h4, h5⟩ := zero_demand_run sort hs in_file j hj hz t hidle hdisp
  refine ⟨h1, ?_, ?_, ?_, ?_⟩
  · intro u hu _
    exact ⟨(h2 u hu).1, (h2 u hu).2.1, run_current_time hs in_file u, (h2 u hu).2.2⟩
  · intro u hu _
    exact h3 u hu
  · intro n _
    exact h4 n
  · intro fuel _
    exact h5 fuel

set_option maxRecDepth 100000 in
theorem mlfq_zero_demand_stalls_witness :
    (run_ticks insertion_sort (initial_state zero_demand_jobs) (0 + 1)).time_out = ((0 : Nat) : Int) ∧
    (run_ticks insertion_sort (initial_state zero_demand_jobs) (100 + 1)).out_file[100]? =
      some (((100 : Nat) : Int), ((0 : Nat) : Int)) ∧
    (∀ fuel : Nat, (fuel : Int) ≤ INT_MAX + 1 →
      main_loop insertion_sort fuel (initial_state zero_demand_jobs) = none) :=
  ⟨(mlfq_zero_demand_stalls insertion_sort insertion_sort_stdSort zero_demand_jobs 0
      (by decide) (by decide) 0 (by decide!) (by decide!)).1,
    (mlfq_zero_demand_stalls insertion_sort insertion_sort_stdSort zero_demand_jobs 0
      (by decide) (by decide) 0 (by decide!) (by decide!)).2.2.1 100 (by omega)
        (by decide),
    (mlfq_zero_demand_stalls insertion_sort insertion_sort_stdSort zero_demand_jobs 0
      (by decide) (by decide) 0 (by decide!) (by decide!)).2.2.2.2⟩

end Mlfq
end CpuScheduler

/-! ## A job that requests no slot, on a 32-bit clock -/

namespace CpuScheduler
namespace Mlfq32

theorem run_ticks32_succ (sort : (Int → Int → Bool) → List Int → List Int) (s : Mlfq.State)
    (n : Nat) : run_ticks sort s (n + 1) = run_ticks sort (tick sort s) n := by
  induction n with
  | zero => rfl
  | succ n ih =>
    show tick sort (run_ticks sort s (n + 1)) = tick sort (run_ticks sort (tick sort s) n)
    rw [ih]

theorem main_loop32_eq (sort : (Int → Int → Bool) → List Int → List Int) (n : Nat) :
    ∀ (fuel : Nat) (s : Mlfq.State), n ≤ fuel →
      (∀ i, i < n → (run_ticks sort s i).all_done = false) →
      (run_ticks sort s n).all_done = true →
      main_loop sort fuel s = some (run_ticks sort s n) := by
  induction n with
  | zero =>
    intro fuel s _ _ hd
    cases fuel <;> simp_all [main_loop, run_ticks]
  | succ n ih =>
    intro fuel s hf hnot hd
    have h0 : s.all_done = false := hnot 0 (Nat.succ_pos n)
    match fuel, hf with
    | fuel + 1, hf =>
      simp only [main_loop, h0, Bool.false_eq_true, ↓reduceIte]
      rw [run_ticks32_succ]
      apply ih fuel (tick sort s) (Nat.le_of_succ_le_succ hf)
      · intro i hi
        rw [← run_ticks32_succ]
        exact hnot (i + 1) (Nat.succ_lt_succ hi)
      · rw [← run_ticks32_succ]; exact hd

/-- While the clock is not back at 0, the stalled state stays as it is. -/
theorem Stalled_tick (sort : (Int → Int → Bool) → List Int → List Int) (s : Mlfq.State)
    (h : Mlfq.Stalled s) (hne : s.current_time ≠ 0) :
    Mlfq.Stalled (tick sort s) ∧ (tick sort s).current_time = wrap (s.current_time + 1) ∧
      (tick sort s).out_file = s.out_file ++ [(s.current_time, 0)] := by
  obtain ⟨h1, h2, h3, h4, h5, h6, h7⟩ := h
  have hadm : Mlfq.admission s = s := by
    rw [Mlfq.admission_eq, h1]
    simp only [List.dropWhile_nil, List.takeWhile_nil, List.map_nil, List.append_nil]
    rw [← h1]
  have hexp : expiry s = s := by
    unfold expiry
    rw [if_neg]
    rw [h6]
    exact fun hh => hne hh.2
  have hsel : selection sort s = s := by
    unfold selection
    rw [if_neg]
    rw [h5]
    decide
  unfold tick
  rw [hadm, hexp, hsel]
  refine ⟨⟨h1, h2, h3, h4, h5, h6, ?_⟩, rfl, ?_⟩
  swap
  · show print_state s.out_file s.current_time s.current_id = _
    rw [h5]
    rfl
  show (s.arrival_events.isEmpty && s.arrival_queue.isEmpty &&
      Mlfq.queues_is_empty s.queues Mlfq.NUM_PRIORITIES 0 && decide (s.current_id = -1)) = false
  rw [h5]
  simp

/-- When the clock is back at 0, the expiry check fires and the loop stops. -/
theorem Stalled_fire (sort : (Int → Int → Bool) → List Int → List Int) (s : Mlfq.State)
    (h : Mlfq.Stalled s) (h0 : s.current_time = 0) :
    (tick sort s).all_done = true ∧ (tick sort s).current_id = -1 ∧
      (tick sort s).out_file = s.out_file ++ [(0, -1)] := by
  obtain ⟨h1, h2, h3, h4, h5, h6, h7⟩ := h
  have hadm : Mlfq.admission s = s := by
    rw [Mlfq.admission_eq, h1]
    simp only [List.dropWhile_nil, List.takeWhile_nil, List.map_nil, List.append_nil]
    rw [← h1]
  unfold tick
  rw [hadm]
  simp [expiry, selection, h1, h2, h3, h4, h5, h6, h0, customerAt, wrap, Mlfq.scan_queues,
    Mlfq.NUM_PRIORITIES, Mlfq.queues_is_empty, print_state, noCustomer]

/-- The run on `A 0 0 0`: job 0 is dispatched at tick 0 with `time_out = 0` and holds the
running slot during the next `2^32 - 1` iterations, while the 32-bit clock goes round. -/
theorem Stalled_run (k : Nat) (hk : k < 4294967296) :
    Mlfq.Stalled (run_ticks insertion_sort (Mlfq.initial_state zero_demand_job) (k + 1)) ∧
    (run_ticks insertion_sort (Mlfq.initial_state zero_demand_job) (k + 1)).current_time =
      wrap ((k : Int) + 1) := by
  induction k with
  | zero => exact ⟨⟨rfl, rfl, rfl, rfl, rfl, rfl, rfl⟩, rfl⟩
  | succ k ih =>
    obtain ⟨h1, h2⟩ := ih (by omega)
    have hne : (run_ticks insertion_sort (Mlfq.initial_state zero_demand_job) (k + 1)).current_time
        ≠ 0 := by
      rw [h2]
      unfold wrap
      omega
    obtain ⟨g1, g2, _⟩ := Stalled_tick insertion_sort _ h1 hne
    refine ⟨g1, ?_⟩
    show (tick insertion_sort
      (run_ticks insertion_sort (Mlfq.initial_state zero_demand_job) (k + 1))).current_time = _
    rw [g2, h2]
    unfold wrap
    push_cast
    omega

end Mlfq32

namespace Mlfq

/-- Counterexample to C18 as stated, with `int` a 32-bit integer that wraps around.  On the
input `A 0 0 0` job 0 is dispatched at tick 0 with `time_out = 0`.  After `2^32` iterations
the clock is 0 again: the expiry check fires, the record `(0, -1)` is written and `all_done`
is set.  The loop stops after `2^32 + 1` iterations; the span of job 0 has ended. -/
theorem mlfq_zero_demand_counterexample :
    (Mlfq32.run_ticks insertion_sort (initial_state zero_demand_job) 1).current_id = 0 ∧
    (Mlfq32.run_ticks insertion_sort (initial_state zero_demand_job) 1).time_out = 0 ∧
    ∃ s : State,
      Mlfq32.main_loop insertion_sort 4294967297 (initial_state zero_demand_job) = some s ∧
      s.all_done = true ∧ s.current_id = -1 ∧ s.out_file.getLast? = some (0, -1) := by
  refine ⟨rfl, rfl, ?_⟩
  obtain ⟨h1, h2⟩ := Mlfq32.Stalled_run 4294967295 (by omega)
  have h0 : (Mlfq32.run_ticks insertion_sort (initial_state zero_demand_job)
      (4294967295 + 1)).current_time = 0 := by
    rw [h2]
    unfold wrap
    omega
  obtain ⟨g1, g2, g3⟩ := Mlfq32.Stalled_fire insertion_sort _ h1 h0
  have hstep : Mlfq32.run_ticks insertion_sort (initial_state zero_demand_job) 4294967297 =
      Mlfq32.tick insertion_sort
        (Mlfq32.run_ticks insertion_sort (initial_state zero_demand_job) (4294967295 + 1)) := rfl
  refine ⟨Mlfq32.run_ticks insertion_sort (initial_state zero_demand_job) 4294967297, ?_, ?_, ?_, ?_⟩
  · apply Mlfq32.main_loop32_eq insertion_sort 4294967297 4294967297 _ (le_refl _)
    · intro i hi
      cases i with
      | zero => rfl
      | succ i => exact (Mlfq32.Stalled_run i (by omega)).1.2.2.2.2.2.2
    · rw [hstep]; exact g1
  · rw [hstep]; exact g1
  · rw [hstep]; exact g2
  · rw [hstep, g3]
    simp

end Mlfq
end CpuScheduler

/-! ## A job whose priority is neither 0 nor 1 -/

namespace CpuScheduler
namespace Mlfq

theorem Dropped_initial (in_file : List Job) (j : Int) (hj : 0 ≤ j) :
    Dropped in_file j (initial_state in_file) := by
  refine ⟨?_, ?_, ?_, ?_⟩
  · intro q hq
    simp [initial_state, NUM_PRIORITIES, List.replicate] at hq
    rw [hq]
    exact List.not_mem_nil _
  · intro _; rfl
  · intro h
    have : (-1 : Int) = j := h
    omega
  · intro h
    rw [dispatched_initial] at h
    exact absurd h (by push_cast; omega)

theorem Dropped_admission {in_file : List Job} {j : Int} {s : State}
    (h : Dropped in_file j s) : Dropped in_file j (admission s) := by
  refine ⟨h.not_queued, ?_, h.running, ?_⟩
  · rw [dispatched_admission]; exact h.fresh
  · rw [dispatched_admission]; exact h.done

theorem Dropped_expiry {in_file : List Job} {j : Int} (hj : 0 ≤ j)
    (hprio : ¬ ((job_of in_file j).priority = HIGH_PRIORITY ∨
      (job_of in_file j).priority = LOW_PRIORITY)) {s : State}
    (hw : Wf in_file s) (h : Dropped in_file j s) :
    Dropped in_file j (expiry s) := by
  obtain ⟨q0, hq, hq0⟩ := hw.queues_eq
  by_cases hc : 0 ≤ s.current_id ∧ s.current_time = s.time_out
  · have hlt := hw.current_toNat_lt hc.1
    have hcur : (expiry s).current_id = -1 := by
      unfold expiry; rw [if_pos hc]
    have hcs : (expiry s).customers = s.customers.set s.current_id.toNat
          { customerAt s.customers s.current_id with
            slots_remaining := (customerAt s.customers s.current_id).slots_remaining -
              (s.current_time - (customerAt s.customers s.current_id).playing_since) } := by
      unfold expiry; rw [if_pos hc]
    have hd := dispatched_expiry in_file s
    by_cases hcj : s.current_id = j
    · obtain ⟨hr1, hr2⟩ := h.running hcj
      have hself : (customerAt (expiry s).customers j).slots_remaining =
          (job_of in_file j).slots_remaining - TIME_ALLOWANCE := by
        rw [hcs, hcj, customerAt_set_self _ _ _ (by rw [← hcj]; exact hlt)]
        simp only
        rw [hr1, hc.2, hr2]
        omega
      have h3 : ¬ (0 < (customerAt s.customers s.current_id).slots_remaining -
          (s.current_time - (customerAt s.customers s.current_id).playing_since) ∧
          ((customerAt s.customers s.current_id).priority = HIGH_PRIORITY ∨
            (customerAt s.customers s.current_id).priority = LOW_PRIORITY)) := by
        intro hh
        have := hh.2
        rw [hcj, hw.priority_eq] at this
        exact hprio this
      have hqs : (expiry s).queues = s.queues := by
        rw [expiry_discard s hc.1 hc.2 h3]
      refine ⟨by rw [hqs]; exact h.not_queued, ?_, ?_, fun _ _ => hself⟩
      · intro hge
        rw [hd] at hge
        rcases hw.current_lt with h1 | h1
        · omega
        · omega
      · intro he
        rw [hcur] at he
        omega
    · have hat : customerAt (expiry s).customers j = customerAt s.customers j := by
        rw [hcs, customerAt_set_of_ne]
        omega
      refine ⟨?_, ?_, ?_, ?_⟩
      · intro q hqm
        by_cases h3 : 0 < (customerAt s.customers s.current_id).slots_remaining -
            (s.current_time - (customerAt s.customers s.current_id).playing_since) ∧
            ((customerAt s.customers s.current_id).priority = HIGH_PRIORITY ∨
              (customerAt s.customers s.current_id).priority = LOW_PRIORITY)
        · rw [expiry_requeue s q0 [] hq hc.1 hc.2 h3.1 h3.2] at hqm
          simp only [List.mem_cons, List.mem_singleton, List.not_mem_nil, or_false] at hqm
          rcases hqm with rfl | rfl
          · intro hm
            rcases List.mem_append.mp hm with hm | hm
            · exact h.not_queued q0 (by rw [hq]; simp) hm
            · exact hcj (List.mem_singleton.mp hm).symm
          · exact List.not_mem_nil _
        · rw [expiry_discard s hc.1 hc.2 h3] at hqm
          exact h.not_queued q hqm
      · rw [hd, hat]; exact h.fresh
      · intro he
        rw [hcur] at he
        omega
      · intro hlt2 _
        rw [hd] at hlt2
        rw [hat]
        exact h.done hlt2 hcj
  · rw [expiry_idle s hc]; exact h

theorem Dropped_selection {sort : (Int → Int → Bool) → List Int → List Int}
    (hs : StdSort sort) {in_file : List Job} {j : Int} (hj : 0 ≤ j)
    (hgt : TIME_ALLOWANCE < (job_of in_file j).slots_remaining) {s : State}
    (hw : Wf in_file s) (h : Dropped in_file j s) :
    Dropped in_file j (selection sort s) := by
  obtain ⟨q0, hq, hq0⟩ := hw.queues_eq
  have hq0m : q0 ∈ s.queues := by rw [hq]; simp
  have hrem := selection_rem hs hw
  rcases selection_cases hs s q0 hq with ⟨_, he⟩ | ⟨_, _, _, he⟩ | ⟨hc, id, rest, ha, he⟩ |
      ⟨hc, _, id, rest, hp, _, he⟩
  · rw [he]; exact h
  · rw [he]; exact ⟨h.not_queued, h.fresh, h.running, h.done⟩
  · have hwl := hw.waiting_length
    have hweq := hw.waiting_eq
    simp only [waiting, ha, List.cons_append] at hweq hwl
    have hlt : dispatched in_file s < in_file.length := by
      simp only [List.length_cons] at hwl
      omega
    rw [drop_ids_cons hlt] at hweq
    have hid : id = (dispatched in_file s : Int) := (List.cons.inj hweq).1
    have hidlt : id.toNat < s.customers.length := by rw [hw.customers_length]; omega
    have hd : dispatched in_file (selection sort s) = dispatched in_file s + 1 := by
      rw [he]
      simp only [dispatched, waiting, ha, List.length_append, List.length_cons,
        List.length_map] at hwl ⊢
      omega
    have hqs : (selection sort s).queues = s.queues := by rw [he]
    have hcur : (selection sort s).current_id = id := by rw [he]
    have hto : (selection sort s).time_out =
        s.current_time + min TIME_ALLOWANCE (customerAt s.customers id).slots_remaining := by
      rw [he]
    have hps : (customerAt (selection sort s).customers id).playing_since = s.current_time := by
      rw [he]; exact congrArg _ (customerAt_set_self _ _ _ hidlt)
    refine ⟨by rw [hqs]; exact h.not_queued, ?_, ?_, ?_⟩
    · intro hge
      rw [hd] at hge
      rw [hrem]
      exact h.fresh (by push_cast at hge; omega)
    · intro hcj
      rw [hcur] at hcj
      subst hcj
      have hf := h.fresh (le_of_eq hid.symm)
      rw [hrem, hps, hto, hf]
      exact ⟨rfl, by rw [min_eq_left (le_of_lt hgt)]⟩
    · intro hlt2 hne
      rw [hd] at hlt2
      rw [hcur] at hne
      rw [hrem]
      exact h.done (by push_cast at hlt2; omega) (by rw [hc]; omega)
  · have hidq : id ∈ q0 := hp.subset (List.mem_cons_self id rest)
    have hne : id ≠ j := fun e => h.not_queued q0 hq0m (e ▸ hidq)
    have hd : dispatched in_file (selection sort s) = dispatched in_file s := by
      rw [he]; rfl
    have hqs : (selection sort s).queues = [rest, []] := by rw [he]
    have hcur : (selection sort s).current_id = id := by rw [he]
    refine ⟨?_, ?_, ?_, ?_⟩
    · intro q hqm
      rw [hqs] at hqm
      simp only [List.mem_cons, List.mem_singleton, List.not_mem_nil, or_false] at hqm
      rcases hqm with rfl | rfl
      · exact fun hm => h.not_queued q0 hq0m (hp.subset (List.mem_cons_of_mem _ hm))
      · exact List.not_mem_nil _
    · rw [hd, hrem]; exact h.fresh
    · intro hcj
      rw [hcur] at hcj
      exact absurd hcj hne
    · intro hlt2 _
      rw [hd] at hlt2
      rw [hrem]
      exact h.done hlt2 (by rw [hc]; omega)

theorem Dropped_emit {in_file : List Job} {j : Int} {s : State}
    (h : Dropped in_file j s) : Dropped in_file j (emit s) :=
  ⟨h.not_queued, h.fresh, h.running, h.done⟩

theorem Dropped_run {sort : (Int → Int → Bool) → List Int → List Int}
    (hs : StdSort sort) (in_file : List Job) (j : Int) (hj : 0 ≤ j)
    (hprio : ¬ ((job_of in_file j).priority = HIGH_PRIORITY ∨
      (job_of in_file j).priority = LOW_PRIORITY))
    (hgt : TIME_ALLOWANCE < (job_of in_file j).slots_remaining) (n : Nat) :
    Dropped in_file j (run_ticks sort (initial_state in_file) n) := by
  induction n with
  | zero => exact Dropped_initial in_file j hj
  | succ n ih =>
    have hw := Wf_run hs in_file n
    show Dropped in_file j (tick sort _)
    rw [tick_eq]
    exact Dropped_emit (Dropped_selection hs hj hgt (Wf_expiry (Wf_admission hw))
      (Dropped_expiry hj hprio (Wf_admission hw) (Dropped_admission ih)))

/-- C19 (out-of-range priority in `mlfq.cpp`).  For every input whose arrival ticks are
non-negative and non-decreasing and whose `slots_requested` are positive, a job `j` whose
priority is neither 0 nor 1 and whose `slots_requested` exceeds 8 is never in a leveled queue
(neither at the head of the loop nor right after the expiry check); the simulation halts; the
completed trace names `j` in exactly 8 records; and `j` ends with
`slots_remaining = slots_requested - 8 > 0`. -/
theorem mlfq_odd_priority_dropped (sort : (Int → Int → Bool) → List Int → List Int)
    (hs : StdSort sort) (in_file : List Job) (h1 : ArrivalsSorted in_file)
    (h2 : ArrivalsNonneg in_file) (h3 : SlotsPositive in_file)
    (j : Nat) (hj : j < in_file.length)
    (hprio : (in_file[j]).priority ≠ 0 ∧ (in_file[j]).priority ≠ 1)
    (hgt : 8 < (in_file[j]).slots_requested) :
    (∀ n : Nat,
      (∀ q ∈ (run_ticks sort (initial_state in_file) n).queues, (j : Int) ∉ q) ∧
      (∀ q ∈ (at_selection sort in_file n).queues, (j : Int) ∉ q)) ∧
    ∃ (fuel : Nat) (s : State), main_loop sort fuel (initial_state in_file) = some s ∧
      served s.out_file (j : Int) = 8 ∧
      (customerAt s.customers (j : Int)).slots_remaining = (in_file[j]).slots_requested - 8 ∧
      0 < (customerAt s.customers (j : Int)).slots_remaining := by
  have hjob := job_of_eq_getElem in_file j hj
  have hp : ¬ ((job_of in_file (j : Int)).priority = HIGH_PRIORITY ∨
      (job_of in_file (j : Int)).priority = LOW_PRIORITY) := by
    rw [hjob]
    simp only [customer_from_file, HIGH_PRIORITY, LOW_PRIORITY]
    tauto
  have hg : TIME_ALLOWANCE < (job_of in_file (j : Int)).slots_remaining := by
    rw [hjob]
    exact hgt
  have hslots : (job_of in_file (j : Int)).slots_remaining = (in_file[j]).slots_requested := by
    rw [hjob]; rfl
  constructor
  · intro n
    have h0 := Dropped_run hs in_file (j : Int) (by omega) hp hg n
    have hd1 : Dropped in_file (j : Int) (at_selection sort in_file n) :=
      Dropped_expiry (by omega) hp (Wf_admission (Wf_run hs in_file n)) (Dropped_admission h0)
    exact ⟨h0.not_queued, hd1.not_queued⟩
  · obtain ⟨T, _, hempty, _, hloop⟩ := halts hs in_file h1 h2 h3
    refine ⟨T + 1, _, hloop (T + 1) (le_refl _), ?_⟩
    have hw := Wf_run hs in_file (T + 1)
    have ha : Acct in_file false (run_ticks sort (initial_state in_file) (T + 1)) :=
      Acct_run hs h3 (T + 1)
    have hdr := Dropped_run hs in_file (j : Int) (by omega) hp hg (T + 1)
    obtain ⟨e1, e2, _, e4⟩ := hempty
    have hwl := hw.waiting_length
    simp only [waiting, e1, e2, List.map_nil, List.append_nil, List.length_nil] at hwl
    have hd : dispatched in_file (run_ticks sort (initial_state in_file) (T + 1)) =
        in_file.length := by
      have := hw.dispatched_le
      omega
    have hrem := hdr.done (by rw [hd]; exact_mod_cast hj) (by rw [e4]; omega)
    have hb := ha.balance (j : Int) (by omega) (by exact_mod_cast hj)
    rw [e4, if_neg (by omega), hrem] at hb
    rw [hrem, hslots]
    have hta : TIME_ALLOWANCE = 8 := rfl
    rw [hta] at hb ⊢
    refine ⟨?_, rfl, by omega⟩
    have : ((served (run_ticks sort (initial_state in_file) (T + 1)).out_file (j : Int) : Nat) : Int)
        = 8 := by omega
    exact_mod_cast this

set_option maxRecDepth 100000 in
theorem mlfq_odd_priority_dropped_witness :
    ∃ (fuel : Nat) (s : State), main_loop insertion_sort fuel (initial_state odd_priority_jobs) =
        some s ∧
      served s.out_file ((0 : Nat) : Int) = 8 ∧
      (customerAt s.customers ((0 : Nat) : Int)).slots_remaining =
        (odd_priority_jobs[0]).slots_requested - 8 ∧
      0 < (customerAt s.customers ((0 : Nat) : Int)).slots_remaining :=
  (mlfq_odd_priority_dropped insertion_sort insertion_sort_stdSort odd_priority_jobs
    (by simp [ArrivalsSorted, odd_priority_jobs])
    (by simp [ArrivalsNonneg, odd_priority_jobs])
    (by simp [SlotsPositive, odd_priority_jobs]) 0 (by decide) (by decide) (by decide)).2

end Mlfq
end CpuScheduler

/-! ## The rotation of `current_queue` in `scheduler.cpp` -/

namespace CpuScheduler

theorem arrival_events_from_nonneg (c : Int) (hc : 0 ≤ c) (l : List Job) :
    ∀ e ∈ arrival_events_from c l, 0 ≤ e.customer_id := by
  induction l generalizing c with
  | nil => simp [arrival_events_from]
  | cons j rest ih =>
    intro e he
    simp only [arrival_events_from, List.mem_cons] at he
    rcases he with rfl | he
    · exact hc
    · exact ih (c + 1) (by omega) e he

namespace Scheduler

theorem NonnegIds_initial (in_file : List Job) : NonnegIds (initial_state in_file) := by
  refine ⟨arrival_events_from_nonneg 0 (le_refl 0) in_file, ?_, ?_, ?_⟩ <;>
    intro id hid <;> exact absurd hid (List.not_mem_nil _)

theorem NonnegIds_admission {s : State} (h : NonnegIds s) : NonnegIds (admission s) := by
  refine ⟨?_, ?_, h.high_nonneg, h.low_nonneg⟩
  · intro e he
    have he' : e ∈ (admission_loop s.current_time s.arrival_events s.arrival_queue).1 := he
    rw [admission_loop_fst] at he'
    exact h.events_nonneg e ((List.dropWhile_sublist _).subset he')
  · intro id hid
    have hid' : id ∈ (admission_loop s.current_time s.arrival_events s.arrival_queue).2 := hid
    rw [admission_loop_snd] at hid'
    rcases List.mem_append.mp hid' with h1 | h1
    · exact h.arrival_nonneg id h1
    · obtain ⟨e, he, rfl⟩ := List.mem_map.mp h1
      exact h.events_nonneg e ((List.takeWhile_sublist _).subset he)

theorem NonnegIds_expiry {s : State} (h : NonnegIds s) : NonnegIds (expiry s) := by
  unfold expiry
  split
  · rename_i hc
    dsimp only
    split
    · split
      · refine ⟨h.events_nonneg, h.arrival_nonneg, ?_, h.low_nonneg⟩
        intro id hid
        rcases List.mem_append.mp hid with h1 | h1
        · exact h.high_nonneg id h1
        · rw [List.mem_singleton.mp h1]; exact hc.1
      · split
        · refine ⟨h.events_nonneg, h.arrival_nonneg, h.high_nonneg, ?_⟩
          intro id hid
          rcases List.mem_append.mp hid with h1 | h1
          · exact h.low_nonneg id h1
          · rw [List.mem_singleton.mp h1]; exact hc.1
        · exact ⟨h.events_nonneg, h.arrival_nonneg, h.high_nonneg, h.low_nonneg⟩
    · exact ⟨h.events_nonneg, h.arrival_nonneg, h.high_nonneg, h.low_nonneg⟩
  · exact h

/-- When `current_queue` is empty and some queue is not, the rotation lands on a non-empty
queue. -/
theorem rotate_nonempty (s : State) (h : deref s s.current_queue = [])
    (hne : s.arrival_queue ≠ [] ∨ s.high_priority_queue ≠ [] ∨ s.low_priority_queue ≠ []) :
    deref s (rotate s) ≠ [] := by
  unfold rotate rotate_first
  cases hcq : s.current_queue <;> rw [hcq] at h <;> simp only [deref] at h <;>
    by_cases ha : s.arrival_queue = [] <;> by_cases hh : s.high_priority_queue = [] <;>
    by_cases hl : s.low_priority_queue = [] <;> simp_all [deref]

theorem deref_assign (s : State) (q : QueueRef) (l : List Int) : deref (assign s q l) q = l := by
  cases q <;> rfl

/-- The rotation leaves `current_queue` on an empty queue only when all three queues are
empty. -/
theorem rotation_empty {sort : (Int → Int → Bool) → List Int → List Int} (hs : StdSort sort)
    (s : State) (h : deref (rotation sort s) (rotation sort s).current_queue = []) :
    s.arrival_queue = [] ∧ s.high_priority_queue = [] ∧ s.low_priority_queue = [] ∧
      rotation sort s = { s with current_queue := QueueRef.arrival_queue } := by
  by_cases hd : deref s s.current_queue = []
  · by_cases hne : s.arrival_queue ≠ [] ∨ s.high_priority_queue ≠ [] ∨ s.low_priority_queue ≠ []
    · exfalso
      have hr := rotate_nonempty s hd hne
      unfold rotation at h
      rw [if_pos hd] at h
      dsimp only at h
      by_cases hq : rotate s ≠ QueueRef.arrival_queue
      · rw [if_pos hq] at h
        have hcq : (assign { s with current_queue := rotate s } (rotate s)
            (sort (by_slots_remaining s.customers)
              (deref { s with current_queue := rotate s } (rotate s)))).current_queue =
            rotate s := by
          cases rotate s <;> rfl
        rw [hcq, deref_assign] at h
        have hp := hs.perm s.customers (deref { s with current_queue := rotate s } (rotate s))
        rw [h] at hp
        have hnil := List.Perm.nil_eq hp
        have hd2 : deref { s with current_queue := rotate s } (rotate s) = deref s (rotate s) := by
          cases rotate s <;> rfl
        rw [hd2] at hnil
        exact hr hnil.symm
      · rw [if_neg hq] at h
        have hd2 : deref { s with current_queue := rotate s } (rotate s) = deref s (rotate s) := by
          cases rotate s <;> rfl
        exact hr (hd2 ▸ h)
    · have ha : s.arrival_queue = [] := by
        by_contra hh; exact hne (Or.inl hh)
      have hh : s.high_priority_queue = [] := by
        by_contra hx; exact hne (Or.inr (Or.inl hx))
      have hl : s.low_priority_queue = [] := by
        by_contra hx; exact hne (Or.inr (Or.inr hx))
      refine ⟨ha, hh, hl, ?_⟩
      have hrot : rotate s = QueueRef.arrival_queue := by
        unfold rotate
        simp [ha, hh, hl]
      unfold rotation
      rw [if_pos hd]
      dsimp only
      rw [if_neg (by rw [hrot]; simp), hrot]
  · exfalso
    unfold rotation at h
    rw [if_neg hd] at h
    exact hd h

theorem NonnegIds_rotation {sort : (Int → Int → Bool) → List Int → List Int} (hs : StdSort sort)
    {s : State} (h : NonnegIds s) : NonnegIds (rotation sort s) := by
  unfold rotation
  split
  · dsimp only
    split
    · have hsub : ∀ l : List Int, ∀ id ∈ sort (by_slots_remaining s.customers) l, id ∈ l :=
        fun l id hid => (hs.perm s.customers l).subset hid
      cases hr : rotate s with
      | arrival_queue =>
        exact ⟨h.events_nonneg, fun id hid => h.arrival_nonneg id (hsub _ id hid),
          h.high_nonneg, h.low_nonneg⟩
      | high_priority_queue =>
        exact ⟨h.events_nonneg, h.arrival_nonneg,
          fun id hid => h.high_nonneg id (hsub _ id hid), h.low_nonneg⟩
      | low_priority_queue =>
        exact ⟨h.events_nonneg, h.arrival_nonneg, h.high_nonneg,
          fun id hid => h.low_nonneg id (hsub _ id hid)⟩
    · exact ⟨h.events_nonneg, h.arrival_nonneg, h.high_nonneg, h.low_nonneg⟩
  · exact h

theorem deref_nonneg {s : State} (h : NonnegIds s) (q : QueueRef) : ∀ id ∈ deref s q, 0 ≤ id := by
  cases q
  · exact h.arrival_nonneg
  · exact h.high_nonneg
  · exact h.low_nonneg

theorem NonnegIds_dispatch {s : State} (h : NonnegIds s) : NonnegIds (dispatch s) := by
  unfold dispatch
  split
  · exact h
  · rename_i id rest hd
    have hrest : ∀ i ∈ rest, 0 ≤ i := fun i hi =>
      deref_nonneg h s.current_queue i (by rw [hd]; exact List.mem_cons_of_mem _ hi)
    cases hq : s.current_queue with
    | arrival_queue =>
      rw [hq] at hd
      have hd' : s.arrival_queue = id :: rest := hd
      exact ⟨h.events_nonneg, hrest, h.high_nonneg, h.low_nonneg⟩
    | high_priority_queue =>
      exact ⟨h.events_nonneg, h.arrival_nonneg, hrest, h.low_nonneg⟩
    | low_priority_queue =>
      exact ⟨h.events_nonneg, h.arrival_nonneg, h.high_nonneg, hrest⟩

theorem NonnegIds_selection {sort : (Int → Int → Bool) → List Int → List Int} (hs : StdSort sort)
    {s : State} (h : NonnegIds s) : NonnegIds (selection sort s) := by
  unfold selection
  split
  · exact NonnegIds_dispatch (NonnegIds_rotation hs h)
  · exact h

theorem NonnegIds_run {sort : (Int → Int → Bool) → List Int → List Int} (hs : StdSort sort)
    (in_file : List Job) (n : Nat) : NonnegIds (run_ticks sort (initial_state in_file) n) := by
  induction n with
  | zero => exact NonnegIds_initial in_file
  | succ n ih =>
    have h := NonnegIds_selection hs (NonnegIds_expiry (NonnegIds_admission ih))
    exact ⟨h.events_nonneg, h.arrival_nonneg, h.high_nonneg, h.low_nonneg⟩

/-- C20 (work conservation of the rotation in `scheduler.cpp`).  For every input and every
tick, if the record written for that tick is idle (the running id is `-1` after the selection
step), then after that selection step `arrival_queue`, `high_priority_queue` and
`low_priority_queue` are all empty: wherever `current_queue` pointed before, the rotation
lands on a non-empty queue when one exists. -/
theorem scheduler_work_conservation (sort : (Int → Int → Bool) → List Int → List Int)
    (hs : StdSort sort) (in_file : List Job) (n : Nat)
    (hidle : (run_ticks sort (initial_state in_file) (n + 1)).out_file.getLast? =
      some ((n : Int), -1)) :
    (selection sort (expiry (admission
      (run_ticks sort (initial_state in_file) n)))).arrival_queue = [] ∧
    (selection sort (expiry (admission
      (run_ticks sort (initial_state in_file) n)))).high_priority_queue = [] ∧
    (selection sort (expiry (admission
      (run_ticks sort (initial_state in_file) n)))).low_priority_queue = [] := by
  have hnn := NonnegIds_expiry (NonnegIds_admission (NonnegIds_run hs in_file n))
  have hcur : (selection sort (expiry (admission
      (run_ticks sort (initial_state in_file) n)))).current_id = -1 := by
    have hout : (run_ticks sort (initial_state in_file) (n + 1)).out_file =
        (selection sort (expiry (admission (run_ticks sort (initial_state in_file) n)))).out_file ++
          [((selection sort (expiry (admission
              (run_ticks sort (initial_state in_file) n)))).current_time,
            (selection sort (expiry (admission
              (run_ticks sort (initial_state in_file) n)))).current_id)] := rfl
    rw [hout, List.getLast?_append] at hidle
    simp only [List.getLast?_singleton, Option.or, Option.some.injEq, Prod.mk.injEq] at hidle
    exact hidle.2
  generalize expiry (admission (run_ticks sort (initial_state in_file) n)) = s at hnn hcur ⊢
  unfold selection at hcur ⊢
  by_cases hc : s.current_id = -1
  · rw [if_pos hc] at hcur ⊢
    have hr := NonnegIds_rotation hs hnn
    have hde : deref (rotation sort s) (rotation sort s).current_queue = [] := by
      cases hd : deref (rotation sort s) (rotation sort s).current_queue with
      | nil => rfl
      | cons id rest =>
        exfalso
        have h0 := deref_nonneg hr (rotation sort s).current_queue id (by rw [hd]; simp)
        unfold dispatch at hcur
        rw [hd] at hcur
        have : id = -1 := hcur
        omega
    obtain ⟨ha, hh, hl, hrot⟩ := rotation_empty hs s hde
    have hdis : dispatch (rotation sort s) = rotation sort s := by
      unfold dispatch
      rw [hde]
    rw [hdis, hrot]
    exact ⟨ha, hh, hl⟩
  · rw [if_neg hc] at hcur
    exact absurd hcur hc

set_option maxRecDepth 100000 in
theorem scheduler_work_conservation_witness :
    (run_ticks insertion_sort (initial_state scenario_two) (23 + 1)).out_file.getLast? =
      some (((23 : Nat) : Int), -1) ∧
    (selection insertion_sort (expiry (admission
      (run_ticks insertion_sort (initial_state scenario_two) 23)))).arrival_queue = [] ∧
    (selection insertion_sort (expiry (admission
      (run_ticks insertion_sort (initial_state scenario_two) 23)))).high_priority_queue = [] ∧
    (selection insertion_sort (expiry (admission
      (run_ticks insertion_sort (initial_state scenario_two) 23)))).low_priority_queue = [] :=
  ⟨by decide!,
    scheduler_work_conservation insertion_sort insertion_sort_stdSort scenario_two 23
      (by decide!)⟩

end Scheduler
end CpuScheduler

/-! ## Jobs with equally many slots left -/

namespace CpuScheduler

namespace Mlfq

end Mlfq

end CpuScheduler

/-! ## No preemption inside a quantum -/

namespace CpuScheduler

theorem ids_pairwise (n : Nat) : (ids n).Pairwise (fun a b => a < b) := by
  unfold ids
  rw [List.pairwise_map]
  exact List.Pairwise.imp (fun h => by exact_mod_cast h) (List.pairwise_lt_range n)

namespace Mlfq

theorem admission_arrival_queue (s : State) :
    (admission s).arrival_queue = s.arrival_queue ++ admitted s := by
  rw [admitted_eq, admission_eq]

/-- The arrival queue lists its jobs by increasing id. -/
theorem Wf.arrival_queue_pairwise {in_file : List Job} {s : State} (h : Wf in_file s) :
    s.arrival_queue.Pairwise (fun a b => a < b) := by
  have hp : (waiting s).Pairwise (fun a b => a < b) := by
    rw [h.waiting_eq]
    exact List.Pairwise.sublist (List.drop_sublist _ _) (ids_pairwise _)
  exact List.Pairwise.sublist (List.sublist_append_left _ _) hp

/-- What one iteration does to the running slot: the running job stays; or the slot is left
idle; or the head of the arrival queue is dispatched; or, the arrival queue being empty, a
job of a leveled queue is dispatched. -/
theorem tick_cases {sort : (Int → Int → Bool) → List Int → List Int} (hs : StdSort sort)
    {in_file : List Job} {s : State} (hw : Wf in_file s) :
    (0 ≤ s.current_id ∧ s.current_time ≠ s.time_out ∧
      (tick sort s).current_id = s.current_id ∧ (tick sort s).customers = s.customers ∧
      (tick sort s).arrival_queue = s.arrival_queue ++ admitted s) ∨
    (tick sort s).current_id = -1 ∨
    (∃ id rest, s.arrival_queue ++ admitted s = id :: rest ∧ (tick sort s).current_id = id ∧
      (tick sort s).arrival_queue = rest ∧ (dispatched in_file s : Int) ≤ id ∧
      (customerAt (tick sort s).customers id).playing_since = s.current_time) ∨
    (s.arrival_queue ++ admitted s = [] ∧ 0 ≤ (tick sort s).current_id ∧
      (tick sort s).arrival_queue = [] ∧
      (customerAt (tick sort s).customers (tick sort s).current_id).playing_since =
        s.current_time) := by
  have hwa := Wf_admission hw
  have hwe := Wf_expiry hwa
  have haq : (expiry (admission s)).arrival_queue = s.arrival_queue ++ admitted s := by
    rw [expiry_arrival_queue, admission_arrival_queue]
  have hct : (expiry (admission s)).current_time = s.current_time := by
    rw [expiry_current_time]; rfl
  have hdis : dispatched in_file (expiry (admission s)) = dispatched in_file s := by
    rw [dispatched_expiry, dispatched_admission]
  obtain ⟨q0, hq, hq0⟩ := hwe.queues_eq
  rw [tick_eq]
  rcases selection_cases hs (expiry (admission s)) q0 hq with ⟨hcur, he⟩ | ⟨hcur, _, _, he⟩ |
      ⟨hcur, id, rest, har, he⟩ | ⟨hcur, har, id, rest, hp, _, he⟩
  · left
    have hidle : ¬ (0 ≤ (admission s).current_id ∧
        (admission s).current_time = (admission s).time_out) := by
      intro hact
      apply hcur
      unfold expiry; rw [if_pos hact]
    have hee := expiry_idle _ hidle
    rw [hee] at hcur
    have hc2 : s.current_id ≠ -1 := hcur
    have h0 : 0 ≤ s.current_id := by
      rcases hw.current_lt with h | h
      · exact absurd h hc2
      · exact h.1
    refine ⟨h0, ?_, ?_, ?_, ?_⟩
    · intro heq
      exact hidle ⟨h0, heq⟩
    · rw [he, hee]; rfl
    · rw [he, hee]; rfl
    · rw [he, hee]; exact admission_arrival_queue s
  · right; left
    rw [he]
    exact hcur
  · right; right; left
    have hmw : id ∈ waiting (expiry (admission s)) := by
      simp only [waiting, har]; simp
    rw [hwe.waiting_eq, mem_drop_ids, hdis] at hmw
    have hlt : id.toNat < (expiry (admission s)).customers.length := by
      rw [hwe.customers_length]; omega
    refine ⟨id, rest, ?_, ?_, ?_, hmw.1, ?_⟩
    · rw [← haq]; exact har
    · rw [he]; rfl
    · rw [he]; rfl
    · rw [he]
      show (customerAt ((expiry (admission s)).customers.set id.toNat _) id).playing_since = _
      rw [customerAt_set_self _ _ _ hlt]
      exact hct
  · right; right; right
    have hidm : id ∈ q0 := hp.subset (List.mem_cons_self _ _)
    have hid := hq0 id hidm
    have hdl := hwe.dispatched_le
    have hlt : id.toNat < (expiry (admission s)).customers.length := by
      rw [hwe.customers_length]; omega
    refine ⟨?_, ?_, ?_, ?_⟩
    · rw [← haq]; exact har
    · rw [he]; exact hid.1
    · rw [he]; exact har
    · rw [he]
      show (customerAt ((expiry (admission s)).customers.set id.toNat _) id).playing_since = _
      rw [customerAt_set_self _ _ _ hlt]
      exact hct

/-- While a job runs, the jobs admitted since its dispatch wait in the arrival queue. -/
theorem admitted_wait {sort : (Int → Int → Bool) → List Int → List Int} (hs : StdSort sort)
    (in_file : List Job) (n : Nat) :
    0 ≤ (run_ticks sort (initial_state in_file) n).current_id →
    ∀ a : Nat,
      (customerAt (run_ticks sort (initial_state in_file) n).customers
        (run_ticks sort (initial_state in_file) n).current_id).playing_since ≤ (a : Int) →
      a < n →
      ∀ c ∈ admitted_at sort in_file a,
        c ≠ (run_ticks sort (initial_state in_file) n).current_id →
        c ∈ (run_ticks sort (initial_state in_file) n).arrival_queue := by
  induction n with
  | zero =>
    intro _ a _ ha
    exact absurd ha (Nat.not_lt_zero a)
  | succ n ih =>
    intro h0 a hps ha c hc hne
    have hw := Wf_run hs in_file n
    have htime := run_current_time hs in_file n
    have hstep : run_ticks sort (initial_state in_file) (n + 1) =
        tick sort (run_ticks sort (initial_state in_file) n) := rfl
    rw [hstep] at h0 hps hne ⊢
    rcases tick_cases hs hw with ⟨h1, _, e1, e2, e3⟩ | e1 | ⟨id, rest, e0, e1, e2, _, e3⟩ |
        ⟨e0, _, e2, e3⟩
    · rw [e1] at h0 hps hne
      rw [e2] at hps
      rw [e3]
      by_cases han : a < n
      · exact List.mem_append_left _ (ih h1 a hps han c hc hne)
      · have hae : a = n := by omega
        subst hae
        exact List.mem_append_right _ hc
    · rw [e1] at h0
      have hneg : ¬ ((0 : Int) ≤ -1) := by decide
      exact absurd h0 hneg
    · rw [e1] at hps hne
      rw [e3, htime] at hps
      have hae : a = n := by omega
      subst hae
      rw [e2]
      have hm : c ∈ id :: rest := by
        rw [← e0]
        exact List.mem_append_right _ hc
      rcases List.mem_cons.mp hm with h | h
      · exact absurd h hne
      · exact h
    · rw [e3, htime] at hps
      have hae : a = n := by omega
      subst hae
      have hm : c ∈ (run_ticks sort (initial_state in_file) a).arrival_queue ++
          admitted (run_ticks sort (initial_state in_file) a) :=
        List.mem_append_right _ hc
      rw [e0] at hm
      exact absurd hm (List.not_mem_nil _)

/-- A record of an earlier tick stays where it was written. -/
theorem run_out_file_prefix (sort : (Int → Int → Bool) → List Int → List Int) (s : State)
    (n k : Nat) : ∃ l, (run_ticks sort s (n + k)).out_file = (run_ticks sort s n).out_file ++ l := by
  induction k with
  | zero => exact ⟨[], (List.append_nil _).symm⟩
  | succ k ih =>
    obtain ⟨l, hl⟩ := ih
    refine ⟨l ++ [((run_ticks sort s (n + k)).current_time,
      (selection sort (expiry (admission (run_ticks sort s (n + k))))).current_id)], ?_⟩
    show (tick sort (run_ticks sort s (n + k))).out_file = _
    rw [tick_out_file, hl, List.append_assoc]

theorem record_stable {sort : (Int → Int → Bool) → List Int → List Int} (hs : StdSort sort)
    (in_file : List Job) (n v : Nat) (hv : v < n) :
    (run_ticks sort (initial_state in_file) n).out_file[v]? =
      some ((v : Int), (run_ticks sort (initial_state in_file) (v + 1)).current_id) := by
  obtain ⟨l, hl⟩ := run_out_file_prefix sort (initial_state in_file) (v + 1) (n - (v + 1))
  have hn : v + 1 + (n - (v + 1)) = n := by omega
  rw [hn] at hl
  have hlen : (run_ticks sort (initial_state in_file) (v + 1)).out_file.length = v + 1 := by
    rw [run_ticks_length]; simp [initial_state]
  rw [hl, List.getElem?_append_left (by omega)]
  exact record_eq hs in_file v

/-- A job that is named by a record has a record that names it, at its own tick. -/
theorem named_record {sort : (Int → Int → Bool) → List Int → List Int} (hs : StdSort sort)
    (in_file : List Job) (n : Nat) (c : Int)
    (h : c ∈ names (run_ticks sort (initial_state in_file) n).out_file) :
    ∃ v, v < n ∧ (run_ticks sort (initial_state in_file) (v + 1)).current_id = c := by
  simp only [names, List.mem_map] at h
  obtain ⟨r, hr1, hr2⟩ := h
  obtain ⟨v, hv, hget⟩ := List.getElem_of_mem hr1
  have hlen : (run_ticks sort (initial_state in_file) n).out_file.length = n := by
    rw [run_ticks_length]; simp [initial_state]
  have hvn : v < n := by omega
  refine ⟨v, hvn, ?_⟩
  have h1 := record_stable hs in_file n v hvn
  rw [List.getElem?_eq_getElem hv, hget] at h1
  have h2 := Option.some.inj h1
  rw [← hr2, h2]

/-- Once `c` waits in the arrival queue and `j` has left the running slot, `j` does not get
the slot back before `c` has had it. -/
theorem waiting_goes_first {sort : (Int → Int → Bool) → List Int → List Int}
    (hs : StdSort sort) (in_file : List Job) (m : Nat) (j c : Int) (hj : 0 ≤ j)
    (hjd : j < dispatched in_file (run_ticks sort (initial_state in_file) m))
    (hc : c ∈ (admission (run_ticks sort (initial_state in_file) m)).arrival_queue)
    (hcur : (expiry (admission (run_ticks sort (initial_state in_file) m))).current_id ≠ j)
    (k : Nat) :
    (c ∈ (run_ticks sort (initial_state in_file) (m + 1 + k)).arrival_queue ∧
      (j : Int) < dispatched in_file (run_ticks sort (initial_state in_file) (m + 1 + k)) ∧
      ∀ u, m ≤ u → u < m + 1 + k →
        (run_ticks sort (initial_state in_file) (u + 1)).current_id ≠ j) ∨
    ∃ v, m ≤ v ∧ v < m + 1 + k ∧
      (run_ticks sort (initial_state in_file) (v + 1)).current_id = c := by
  have step : ∀ n : Nat,
      (j : Int) < dispatched in_file (run_ticks sort (initial_state in_file) n) →
      c ∈ (admission (run_ticks sort (initial_state in_file) n)).arrival_queue →
      (expiry (admission (run_ticks sort (initial_state in_file) n))).current_id ≠ j →
      ((run_ticks sort (initial_state in_file) (n + 1)).current_id = c) ∨
      (c ∈ (run_ticks sort (initial_state in_file) (n + 1)).arrival_queue ∧
        (j : Int) < dispatched in_file (run_ticks sort (initial_state in_file) (n + 1)) ∧
        (run_ticks sort (initial_state in_file) (n + 1)).current_id ≠ j) := by
    intro n hjn hcn hcurn
    have hw := Wf_run hs in_file n
    have hw1 := Wf_run hs in_file (n + 1)
    have hwe := Wf_expiry (Wf_admission hw)
    have hdis : dispatched in_file (expiry (admission (run_ticks sort (initial_state in_file) n))) =
        dispatched in_file (run_ticks sort (initial_state in_file) n) := by
      rw [dispatched_expiry, dispatched_admission]
    have hstep : run_ticks sort (initial_state in_file) (n + 1) =
        emit (selection sort (expiry (admission (run_ticks sort (initial_state in_file) n)))) :=
      rfl
    have hce : c ∈ (expiry (admission (run_ticks sort (initial_state in_file) n))).arrival_queue := by
      rw [expiry_arrival_queue]; exact hcn
    obtain ⟨q0, hq, hq0⟩ := hwe.queues_eq
    rcases selection_cases hs _ q0 hq with ⟨_, he⟩ | ⟨_, har, _, _⟩ |
        ⟨_, id, rest, har, he⟩ | ⟨_, har, _⟩
    · right
      have hd1 : dispatched in_file (run_ticks sort (initial_state in_file) (n + 1)) =
          dispatched in_file (run_ticks sort (initial_state in_file) n) := by
        rw [hstep, he, ← hdis]; rfl
      refine ⟨?_, ?_, ?_⟩
      · rw [hstep, he]; exact hce
      · rw [hd1]; exact hjn
      · rw [hstep, he]; exact hcurn
    · rw [har] at hce
      exact absurd hce (List.not_mem_nil _)
    · have hmw : id ∈ waiting (expiry (admission (run_ticks sort (initial_state in_file) n))) := by
        simp only [waiting, har]; simp
      rw [hwe.waiting_eq, mem_drop_ids, hdis] at hmw
      have hci : (run_ticks sort (initial_state in_file) (n + 1)).current_id = id := by
        rw [hstep, he]; rfl
      have haq : (run_ticks sort (initial_state in_file) (n + 1)).arrival_queue = rest := by
        rw [hstep, he]; rfl
      by_cases hcid : c = id
      · left
        rw [hci, hcid]
      · right
        rw [har] at hce
        refine ⟨?_, ?_, ?_⟩
        · rw [haq]
          rcases List.mem_cons.mp hce with h | h
          · exact absurd h hcid
          · exact h
        · rcases hw1.current_lt with h | h
          · rw [hci] at h; omega
          · rw [hci] at h; omega
        · rw [hci]; omega
    · rw [har] at hce
      exact absurd hce (List.not_mem_nil _)
  induction k with
  | zero =>
    rcases step m hjd hc hcur with h | ⟨h1, h2, h3⟩
    · right
      exact ⟨m, le_refl m, by omega, h⟩
    · left
      refine ⟨h1, h2, ?_⟩
      intro u hu1 hu2
      have hum : u = m := by omega
      rw [hum]
      exact h3
  | succ k ih =>
    rcases ih with ⟨h1, h2, h3⟩ | ⟨v, hv1, hv2, hv3⟩
    · have hlast := h3 (m + k) (by omega) (by omega)
      have hmk : m + k + 1 = m + 1 + k := by omega
      rw [hmk] at hlast
      have hcn : c ∈ (admission (run_ticks sort (initial_state in_file) (m + 1 + k))).arrival_queue := by
        rw [admission_arrival_queue]
        exact List.mem_append_left _ h1
      have hcurn : (expiry (admission
          (run_ticks sort (initial_state in_file) (m + 1 + k)))).current_id ≠ j := by
        by_cases hact : 0 ≤ (admission (run_ticks sort (initial_state in_file) (m + 1 + k))).current_id ∧
            (admission (run_ticks sort (initial_state in_file) (m + 1 + k))).current_time =
              (admission (run_ticks sort (initial_state in_file) (m + 1 + k))).time_out
        · have : (expiry (admission
              (run_ticks sort (initial_state in_file) (m + 1 + k)))).current_id = -1 := by
            unfold expiry; rw [if_pos hact]
          rw [this]; omega
        · rw [expiry_idle _ hact]
          exact hlast
      rcases step (m + 1 + k) h2 hcn hcurn with h | ⟨g1, g2, g3⟩
      · right
        exact ⟨m + 1 + k, by omega, by omega, h⟩
      · left
        refine ⟨g1, g2, ?_⟩
        intro u hu1 hu2
        by_cases hu : u < m + 1 + k
        · exact h3 u hu1 hu
        · have hue : u = m + 1 + k := by omega
          rw [hue]
          exact g3
    · right
      exact ⟨v, hv1, by omega, hv3⟩

end Mlfq
end CpuScheduler

namespace CpuScheduler
namespace Mlfq

/-- C8, as amended (no mid-quantum preemption in `mlfq.cpp`).  For every input whose
priorities are 0 or 1, if job `j` is the running job at tick `t` (it holds the running slot
after the iteration of tick `t`, so the record of tick `t` names it) then:
(a) if `t + 1` is smaller than `time_out`, the record of tick `t + 1` names `j` again,
whatever the calendar holds;
(b) every other job admitted since the tick at which `j` was dispatched waits in the arrival
queue when the admission loop of tick `t + 1` is done;
(c) if `t + 1` is `time_out` and the arrival queue then is `b :: rest`: its head `b` is
another job and is dispatched at that tick (the record of `t + 1` names `b`); the remainder of
`j`, when positive, waits in the leveled queue 0; every job `c` of the arrival queue is
dispatched ahead of that remainder, that is, before any later record names `j` again a record
from tick `t + 1` on names `c`, and on a valid input (arrival ticks non-decreasing and
non-negative, positive requests) such a record exists; and the jobs of the arrival queue get
their first record in queue order.
(d) For `A 0 0 20`, `B 0 1 3` the trace names job 0 at the ticks 0..7, job 1 at 8..10, job 0
at 11..22, and ends with the idle record of tick 23. -/
theorem mlfq_no_preemption (sort : (Int → Int → Bool) → List Int → List Int)
    (hs : StdSort sort) (in_file : List Job) (h4 : PrioritiesValid in_file) (t : Nat) (j : Int)
    (hj : 0 ≤ j) (hrun : (run_ticks sort (initial_state in_file) (t + 1)).current_id = j) :
    (run_ticks sort (initial_state in_file) (t + 1)).out_file[t]? = some ((t : Int), j) ∧
    ((t : Int) + 1 < (run_ticks sort (initial_state in_file) (t + 1)).time_out →
      (run_ticks sort (initial_state in_file) (t + 2)).out_file[t + 1]? =
        some ((t : Int) + 1, j)) ∧
    (∀ (a : Nat) (c : Int),
      (customerAt (run_ticks sort (initial_state in_file) (t + 1)).customers j).playing_since ≤
        (a : Int) →
      a ≤ t + 1 → c ∈ admitted_at sort in_file a → c ≠ j →
      c ∈ (admission (run_ticks sort (initial_state in_file) (t + 1))).arrival_queue) ∧
    ((t : Int) + 1 = (run_ticks sort (initial_state in_file) (t + 1)).time_out →
      ∀ (b : Int) (rest : List Int),
        (admission (run_ticks sort (initial_state in_file) (t + 1))).arrival_queue = b :: rest →
        b ≠ j ∧
        (run_ticks sort (initial_state in_file) (t + 2)).out_file[t + 1]? =
          some ((t : Int) + 1, b) ∧
        (0 < (customerAt (run_ticks sort (initial_state in_file) (t + 2)).customers
            j).slots_remaining →
          j ∈ (run_ticks sort (initial_state in_file) (t + 2)).queues.getD 0 []) ∧
        (∀ c ∈ b :: rest,
          (∀ u : Nat, t + 1 ≤ u →
            (run_ticks sort (initial_state in_file) (u + 1)).out_file[u]? = some ((u : Int), j) →
            ∃ v : Nat, t + 1 ≤ v ∧ v < u ∧
              (run_ticks sort (initial_state in_file) (v + 1)).out_file[v]? =
                some ((v : Int), c)) ∧
          (ArrivalsSorted in_file → ArrivalsNonneg in_file → SlotsPositive in_file →
            ∃ v : Nat, t + 1 ≤ v ∧
              (run_ticks sort (initial_state in_file) (v + 1)).out_file[v]? =
                some ((v : Int), c))) ∧
        (∀ (l1 : List Int) (c : Int) (l2 : List Int), b :: rest = l1 ++ c :: l2 →
          ∀ c' ∈ l2, ∀ u : Nat,
            (run_ticks sort (initial_state in_file) (u + 1)).out_file[u]? =
              some ((u : Int), c') →
            ∃ v : Nat, v < u ∧
              (run_ticks sort (initial_state in_file) (v + 1)).out_file[v]? =
                some ((v : Int), c))) ∧
    main sort 24 scenario_two = some (span 0 8 0 ++ span 8 3 1 ++ span 11 12 0 ++ [(23, -1)]) := by
  have hw := Wf_run hs in_file (t + 1)
  have htime := run_current_time hs in_file (t + 1)
  have hrec := record_eq hs in_file (t + 1)
  have hrec0 := record_eq hs in_file t
  have hwait := admitted_wait hs in_file (t + 1)
  have hstable : ∀ v : Nat, v < t + 1 →
      (run_ticks sort (initial_state in_file) (t + 1)).out_file[v]? =
        some ((v : Int), (run_ticks sort (initial_state in_file) (v + 1)).current_id) :=
    fun v hv => record_stable hs in_file (t + 1) v hv
  have hgo : ∀ (j c : Int), 0 ≤ j →
      (j : Int) < dispatched in_file (run_ticks sort (initial_state in_file) (t + 1)) →
      c ∈ (admission (run_ticks sort (initial_state in_file) (t + 1))).arrival_queue →
      (expiry (admission (run_ticks sort (initial_state in_file) (t + 1)))).current_id ≠ j →
      ∀ k : Nat,
        (c ∈ (run_ticks sort (initial_state in_file) (t + 1 + 1 + k)).arrival_queue ∧
          (j : Int) < dispatched in_file (run_ticks sort (initial_state in_file) (t + 1 + 1 + k)) ∧
          ∀ u, t + 1 ≤ u → u < t + 1 + 1 + k →
            (run_ticks sort (initial_state in_file) (u + 1)).current_id ≠ j) ∨
        ∃ v, t + 1 ≤ v ∧ v < t + 1 + 1 + k ∧
          (run_ticks sort (initial_state in_file) (v + 1)).current_id = c :=
    fun j c h0 h1 h2 h3 k => waiting_goes_first hs in_file (t + 1) j c h0 h1 h2 h3 k
  have hadm : ∀ a : Nat, admitted_at sort in_file a =
      admitted (run_ticks sort (initial_state in_file) a) := fun _ => rfl
  have hstep : run_ticks sort (initial_state in_file) (t + 2) =
      emit (selection sort (expiry (admission (run_ticks sort (initial_state in_file) (t + 1))))) :=
    rfl
  have hadm1 := hadm (t + 1)
  generalize run_ticks sort (initial_state in_file) (t + 1) = s at hw htime hrec hrec0 hstep hrun hwait hstable hgo hadm1 ⊢
  have hcast : ((t + 1 : Nat) : Int) = (t : Int) + 1 := by push_cast; rfl
  rw [hcast] at htime hrec
  have hsa_cur : (admission s).current_id = j := hrun
  have hsa_time : (admission s).current_time = (t : Int) + 1 := htime
  have hsa_to : (admission s).time_out = s.time_out := rfl
  refine ⟨?_, ?_, ?_, ?_, ?_⟩
  · rw [← hrun]
    exact hrec0
  · intro hlt
    rw [hrec, hstep]
    have he : expiry (admission s) = admission s :=
      expiry_idle _ (by rw [hsa_time, hsa_to]; omega)
    have hsel : selection sort (admission s) = admission s :=
      selection_busy sort _ (by rw [hsa_cur]; omega)
    rw [he, hsel]
    show some ((t : Int) + 1, (admission s).current_id) = _
    rw [hsa_cur]
  · intro a c hps ha hc hne
    rw [admission_arrival_queue]
    by_cases hat : a < t + 1
    · rw [hrun] at hwait
      exact List.mem_append_left _ (hwait hj a hps hat c hc hne)
    · have hae : a = t + 1 := by omega
      rw [hae, hadm1] at hc
      exact List.mem_append_right _ hc
  · intro heq b rest hb
    have hwa := Wf_admission hw
    have hwe := Wf_expiry hwa
    obtain ⟨q0, hq, hq0⟩ := hwa.queues_eq
    have hlt := hwa.current_toNat_lt (by rw [hsa_cur]; exact hj)
    rw [hsa_cur] at hlt
    have hjm : j < dispatched in_file (admission s) := by
      rcases hwa.current_lt with h | h
      · rw [hsa_cur] at h; omega
      · rw [hsa_cur] at h; exact h.2
    have hbm : (dispatched in_file (admission s) : Int) ≤ b := by
      have hm : b ∈ waiting (admission s) := by
        simp only [waiting, hb]
        simp
      rw [hwa.waiting_eq, mem_drop_ids] at hm
      exact hm.1
    have hbj : b ≠ j := by omega
    have hactive : 0 ≤ (admission s).current_id ∧ (admission s).current_time = (admission s).time_out := by
      rw [hsa_cur, hsa_time, hsa_to]
      exact ⟨hj, heq⟩
    have hecur : (expiry (admission s)).current_id = -1 := by
      unfold expiry; rw [if_pos hactive]
    have heaq : (expiry (admission s)).arrival_queue = b :: rest := by
      rw [expiry_arrival_queue]; exact hb
    have hsel := selection_arrival sort (expiry (admission s)) b rest hecur heaq
    have hcur2 : (emit (selection sort (expiry (admission s)))).current_id = b := by
      rw [hsel]; rfl
    refine ⟨hbj, ?_, ?_, ?_, ?_⟩
    · rw [hrec, hstep, hcur2]
    · rw [hstep]
      intro hpos
      have hcs : (emit (selection sort (expiry (admission s)))).customers =
          (expiry (admission s)).customers.set b.toNat
            { customerAt (expiry (admission s)).customers b with
              playing_since := (expiry (admission s)).current_time } := by
        rw [hsel]; rfl
      have hqs : (emit (selection sort (expiry (admission s)))).queues =
          (expiry (admission s)).queues := by
        rw [hsel]; rfl
      have hecs : (expiry (admission s)).customers = (admission s).customers.set j.toNat
          { customerAt (admission s).customers j with
            slots_remaining := (customerAt (admission s).customers j).slots_remaining -
              ((admission s).current_time - (customerAt (admission s).customers j).playing_since) } := by
        unfold expiry; rw [if_pos hactive, hsa_cur]
      rw [hcs] at hpos
      have hrem : (customerAt ((expiry (admission s)).customers.set b.toNat
            { customerAt (expiry (admission s)).customers b with
              playing_since := (expiry (admission s)).current_time }) j).slots_remaining =
          (customerAt (expiry (admission s)).customers j).slots_remaining :=
        customerAt_set_field (fun c => c.slots_remaining) _ _ _ _ rfl
      rw [hrem, hecs, customerAt_set_self _ _ _ hlt] at hpos
      simp only at hpos
      have hprio : (customerAt (admission s).customers j).priority = HIGH_PRIORITY ∨
          (customerAt (admission s).customers j).priority = LOW_PRIORITY := by
        rw [hwa.priority_eq]
        have hjn : j.toNat < in_file.length := by
          rw [← hwa.customers_length]; exact hlt
        have := job_of_eq_getElem in_file j.toNat hjn
        rw [Int.toNat_of_nonneg hj] at this
        rw [this]
        exact h4 _ (List.getElem_mem _)
      have hreq := expiry_requeue (admission s) q0 [] hq hactive.1 hactive.2
        (by rw [hsa_cur]; exact hpos) (by rw [hsa_cur]; exact hprio)
      rw [hqs, hreq]
      simp only [List.getD_cons_zero, List.mem_append, List.mem_singleton]
      right
      exact hsa_cur.symm
    · intro c hcm
      have hcw : (dispatched in_file (admission s) : Int) ≤ c ∧ c < in_file.length := by
        have hm : c ∈ waiting (admission s) := by
          simp only [waiting, hb]
          exact List.mem_append_left _ hcm
        rw [hwa.waiting_eq, mem_drop_ids] at hm
        exact hm
      have hcj : c ≠ j := by omega
      have hjd : (j : Int) < dispatched in_file s := by
        rw [← dispatched_admission]; exact hjm
      have hcq : c ∈ (admission s).arrival_queue := by rw [hb]; exact hcm
      have hne1 : (expiry (admission s)).current_id ≠ j := by rw [hecur]; omega
      constructor
      · intro u hu hr
        have hcu : (run_ticks sort (initial_state in_file) (u + 1)).current_id = j := by
          have h1 := record_eq hs in_file u
          rw [hr] at h1
          have h2 := Option.some.inj h1
          exact (congrArg Prod.snd h2).symm
        have hk : t + 1 + 1 + (u - (t + 1)) = u + 1 := by omega
        rcases hgo j c hj hjd hcq hne1 (u - (t + 1)) with ⟨_, _, h3⟩ | ⟨v, hv1, hv2, hv3⟩
        · exact absurd hcu (h3 u hu (by omega))
        · refine ⟨v, hv1, ?_, ?_⟩
          · by_contra hvu
            have hvu2 : v = u := by omega
            rw [hvu2, hcu] at hv3
            exact hcj hv3.symm
          · rw [record_eq hs in_file v, hv3]
      · intro g1 g2 g3
        obtain ⟨T, _, hempty, _, _⟩ := halts hs in_file g1 g2 g3
        have hwT := Wf_run hs in_file (T + 1)
        have hwl := hwT.waiting_length
        obtain ⟨e1, e2, _, _⟩ := hempty
        simp only [waiting, e1, e2, List.map_nil, List.append_nil, List.length_nil] at hwl
        have hdT : dispatched in_file (run_ticks sort (initial_state in_file) (T + 1)) =
            in_file.length := by
          have := hwT.dispatched_le
          omega
        have hc0 : 0 ≤ c := by
          have := Int.ofNat_nonneg (dispatched in_file (admission s))
          omega
        have hnamed := hwT.named c hc0 (by rw [hdT]; exact hcw.2)
        obtain ⟨v, _, hv⟩ := named_record hs in_file (T + 1) c hnamed
        refine ⟨v, ?_, ?_⟩
        · by_contra hvt
          have hvt2 : v < t + 1 := by omega
          have hrs := hstable v hvt2
          rw [hv] at hrs
          have hmem : c ∈ names s.out_file := by
            simp only [names, List.mem_map]
            exact ⟨((v : Int), c), List.getElem?_mem hrs, rfl⟩
          rcases hw.names_lt c hmem with h | h
          · omega
          · have hd2 := dispatched_admission in_file s
            omega
        · rw [record_eq hs in_file v, hv]
    · intro l1 c l2 hl c' hc' u hr
      have hpw := hwa.arrival_queue_pairwise
      rw [hb, hl, List.pairwise_append] at hpw
      have hlt : c < c' := (List.pairwise_cons.mp hpw.2.1).1 c' hc'
      have hc0 : 0 ≤ c := by
        apply hwa.arrival_queue_nonneg
        rw [hb, hl]
        simp
      have hm := FifoTrace_run hs in_file (u + 1) u _ hr c hc0 hlt
      simp only [names, List.mem_map] at hm
      obtain ⟨r, hr1, hr2⟩ := hm
      obtain ⟨v, hv, hget⟩ := List.getElem_of_mem hr1
      have hvu : v < u := by
        have := hv
        simp only [List.length_take] at this
        omega
      have h2 : (List.take u (run_ticks sort (initial_state in_file) (u + 1)).out_file)[v]? =
          some r := by
        rw [List.getElem?_eq_getElem hv, hget]
      rw [List.getElem?_take_of_lt hvu, record_stable hs in_file (u + 1) v (by omega)] at h2
      have h3 := Option.some.inj h2
      refine ⟨v, hvu, ?_⟩
      rw [record_eq hs in_file v]
      have h4 : (run_ticks sort (initial_state in_file) (v + 1)).current_id = c := by
        rw [← hr2, ← h3]
      rw [h4]
  · unfold main
    rw [main_loop_congr hs 24 _ (by decide!)]
    decide!

set_option maxRecDepth 100000 in
theorem mlfq_no_preemption_witness :
    (run_ticks insertion_sort (initial_state waiting_and_arriving_jobs) 8).current_id = 0 ∧
    (run_ticks insertion_sort (initial_state waiting_and_arriving_jobs) 8).time_out = 8 ∧
    (admission (run_ticks insertion_sort
      (initial_state waiting_and_arriving_jobs) 8)).arrival_queue = [1, 2] ∧
    (run_ticks insertion_sort (initial_state waiting_and_arriving_jobs) 9).out_file[8]? =
      some (8, 1) ∧
    (run_ticks insertion_sort (initial_state waiting_and_arriving_jobs) (14 + 1)).out_file[14]? =
      some (((14 : Nat) : Int), 0) ∧
    (∃ v : Nat, 7 + 1 ≤ v ∧ v < 14 ∧
      (run_ticks insertion_sort (initial_state waiting_and_arriving_jobs) (v + 1)).out_file[v]? =
        some ((v : Int), 2)) :=
  ⟨by decide!, by decide!, by decide!,
    ((mlfq_no_preemption insertion_sort insertion_sort_stdSort waiting_and_arriving_jobs
      (by simp [PrioritiesValid, waiting_and_arriving_jobs, HIGH_PRIORITY])
      7 0 (by decide) (by decide!)).2.2.2.1 (by decide!) 1 [2] (by decide!)).2.1,
    by decide!,
    (((mlfq_no_preemption insertion_sort insertion_sort_stdSort waiting_and_arriving_jobs
      (by simp [PrioritiesValid, waiting_and_arriving_jobs, HIGH_PRIORITY])
      7 0 (by decide) (by decide!)).2.2.2.1 (by decide!) 1 [2] (by decide!)).2.2.2.1 2
        (by simp)).1 14 (by decide) (by decide!)⟩

set_option maxRecDepth 100000 in
/-- Counterexample to C8 as stated.  On `A 0 0 20`, `B 0 0 3`, `C 0 1 3` (a valid input) job
0 is dispatched at tick 0 with `time_out = 8`, job 1 waits in the arrival queue since tick 0,
and job 2 is the only job that arrives while job 0 runs (at tick 1; nothing else is admitted
at the ticks 1..8).  Job 2 is not dispatched at the expiry tick 8 of job 0: the record of
tick 8 names job 1, and job 2 is named for the first time at tick 11. -/
theorem mlfq_no_preemption_counterexample :
    (ArrivalsSorted waiting_and_arriving_jobs ∧ ArrivalsNonneg waiting_and_arriving_jobs ∧
      SlotsPositive waiting_and_arriving_jobs ∧ PrioritiesValid waiting_and_arriving_jobs) ∧
    (run_ticks insertion_sort (initial_state waiting_and_arriving_jobs) 1).current_id = 0 ∧
    (run_ticks insertion_sort (initial_state waiting_and_arriving_jobs) 1).time_out = 8 ∧
    admitted_at insertion_sort waiting_and_arriving_jobs 0 = [0, 1] ∧
    admitted_at insertion_sort waiting_and_arriving_jobs 1 = [2] ∧
    (∀ t : Nat, t < 9 → 2 ≤ t → admitted_at insertion_sort waiting_and_arriving_jobs t = []) ∧
    (run_ticks insertion_sort (initial_state waiting_and_arriving_jobs) 9).out_file[8]? =
      some (8, 1) ∧
    (2 : Int) ∉ names (run_ticks insertion_sort (initial_state waiting_and_arriving_jobs) 11).out_file ∧
    (run_ticks insertion_sort (initial_state waiting_and_arriving_jobs) 12).out_file[11]? =
      some (11, 2) := by
  refine ⟨?_, by decide!, by decide!, by decide!, by decide!, by decide!, by decide!,
    by decide!, by decide!⟩
  simp [ArrivalsSorted, ArrivalsNonneg, SlotsPositive, PrioritiesValid,
    waiting_and_arriving_jobs, HIGH_PRIORITY]

end Mlfq
end CpuScheduler

/-! ## Equal keys under the `std::sort` of libstdc++ -/

namespace CpuScheduler
namespace Libstdcxx

end Libstdcxx

namespace Mlfq

end Mlfq
end CpuScheduler
